import Mathlib

/-!
# MacRuby `class.c`: the object-model core

A shallow embedding of `src/class.c` (MacRuby's port of Ruby 1.9's `class.c`
onto the Objective-C runtime) together with theorems about it.

Conventions of the embedding.

* A `VALUE` is the decoded machine word: the special constants, fixnums,
  symbols, and references into the heap.  The zero word is both `Qfalse` and
  the C `NULL` / `Nil` pointer, so `NULL` is an abbreviation for `Qfalse`.
* The heap is a list of records; `VALUE.ref a` points at index `a`.  A record
  is either a host-level class record (`is_class`) or an ordinary object.
* A C function that may `rb_raise`, fail an `assert`, or loop for ever returns
  `Except (Exn × State) (α × State)`: the state reached is kept on both sides.
  Loops and the (genuinely cyclic) call graph of the C code are unrolled with
  a `fuel` argument; `Exn.timeout` is the outcome of running out of fuel.
* Functions of the Objective-C runtime and of other files of the interpreter
  are not part of `class.c`; they are modelled at their interface and say so
  in their doc comment.
-/

deriving instance DecidableEq for Except

namespace MacRuby

/-! ## Data model -/

/-- The decoded machine word. -/
inductive VALUE where
  | Qfalse
  | Qtrue
  | Qnil
  | Qundef
  | fixnum (n : Int)
  | symbol (name : String)
  | ref (addr : Nat)
  deriving DecidableEq, Repr

/-- The zero word: `NULL`, `Nil`, `0` and `Qfalse` coincide. -/
@[reducible, match_pattern] def NULL : VALUE := VALUE.Qfalse

/-- The ways a call can fail to return normally. -/
inductive Exn where
  | TypeError
  | NameError
  | ArgError
  | SecurityError
  | FrozenError
  | assertion
  | bug
  | fatal
  | undefined
  | timeout
  deriving DecidableEq, Repr

/-- The type tags `TYPE(x)` can return (those this file distinguishes). -/
inductive ruby_value_type where
  | T_NONE
  | T_NIL
  | T_OBJECT
  | T_CLASS
  | T_MODULE
  | T_ARRAY
  | T_HASH
  | T_STRING
  | T_FIXNUM
  | T_SYMBOL
  | T_TRUE
  | T_FALSE
  | T_UNDEF
  deriving DecidableEq, Repr

open ruby_value_type

/-- The kind flags kept in a class record's version word. -/
inductive VFlag where
  | RCLASS_IS_OBJECT_SUBCLASS
  | RCLASS_IS_RUBY_CLASS
  | RCLASS_IS_MODULE
  | RCLASS_IS_SINGLETON
  | RCLASS_IS_STRING_SUBCLASS
  | RCLASS_IS_ARRAY_SUBCLASS
  | RCLASS_IS_HASH_SUBCLASS
  deriving DecidableEq, Repr

open VFlag

/-- The version word of a class record, one boolean per flag bit.  The
numeric values of the bits are declared in `ruby.h`, which is not part of the
sources; only that they are distinct single bits matters here. -/
structure Version where
  object_subclass : Bool := false
  ruby_class : Bool := false
  is_module : Bool := false
  singleton : Bool := false
  string_subclass : Bool := false
  array_subclass : Bool := false
  hash_subclass : Bool := false
  deriving DecidableEq, Repr

/-- The test `(v & f) == f`. -/
def Version.test (v : Version) : VFlag → Bool
  | RCLASS_IS_OBJECT_SUBCLASS => v.object_subclass
  | RCLASS_IS_RUBY_CLASS => v.ruby_class
  | RCLASS_IS_MODULE => v.is_module
  | RCLASS_IS_SINGLETON => v.singleton
  | RCLASS_IS_STRING_SUBCLASS => v.string_subclass
  | RCLASS_IS_ARRAY_SUBCLASS => v.array_subclass
  | RCLASS_IS_HASH_SUBCLASS => v.hash_subclass

/-- The word `v | f`. -/
def Version.or (v : Version) : VFlag → Version
  | RCLASS_IS_OBJECT_SUBCLASS => { v with object_subclass := true }
  | RCLASS_IS_RUBY_CLASS => { v with ruby_class := true }
  | RCLASS_IS_MODULE => { v with is_module := true }
  | RCLASS_IS_SINGLETON => { v with singleton := true }
  | RCLASS_IS_STRING_SUBCLASS => { v with string_subclass := true }
  | RCLASS_IS_ARRAY_SUBCLASS => { v with array_subclass := true }
  | RCLASS_IS_HASH_SUBCLASS => { v with hash_subclass := true }

/-- The word `v ^ f`. -/
def Version.xor (v : Version) : VFlag → Version
  | RCLASS_IS_OBJECT_SUBCLASS => { v with object_subclass := !v.object_subclass }
  | RCLASS_IS_RUBY_CLASS => { v with ruby_class := !v.ruby_class }
  | RCLASS_IS_MODULE => { v with is_module := !v.is_module }
  | RCLASS_IS_SINGLETON => { v with singleton := !v.singleton }
  | RCLASS_IS_STRING_SUBCLASS => { v with string_subclass := !v.string_subclass }
  | RCLASS_IS_ARRAY_SUBCLASS => { v with array_subclass := !v.array_subclass }
  | RCLASS_IS_HASH_SUBCLASS => { v with hash_subclass := !v.hash_subclass }

/-- Visibility constants of `node.h`. -/
def NOEX_PUBLIC : Nat := 0
/-- Visibility constant: undefined (tombstone). -/
def NOEX_UNDEF : Nat := 1
/-- Visibility constant: private. -/
def NOEX_PRIVATE : Nat := 2
/-- Visibility constant: protected. -/
def NOEX_PROTECTED : Nat := 4
/-- The visibility mask. -/
def NOEX_MASK : Nat := 6

/-- The method node behind a Ruby-level implementation: its visibility and,
for a C function body, the function and its arity (`NEW_CFUNC`). -/
structure NODE where
  noex : Nat := 0
  body : Option (String × Int) := none
  deriving DecidableEq, Repr

/-- An implementation pointer.  `node` is what `rb_objc_method_node3` finds
for it: `none` for a native implementation. -/
structure IMP where
  addr : Nat := 0
  node : Option NODE := none
  deriving DecidableEq, Repr

/-- One entry of a host-level method list. -/
structure Method where
  sel : String
  imp : IMP := {}
  types : String := ""
  deriving DecidableEq, Repr

/-- A heap record: the header every object has, plus the fields of a class
record (meaningful when `is_class`). -/
structure RObject where
  klass : VALUE := NULL
  is_class : Bool := false
  is_meta : Bool := false
  builtin_type : ruby_value_type := T_OBJECT
  frozen : Bool := false
  tainted : Bool := false
  ivars : List (String × VALUE) := []
  super : VALUE := NULL
  version : Version := {}
  methods : List Method := []
  name : String := ""
  included_modules : Option (List VALUE) := none
  included_in_classes : Option (List VALUE) := none
  allocator : Option String := none
  deriving DecidableEq, Repr

/-- The three built-in container kinds. -/
inductive Container where
  | array
  | hash
  | string
  deriving DecidableEq, Repr

/-- What `rb_warn` / `rb_warning` were called with. -/
inductive Warning where
  | class_exists (name ocname : String)
  | clone_unsupported (orig : VALUE)
  | no_super_class (name : String)
  deriving DecidableEq, Repr

/-- The whole mutable state `class.c` reads and writes. -/
structure State where
  heap : List RObject := []
  rb_cObject : VALUE := NULL
  rb_cClass : VALUE := NULL
  rb_cModule : VALUE := NULL
  rb_cNSObject : VALUE := NULL
  rb_cArray : VALUE := NULL
  rb_cHash : VALUE := NULL
  rb_cString : VALUE := NULL
  rb_cNSMutableArray : VALUE := NULL
  rb_cNSMutableHash : VALUE := NULL
  rb_cNSMutableString : VALUE := NULL
  rb_cNilClass : VALUE := NULL
  rb_cTrueClass : VALUE := NULL
  rb_cFalseClass : VALUE := NULL
  rb_class_tbl : Option (List (String × VALUE)) := none
  objc_classes : List (String × VALUE) := []
  anon_count : Nat := 1
  safe_level : Nat := 0
  warnings : List Warning := []
  installed : List (VALUE × Container) := []
  sel_ignored : String := "<ignored selector>"
  rb_cFixnum : VALUE := NULL
  rb_cSymbol : VALUE := NULL
  constants : List ((VALUE × String) × VALUE) := []
  funcalls : List (VALUE × String × VALUE) := []
  deriving DecidableEq, Repr

/-- What a raising C call leaves behind: the exception and the state reached. -/
abbrev Err := Exn × State

/-! ## Heap access -/

/-- The record a word points at, if it is a valid reference. -/
def deref (s : State) : VALUE → Option RObject
  | VALUE.ref a => s.heap[a]?
  | _ => none

/-- In-place update of the record a word points at (no effect on a word that
is not a valid reference). -/
def modify (s : State) (v : VALUE) (f : RObject → RObject) : State :=
  match v with
  | VALUE.ref a =>
    match s.heap[a]? with
    | some o => { s with heap := s.heap.set a (f o) }
    | none => s
  | _ => s

/-- The field `RBASIC(obj)->klass`, also read as `*(VALUE *)obj`. -/
def RBASIC_klass (s : State) (obj : VALUE) : VALUE :=
  match deref s obj with
  | some o => o.klass
  | none => NULL

/-- The field `RCLASS_SUPER(m)`. -/
def RCLASS_SUPER (s : State) (m : VALUE) : VALUE :=
  match deref s m with
  | some o => o.super
  | none => NULL

/-- The word `RCLASS_VERSION(m)`. -/
def RCLASS_VERSION (s : State) (m : VALUE) : Version :=
  match deref s m with
  | some o => o.version
  | none => {}

/-- The test `RCLASS_SINGLETON(m)`. -/
def RCLASS_SINGLETON (s : State) (m : VALUE) : Bool :=
  (RCLASS_VERSION s m).test RCLASS_IS_SINGLETON

/-- The test `RCLASS_MODULE(m)`. -/
def RCLASS_MODULE (s : State) (m : VALUE) : Bool :=
  (RCLASS_VERSION s m).test RCLASS_IS_MODULE

/-- Host runtime: `class_setVersion`. -/
def class_setVersion (s : State) (m : VALUE) (v : Version) : State :=
  modify s m (fun o => { o with version := v })

/-- The macro `RCLASS_SET_VERSION_FLAG(m, f)`. -/
def RCLASS_SET_VERSION_FLAG (s : State) (m : VALUE) (f : VFlag) : State :=
  class_setVersion s m ((RCLASS_VERSION s m).or f)

/-- The macro `TYPE(x)`.  Modelled from the spec: a class record is a module
exactly when it is tagged is-module, and a class otherwise. -/
def TYPE (s : State) : VALUE → ruby_value_type
  | VALUE.Qnil => T_NIL
  | VALUE.Qfalse => T_FALSE
  | VALUE.Qtrue => T_TRUE
  | VALUE.Qundef => T_UNDEF
  | VALUE.fixnum _ => T_FIXNUM
  | VALUE.symbol _ => T_SYMBOL
  | VALUE.ref a =>
    match s.heap[a]? with
    | some o =>
      if o.is_class then (if o.version.test RCLASS_IS_MODULE then T_MODULE else T_CLASS)
      else o.builtin_type
    | none => T_NONE

/-- The macro `RTEST(v)`. -/
def RTEST : VALUE → Bool
  | VALUE.Qfalse => false
  | VALUE.Qnil => false
  | _ => true

/-- The macro `OBJ_FROZEN(x)`. -/
def OBJ_FROZEN (s : State) (x : VALUE) : Bool :=
  match deref s x with
  | some o => o.frozen
  | none => false

/-- The macro `OBJ_TAINTED(x)`. -/
def OBJ_TAINTED (s : State) (x : VALUE) : Bool :=
  match deref s x with
  | some o => o.tainted
  | none => false

/-- The macro `OBJ_FREEZE(x)`. -/
def OBJ_FREEZE (s : State) (x : VALUE) : State :=
  modify s x (fun o => { o with frozen := true })

/-- Instance-variable lookup, `Qnil` when unset.  Modelled from the spec: the
instance variable table is a mapping from identifier to value. -/
def rb_ivar_get (s : State) (obj : VALUE) (id : String) : VALUE :=
  match deref s obj with
  | some o =>
    match o.ivars.lookup id with
    | some v => v
    | none => VALUE.Qnil
  | none => VALUE.Qnil

/-- Instance-variable store.  Modelled from the spec: insertion or overwrite
in the mapping from identifier to value. -/
def rb_ivar_set (s : State) (obj : VALUE) (id : String) (v : VALUE) : State :=
  modify s obj (fun o => { o with ivars := (id, v) :: o.ivars.filter (fun p => p.1 ≠ id) })

/-- The call `rb_iv_get(obj, name)`: `rb_ivar_get` on the interned name. -/
def rb_iv_get (s : State) (obj : VALUE) (name : String) : VALUE :=
  rb_ivar_get s obj name

/-! ## Host runtime (Objective-C) primitives, modelled at their interface -/

/-- Host runtime: `class_getSuperclass`, which answers `Nil` for `Nil`. -/
def class_getSuperclass (s : State) (cls : VALUE) : VALUE :=
  RCLASS_SUPER s cls

/-- Host runtime: `class_copyMethodList`, the methods a class owns directly
(no ancestry walk); the empty list stands for the `NULL` result. -/
def class_copyMethodList (s : State) (cls : VALUE) : List Method :=
  match deref s cls with
  | some o => o.methods
  | none => []

/-- A `Method` pointer: the class record that owns the entry and its selector
(the first entry of that selector in the owner's list). -/
structure MethodRef where
  owner : VALUE
  sel : String
  deriving DecidableEq, Repr

/-- Host runtime: `class_getInstanceMethod`, the first entry for the selector
on the superclass chain starting at `cls`; `none` is the `NULL` result. -/
def class_getInstanceMethod : Nat → State → VALUE → String → Except Exn (Option MethodRef)
  | 0, _, _, _ => Except.error Exn.timeout
  | fuel + 1, s, cls, sel =>
    match deref s cls with
    | none => Except.ok none
    | some o =>
      if o.methods.any (fun m => m.sel = sel) then Except.ok (some { owner := cls, sel := sel })
      else class_getInstanceMethod fuel s o.super sel

/-- Replace the implementation of the first entry with the given selector. -/
def set_imp (sel : String) (imp : IMP) : List Method → List Method
  | [] => []
  | m :: ms => if m.sel = sel then { m with imp := imp } :: ms else m :: set_imp sel imp ms

/-- Host runtime: `method_setImplementation`. -/
def method_setImplementation (s : State) (m : MethodRef) (imp : IMP) : State :=
  modify s m.owner (fun o => { o with methods := set_imp m.sel imp o.methods })

/-- Host runtime: `class_addMethod`: adds an own entry and answers `YES`,
unless the class already owns an entry for the selector (then `NO`, and
nothing changes).  New entries go to the front of the list. -/
def class_addMethod (s : State) (cls : VALUE) (sel : String) (imp : IMP) (types : String) :
    Bool × State :=
  match deref s cls with
  | none => (false, s)
  | some o =>
    if o.methods.any (fun m => m.sel = sel) then (false, s)
    else (true, modify s cls (fun o => { o with methods := { sel := sel, imp := imp, types := types } :: o.methods }))

/-- The implementation a class owns for a selector, if it owns one. -/
def own_imp (s : State) (cls : VALUE) (sel : String) : Option IMP :=
  match (class_copyMethodList s cls).find? (fun m => m.sel = sel) with
  | some m => some m.imp
  | none => none

/-- Host runtime: `objc_getClass`, the registered class of that name or `Nil`. -/
def objc_getClass (s : State) (name : String) : VALUE :=
  match s.objc_classes.lookup name with
  | some c => c
  | none => NULL

/-- Host runtime: `objc_allocateClassPair`.  Answers `Nil` when the name is
taken; otherwise allocates a class record and, right after it, its metaclass
record.  The class points at its metaclass; the metaclass continues the
metaclass chain of the superclass. -/
def objc_allocateClassPair (s : State) (super : VALUE) (name : String) : VALUE × State :=
  if objc_getClass s name ≠ NULL then (NULL, s)
  else
    let cls := VALUE.ref s.heap.length
    let mcls := VALUE.ref (s.heap.length + 1)
    let crec : RObject := { klass := mcls, is_class := true, super := super, name := name }
    let mrec : RObject :=
      { klass := if super = NULL then mcls else RBASIC_klass s (RBASIC_klass s super),
        is_class := true, is_meta := true,
        super := if super = NULL then cls else RBASIC_klass s super,
        name := name }
    (cls, { s with heap := s.heap ++ [crec, mrec] })

/-- Host runtime: `objc_registerClassPair`. -/
def objc_registerClassPair (s : State) (cls : VALUE) : State :=
  match deref s cls with
  | some o => { s with objc_classes := s.objc_classes ++ [(o.name, cls)] }
  | none => s

/-! ## Specialization installer -/

/-- Modelled from the spec: `rb_objc_install_array_primitives` installs the
array kind's specialised method set, whose contents are out of scope; the
installation is recorded. -/
def rb_objc_install_array_primitives (s : State) (ocklass : VALUE) : State :=
  { s with installed := s.installed ++ [(ocklass, Container.array)] }

/-- Modelled from the spec: `rb_objc_install_hash_primitives`, recorded like
the array one. -/
def rb_objc_install_hash_primitives (s : State) (ocklass : VALUE) : State :=
  { s with installed := s.installed ++ [(ocklass, Container.hash)] }

/-- Modelled from the spec: `rb_objc_install_string_primitives`, recorded like
the array one. -/
def rb_objc_install_string_primitives (s : State) (ocklass : VALUE) : State :=
  { s with installed := s.installed ++ [(ocklass, Container.string)] }

/-- The `do ... while (ocsuper != NULL)` loop of `rb_objc_install_primitives`. -/
def rb_objc_install_primitives_loop : Nat → State → VALUE → VALUE → Except Err (Bool × State)
  | 0, s, _, _ => Except.error (Exn.timeout, s)
  | fuel + 1, s, ocklass, ocsuper =>
    if ocsuper = s.rb_cArray then
      let s := rb_objc_install_array_primitives s ocklass
      let s := RCLASS_SET_VERSION_FLAG s ocklass RCLASS_IS_ARRAY_SUBCLASS
      Except.ok (true, s)
    else if ocsuper = s.rb_cHash then
      let s := rb_objc_install_hash_primitives s ocklass
      let s := RCLASS_SET_VERSION_FLAG s ocklass RCLASS_IS_HASH_SUBCLASS
      Except.ok (true, s)
    else if ocsuper = s.rb_cString then
      let s := rb_objc_install_string_primitives s ocklass
      let s := RCLASS_SET_VERSION_FLAG s ocklass RCLASS_IS_STRING_SUBCLASS
      Except.ok (true, s)
    else
      let ocsuper := class_getSuperclass s ocsuper
      if ocsuper ≠ NULL then rb_objc_install_primitives_loop fuel s ocklass ocsuper
      else Except.ok (false, s)

/-- The function `rb_objc_install_primitives` (class.c 29-54). -/
def rb_objc_install_primitives (fuel : Nat) (s : State) (ocklass ocsuper : VALUE) : Except Err (Bool × State) :=
  if s.rb_cArray ≠ NULL ∧ s.rb_cHash ≠ NULL ∧ s.rb_cString ≠ NULL then
    rb_objc_install_primitives_loop fuel s ocklass ocsuper
  else Except.ok (false, s)

/-- The chain `c, superclass(c), ...` up to the first `Nil`, at most `n` long. -/
def class_chain (s : State) : Nat → VALUE → List VALUE
  | 0, _ => []
  | n + 1, c => if c = NULL then [] else c :: class_chain s n (class_getSuperclass s c)

/-- Which container root a class is, if any (array first, then hash, then
string, the order of the tests in `rb_objc_install_primitives`). -/
def container_root (s : State) (c : VALUE) : Option Container :=
  if c = s.rb_cArray then some Container.array
  else if c = s.rb_cHash then some Container.hash
  else if c = s.rb_cString then some Container.string
  else none

/-- The kind flag of a container kind. -/
def Container.flag : Container → VFlag
  | Container.array => RCLASS_IS_ARRAY_SUBCLASS
  | Container.hash => RCLASS_IS_HASH_SUBCLASS
  | Container.string => RCLASS_IS_STRING_SUBCLASS

/-- The installer of a container kind. -/
def Container.install : Container → State → VALUE → State
  | Container.array => rb_objc_install_array_primitives
  | Container.hash => rb_objc_install_hash_primitives
  | Container.string => rb_objc_install_string_primitives

/-! ## Class and module factory -/

/-- The call `snprintf(ocname, sizeof ocname, ...)` into `char ocname[128]`:
at most 127 characters are kept. -/
def snprintf_ocname (str : String) : String :=
  String.mk (str.data.take 127)

/-- The loop `while (objc_getClass(ocname) != NULL) snprintf(..., ++count)` of
`rb_objc_alloc_class`; answers the first free name. -/
def rb_objc_alloc_class_rename : Nat → State → String → Nat → String → Except Exn String
  | 0, _, _, _, _ => Except.error Exn.timeout
  | fuel + 1, s, name, count, ocname =>
    if objc_getClass s ocname ≠ NULL then
      let count := count + 1
      rb_objc_alloc_class_rename fuel s name count
        (snprintf_ocname ("RB" ++ name ++ toString count))
    else Except.ok ocname

/-- The first half of `rb_objc_alloc_class` (class.c 71-87): the host-level
name the new class gets.  `name = none` is the `NULL` name. -/
def rb_objc_alloc_class_name (fuel : Nat) (s : State) (name : Option String) : Except Err (String × State) :=
  match name with
  | none =>
    let s := { s with anon_count := s.anon_count + 1 }
    Except.ok (snprintf_ocname ("RBAnonymous" ++ toString s.anon_count), s)
  | some name =>
    if objc_getClass s name ≠ NULL then
      match rb_objc_alloc_class_rename fuel s name 1 (snprintf_ocname ("RB" ++ name)) with
      | Except.error e => Except.error (e, s)
      | Except.ok ocname =>
        Except.ok (ocname, { s with warnings := s.warnings ++ [Warning.class_exists name ocname] })
    else if name.length < 128 then Except.ok (name, s)
    else Except.error (Exn.undefined, s)

/-- The version word `rb_objc_alloc_class` computes for the new class
(class.c 95-104). -/
def rb_objc_alloc_class_version (s : State) (super : VALUE) (flags : ruby_value_type) :
    Version :=
  let version_flag : Version := ({} : Version).or RCLASS_IS_RUBY_CLASS
  let version_flag :=
    if flags = T_MODULE then version_flag.or RCLASS_IS_MODULE else version_flag
  if super = s.rb_cObject then version_flag.or RCLASS_IS_OBJECT_SUBCLASS
  else if (RCLASS_VERSION s super).test RCLASS_IS_OBJECT_SUBCLASS then
    version_flag.or RCLASS_IS_OBJECT_SUBCLASS
  else version_flag

/-- The function `rb_objc_alloc_class` (class.c 64-114).  `flags` is the type
tag passed (`T_CLASS` or `T_MODULE`). -/
def rb_objc_alloc_class (fuel : Nat) (s : State) (name : Option String) (super : VALUE)
    (flags : ruby_value_type) (klass : VALUE) : Except Err (VALUE × State) := do
  let (ocname, s) ← rb_objc_alloc_class_name fuel s name
  let super := if super = NULL then s.rb_cObject else super
  let (ocklass, s) := objc_allocateClassPair s super ocname
  if ocklass = NULL then Except.error (Exn.assertion, s)
  else
    let s := class_setVersion s ocklass (rb_objc_alloc_class_version s super flags)
    if klass ≠ NULL then do
      let (_, s) ← rb_objc_install_primitives fuel s ocklass super
      pure (ocklass, s)
    else pure (ocklass, s)

/-- Modelled from the spec: `rb_add_method` (not part of `class.c`) is the
unconditional own-table insertion or overwrite of a selector with an
implementation of the given body and visibility; it always succeeds. -/
def rb_add_method (s : State) (klass : VALUE) (mid : String) (body : Option (String × Int))
    (noex : Nat) : State :=
  let imp : IMP := { addr := 0, node := some { noex := noex, body := body } }
  modify s klass (fun o =>
    if o.methods.any (fun m => m.sel = mid) then { o with methods := set_imp mid imp o.methods }
    else { o with methods := { sel := mid, imp := imp } :: o.methods })

/-- The function `rb_define_method` (class.c 885-889). -/
def rb_define_method (s : State) (klass : VALUE) (name : String) (func : String) (argc : Int) :
    State :=
  rb_add_method s klass name (some (func, argc)) NOEX_PUBLIC

/-- The function `rb_define_method_id` (class.c 879-883). -/
def rb_define_method_id (s : State) (klass : VALUE) (name : String) (func : String)
    (argc : Int) : State :=
  rb_add_method s klass name (some (func, argc)) NOEX_PUBLIC

/-- The function `rb_define_protected_method` (class.c 891-895). -/
def rb_define_protected_method (s : State) (klass : VALUE) (name : String) (func : String)
    (argc : Int) : State :=
  rb_add_method s klass name (some (func, argc)) NOEX_PROTECTED

/-- The function `rb_define_private_method` (class.c 897-901). -/
def rb_define_private_method (s : State) (klass : VALUE) (name : String) (func : String)
    (argc : Int) : State :=
  rb_add_method s klass name (some (func, argc)) NOEX_PRIVATE

/-- The function `rb_undef_method` (class.c 903-907). -/
def rb_undef_method (s : State) (klass : VALUE) (name : String) : State :=
  rb_add_method s klass name none NOEX_UNDEF

/-- Modelled from the spec: `rb_define_alloc_func` (not part of `class.c`)
gives a descriptor its allocation function. -/
def rb_define_alloc_func (s : State) (klass : VALUE) (func : String) : State :=
  modify s klass (fun o => { o with allocator := some func })

/-- The assignment `RBASIC(obj)->klass = k`. -/
def RBASIC_set_klass (s : State) (obj k : VALUE) : State :=
  modify s obj (fun o => { o with klass := k })

/-- The assignment `RCLASS_SUPER(m) = super`. -/
def RCLASS_set_SUPER (s : State) (m super : VALUE) : State :=
  modify s m (fun o => { o with super := super })

/-- The function `rb_singleton_class_attached` (class.c 279-288). -/
def rb_singleton_class_attached (s : State) (klass obj : VALUE) : State :=
  if RCLASS_SINGLETON s klass then rb_ivar_set s klass "__attached__" obj else s

/-- The macro `FIXNUM_P`. -/
def FIXNUM_P : VALUE → Bool
  | VALUE.fixnum _ => true
  | _ => false

/-- The macro `SYMBOL_P`. -/
def SYMBOL_P : VALUE → Bool
  | VALUE.symbol _ => true
  | _ => false

/-- The function `rb_special_const_p`: every word that is not a reference. -/
def rb_special_const_p : VALUE → Bool
  | VALUE.ref _ => false
  | _ => true

/-- The insertion `st_insert(tbl, key, value)`. -/
def st_insert (tbl : List (String × VALUE)) (key : String) (value : VALUE) :
    List (String × VALUE) :=
  (key, value) :: tbl.filter (fun p => p.1 ≠ key)

/-- The second half of the creating branch of `rb_make_metaclass`
(class.c 301-307), from the state in which `klass` has just been created. -/
def rb_make_metaclass_finish (s : State) (obj super klass : VALUE) : State :=
  let s := RBASIC_set_klass s obj klass
  let s :=
    if super = s.rb_cNSObject then
      class_setVersion s klass ((RCLASS_VERSION s klass).xor RCLASS_IS_OBJECT_SUBCLASS)
    else s
  let s := RCLASS_SET_VERSION_FLAG s klass RCLASS_IS_SINGLETON
  rb_singleton_class_attached s klass obj

/-- The end of `rb_objc_create_class` (class.c 131-132): a named class is
entered into `rb_class_tbl` when that table exists. -/
def rb_objc_create_class_tbl (s : State) (name : Option String) (klass : VALUE) : State :=
  match name, s.rb_class_tbl with
  | some n, some tbl => { s with rb_class_tbl := some (st_insert tbl n klass) }
  | _, _ => s

mutual

/-- The function `rb_objc_create_class` (class.c 116-135). -/
def rb_objc_create_class : Nat → State → Option String → VALUE → Except Err (VALUE × State)
  | 0, s, _, _ => Except.error (Exn.timeout, s)
  | fuel + 1, s, name, super => do
    let (klass, s) ← rb_objc_alloc_class fuel s name super T_CLASS s.rb_cClass
    let s := objc_registerClassPair s klass
    let (_, s) ←
      (if RCLASS_SUPER s klass = s.rb_cNSObject then do
        let s := rb_define_alloc_func s klass "rb_class_allocate_instance"
        let (_, s) ← rb_define_singleton_method fuel s klass "new" "rb_class_new_instance" (-1)
        let s := rb_define_method s klass "dup" "rb_obj_dup" 0
        let s := rb_define_method s klass "initialize_copy" "rb_obj_init_copy" 1
        pure ((), s)
      else pure ((), s) : Except Err (Unit × State))
    pure (klass, rb_objc_create_class_tbl s name klass)

/-- The function `rb_class_boot` (class.c 137-142). -/
def rb_class_boot : Nat → State → VALUE → Except Err (VALUE × State)
  | 0, s, _ => Except.error (Exn.timeout, s)
  | fuel + 1, s, super => rb_objc_create_class fuel s none super

/-- The function `rb_make_metaclass` (class.c 290-311). -/
def rb_make_metaclass : Nat → State → VALUE → VALUE → Except Err (VALUE × State)
  | 0, s, _, _ => Except.error (Exn.timeout, s)
  | fuel + 1, s, obj, super =>
    if TYPE s obj = T_CLASS ∧ RCLASS_SINGLETON s obj = true then
      let s := RBASIC_set_klass s obj s.rb_cClass
      Except.ok (s.rb_cClass, s)
    else do
      let (klass, s) ← rb_class_boot fuel s super
      pure (klass, rb_make_metaclass_finish s obj super klass)

/-- The function `rb_singleton_class` (class.c 915-958). -/
def rb_singleton_class : Nat → State → VALUE → Except Err (VALUE × State)
  | 0, s, _ => Except.error (Exn.timeout, s)
  | fuel + 1, s, obj =>
    if FIXNUM_P obj = true ∨ SYMBOL_P obj = true then Except.error (Exn.TypeError, s)
    else if rb_special_const_p obj = true then
      if obj = VALUE.Qnil then Except.ok (s.rb_cNilClass, s)
      else if obj = VALUE.Qfalse then Except.ok (s.rb_cFalseClass, s)
      else if obj = VALUE.Qtrue then Except.ok (s.rb_cTrueClass, s)
      else Except.error (Exn.bug, s)
    else do
      let (klass, s) ←
        (if RCLASS_SINGLETON s (RBASIC_klass s obj) = true ∧
            rb_iv_get s (RBASIC_klass s obj) "__attached__" = obj then
          pure (RBASIC_klass s obj, s)
        else
          match TYPE s obj with
          | T_CLASS => pure (RBASIC_klass s obj, s)
          | T_MODULE => pure (RBASIC_klass s obj, s)
          | _ => rb_make_metaclass fuel s obj (RBASIC_klass s obj) : Except Err (VALUE × State))
      let s := if OBJ_FROZEN s obj = true then OBJ_FREEZE s klass else s
      pure (klass, s)

/-- The function `rb_define_singleton_method` (class.c 960-964). -/
def rb_define_singleton_method : Nat → State → VALUE → String → String → Int → Except Err (Unit × State)
  | 0, s, _, _, _, _ => Except.error (Exn.timeout, s)
  | fuel + 1, s, obj, name, func, argc => do
    let (klass, s) ← rb_singleton_class fuel s obj
    pure ((), rb_define_method s klass name func argc)

end

/-- The function `rb_define_module_function` (class.c 966-971). -/
def rb_define_module_function (fuel : Nat) (s : State) (module : VALUE) (name : String)
    (func : String) (argc : Int) : Except Err (Unit × State) :=
  let s := rb_define_private_method s module name func argc
  rb_define_singleton_method fuel s module name func argc

/-! ## Clone / copy engine -/

/-- The function `rb_obj_init_copy` of `object.c`, modelled at its interface:
nothing happens when the two are the same object; a frozen receiver or a
type mismatch raises.  (Its comparison of the two objects' classes depends on
the interpreter's class-of mapping and is not modelled.) -/
def rb_obj_init_copy (s : State) (obj orig : VALUE) : Except Err (VALUE × State) :=
  if obj = orig then Except.ok (obj, s)
  else if OBJ_FROZEN s obj = true then Except.error (Exn.FrozenError, s)
  else if TYPE s obj ≠ TYPE s orig then Except.error (Exn.TypeError, s)
  else Except.ok (obj, s)

/-- The function `rb_mod_init_copy` (class.c 168-215).  The block under
`#if 0 // TODO` (copy of the instance-variable table and of the method table)
is not compiled and therefore not part of the function. -/
def rb_mod_init_copy (s : State) (clone orig : VALUE) : Except Err (VALUE × State) := do
  let (_, s) ← rb_obj_init_copy s clone orig
  let (super, s) :=
    if orig = s.rb_cNSMutableString ∨ orig = s.rb_cNSMutableArray ∨ orig = s.rb_cNSMutableHash
    then (orig, { s with warnings := s.warnings ++ [Warning.clone_unsupported orig] })
    else (RCLASS_SUPER s orig, s)
  let s := RCLASS_set_SUPER s clone super
  let version_flag : Version := ({} : Version).or RCLASS_IS_RUBY_CLASS
  let version_flag :=
    if (RCLASS_VERSION s super).test RCLASS_IS_OBJECT_SUBCLASS then
      version_flag.or RCLASS_IS_OBJECT_SUBCLASS
    else version_flag
  let s := class_setVersion s clone version_flag
  pure (clone, s)

/-- The function `rb_class_init_copy` (class.c 218-227). -/
def rb_class_init_copy (fuel : Nat) (s : State) (clone orig : VALUE) :
    Except Err (VALUE × State) :=
  if RCLASS_SINGLETON s orig = true then Except.error (Exn.TypeError, s)
  else do
    let (clone, s) ← rb_mod_init_copy s clone orig
    let (_, s) ← rb_objc_install_primitives fuel s clone orig
    pure (clone, s)

/-! ## Module inclusion engine -/

/-- The function `rb_frozen_class_p` of `eval.c`, modelled at its interface:
raises when the class is frozen. -/
def rb_frozen_class_p (s : State) (klass : VALUE) : Except Err (Unit × State) :=
  if OBJ_FROZEN s klass = true then Except.error (Exn.FrozenError, s) else Except.ok ((), s)

/-- The function `rb_secure` of `safe.c`, modelled at its interface: raises
when the safe level has reached `level`. -/
def rb_secure (s : State) (level : Nat) : Except Err (Unit × State) :=
  if level ≤ s.safe_level then Except.error (Exn.SecurityError, s) else Except.ok ((), s)

/-- The macro `Check_Type(x, t)`. -/
def Check_Type (s : State) (x : VALUE) (t : ruby_value_type) : Except Err (Unit × State) :=
  if TYPE s x = t then Except.ok ((), s) else Except.error (Exn.TypeError, s)

/-- The value of `rb_ivar_get(klass, idIncludedModules)`: `none` is `Qnil`. -/
def included_modules_ivar (s : State) (klass : VALUE) : Option (List VALUE) :=
  match deref s klass with
  | some o => o.included_modules
  | none => none

/-- The value of `rb_ivar_get(module, idIncludedInClasses)`: `none` is `Qnil`. -/
def included_in_classes_ivar (s : State) (module : VALUE) : Option (List VALUE) :=
  match deref s module with
  | some o => o.included_in_classes
  | none => none

/-- The array behind `idIncludedModules` is replaced (the effect of
`rb_ivar_set` with a new array, and of `rb_ary_insert` on the one in place). -/
def set_included_modules (s : State) (klass : VALUE) (ary : List VALUE) : State :=
  modify s klass (fun o => { o with included_modules := some ary })

/-- The array behind `idIncludedInClasses` is replaced. -/
def set_included_in_classes (s : State) (module : VALUE) (ary : List VALUE) : State :=
  modify s module (fun o => { o with included_in_classes := some ary })

/-- The loop over the module's method list in `rb_include_module`
(class.c 482-500). -/
def rb_include_module_methods (fuel : Nat) :
    State → VALUE → List Method → Except Err (Unit × State)
  | s, _, [] => Except.ok ((), s)
  | s, klass, method :: rest =>
    match class_getInstanceMethod fuel s klass method.sel with
    | Except.error e => Except.error (e, s)
    | Except.ok none =>
      match class_addMethod s klass method.sel method.imp method.types with
      | (true, s) => rb_include_module_methods fuel s klass rest
      | (false, s) => Except.error (Exn.assertion, s)
    | Except.ok (some method2) =>
      match class_getInstanceMethod fuel s (RCLASS_SUPER s klass) method.sel with
      | Except.error e => Except.error (e, s)
      | Except.ok inherited =>
        if some method2 ≠ inherited then
          rb_include_module_methods fuel (method_setImplementation s method2 method.imp)
            klass rest
        else
          match class_addMethod s klass method.sel method.imp method.types with
          | (true, s) => rb_include_module_methods fuel s klass rest
          | (false, s) => Except.error (Exn.assertion, s)

/-- The bookkeeping of `rb_include_module` once the module is known not to be
in the list `ary` yet (class.c 471-478): the module goes to the front of the
class's list, the class to the end of the module's included-in list. -/
def rb_include_module_record (s : State) (klass module : VALUE) (ary : List VALUE) : State :=
  let s := set_included_modules s klass (module :: ary)
  let (ary, s) :=
    match included_in_classes_ivar s module with
    | none => (([] : List VALUE), set_included_in_classes s module [])
    | some ary => (ary, s)
  set_included_in_classes s module (ary ++ [klass])

/-- The function `rb_include_module` (class.c 450-501). -/
def rb_include_module (fuel : Nat) (s : State) (klass module : VALUE) :
    Except Err (Unit × State) := do
  let (_, s) ← rb_frozen_class_p s klass
  let (_, s) ← (if OBJ_TAINTED s klass = false then rb_secure s 4 else Except.ok ((), s))
  let (_, s) ← Check_Type s module T_MODULE
  let (ary, s) :=
    match included_modules_ivar s klass with
    | none => (([] : List VALUE), set_included_modules s klass [])
    | some ary => (ary, s)
  if module ∈ ary then Except.ok ((), s)
  else
    let s := rb_include_module_record s klass module ary
    rb_include_module_methods fuel s klass (class_copyMethodList s module)

/-- The loop `for (i = 0; i < count; i++)` of `rb_mod_included_modules_nosuper`,
given the function that answers `rb_mod_included_modules(imod)`. -/
def rb_mod_included_modules_nosuper_loop (included : VALUE → Except Exn (List VALUE)) :
    List VALUE → List VALUE → Except Exn (List VALUE)
  | [], ary => Except.ok ary
  | imod :: rest, ary =>
    match included imod with
    | Except.error e => Except.error e
    | Except.ok sub => rb_mod_included_modules_nosuper_loop included rest (ary ++ [imod] ++ sub)

/-- The function `rb_mod_included_modules_nosuper` (class.c 520-532), given
the function that answers `rb_mod_included_modules(imod)`. -/
def rb_mod_included_modules_nosuper (included : VALUE → Except Exn (List VALUE)) (s : State)
    (mod : VALUE) (ary : List VALUE) : Except Exn (List VALUE) :=
  match included_modules_ivar s mod with
  | none => Except.ok ary
  | some inc_mods => rb_mod_included_modules_nosuper_loop included inc_mods ary

/-- The loop `for (p = mod; p; p = RCLASS_SUPER(p))` of `rb_mod_included_modules`. -/
def rb_mod_included_modules_for (included : VALUE → Except Exn (List VALUE)) (s : State) :
    Nat → VALUE → List VALUE → Except Exn (List VALUE)
  | 0, _, _ => Except.error Exn.timeout
  | fuel + 1, p, ary =>
    if p = NULL then Except.ok ary
    else
      match rb_mod_included_modules_nosuper included s p ary with
      | Except.error e => Except.error e
      | Except.ok ary =>
        if RCLASS_MODULE s p = true then Except.ok ary
        else rb_mod_included_modules_for included s fuel (RCLASS_SUPER s p) ary

/-- The function `rb_mod_included_modules` (class.c 534-545).  One unit of fuel
is spent for every level of the recursion through
`rb_mod_included_modules_nosuper` and for every step of the loop. -/
def rb_mod_included_modules : Nat → State → VALUE → Except Exn (List VALUE)
  | 0, _, _ => Except.error Exn.timeout
  | fuel + 1, s, mod =>
    rb_mod_included_modules_for (rb_mod_included_modules fuel s) s (fuel + 1) mod []

/-- The function `rb_mod_include_p` (class.c 566-570); `rb_ary_includes`
compares descriptors by identity. -/
def rb_mod_include_p (fuel : Nat) (s : State) (mod mod2 : VALUE) : Except Exn Bool :=
  match rb_mod_included_modules fuel s mod with
  | Except.error e => Except.error e
  | Except.ok ary => Except.ok (decide (mod2 ∈ ary))

/-- The loop `for (p = mod; p; p = RCLASS_SUPER(p))` of `rb_mod_ancestors`. -/
def rb_mod_ancestors_for (included : VALUE → Except Exn (List VALUE)) (s : State) :
    Nat → VALUE → List VALUE → Except Exn (List VALUE)
  | 0, _, _ => Except.error Exn.timeout
  | fuel + 1, p, ary =>
    if p = NULL then Except.ok ary
    else
      match rb_mod_included_modules_nosuper included s p (ary ++ [p]) with
      | Except.error e => Except.error e
      | Except.ok ary =>
        if RCLASS_MODULE s p = true then Except.ok ary
        else rb_mod_ancestors_for included s fuel (RCLASS_SUPER s p) ary

/-- The function `rb_mod_ancestors` (class.c 590-602). -/
def rb_mod_ancestors : Nat → State → VALUE → Except Exn (List VALUE)
  | 0, _, _ => Except.error Exn.timeout
  | fuel + 1, s, mod =>
    rb_mod_ancestors_for (rb_mod_included_modules fuel s) s (fuel + 1) mod []

/-! ## Argument scanning -/

/-- What `rb_scan_args` stores through one of its output pointers. -/
inductive ScanOut where
  | val (v : VALUE)
  | rest (l : List VALUE)
  | block (v : VALUE)
  deriving DecidableEq, Repr

/-- The macro `ISDIGIT`. -/
def ISDIGIT (c : Char) : Bool :=
  decide ('0'.toNat ≤ c.toNat ∧ c.toNat ≤ '9'.toNat)

/-- The character `*p` of a C string: the terminating NUL at its end. -/
def cstr_head (p : List Char) : Char :=
  p.headD (Char.ofNat 0)

/-- The tail of `rb_scan_args` from the test `if (*p == '&')` on
(class.c 1046-1066). -/
def rb_scan_args_block (block : VALUE) (argv : List VALUE) (i : Nat) (p : List Char)
    (outs : List ScanOut) : Except Exn (Nat × List ScanOut) :=
  let (p, outs) :=
    if cstr_head p = '&' then (p.tail, outs ++ [ScanOut.block block]) else (p, outs)
  if cstr_head p ≠ Char.ofNat 0 then Except.error Exn.fatal
  else if argv.length > i then Except.error Exn.ArgError
  else Except.ok (argv.length, outs)

/-- The part of `rb_scan_args` at the label `rest_arg` (class.c 1034-1044),
followed by the tail. -/
def rb_scan_args_rest (block : VALUE) (argv : List VALUE) (i : Nat) (p : List Char)
    (outs : List ScanOut) : Except Exn (Nat × List ScanOut) :=
  if argv.length > i then
    rb_scan_args_block block argv argv.length p.tail (outs ++ [ScanOut.rest (argv.drop i)])
  else rb_scan_args_block block argv i p.tail (outs ++ [ScanOut.rest []])

/-- The function `rb_scan_args` (class.c 993-1071).  `argc` is the length of
`argv`; the values stored through the output pointers are returned in the
order of the pointers; `block` is what `rb_block_proc()` answers when a block
is given and `Qnil` when none is. -/
def rb_scan_args (block : VALUE) (argv : List VALUE) (fmt : String) :
    Except Exn (Nat × List ScanOut) :=
  let p := fmt.data
  if cstr_head p = '*' then rb_scan_args_rest block argv 0 p []
  else if ISDIGIT (cstr_head p) = true then
    let n := (cstr_head p).toNat - '0'.toNat
    if n > argv.length then Except.error Exn.ArgError
    else
      let outs := (argv.take n).map ScanOut.val
      let i := n
      let p := p.tail
      let (i, p, outs) :=
        if ISDIGIT (cstr_head p) = true then
          let n := i + ((cstr_head p).toNat - '0'.toNat)
          (n, p.tail, outs ++ (List.range (n - i)).map
            (fun k => if argv.length > i + k then ScanOut.val (argv.getD (i + k) VALUE.Qnil)
                      else ScanOut.val VALUE.Qnil))
        else (i, p, outs)
      if cstr_head p = '*' then rb_scan_args_rest block argv i p outs
      else rb_scan_args_block block argv i p outs
  else Except.error Exn.fatal

/-! ## Method enumeration -/

/-- The constant `ST_CONTINUE`. -/
def ST_CONTINUE : Int := 0

/-- The function `ins_methods_push` (class.c 604-623). -/
def ins_methods_push (name : String) (type : Int) (ary : List String) (visi : Int) :
    Int × List String :=
  if type = -1 then (ST_CONTINUE, ary)
  else
    let visi : Bool :=
      if visi = NOEX_PRIVATE ∨ visi = NOEX_PROTECTED ∨ visi = NOEX_PUBLIC then
        decide (type = visi)
      else decide (type ≠ NOEX_PRIVATE)
    if visi then (ST_CONTINUE, ary ++ [name]) else (ST_CONTINUE, ary)

/-- The function `ins_methods_i` (class.c 625-629). -/
def ins_methods_i (name : String) (type : Int) (ary : List String) : Int × List String :=
  ins_methods_push name type ary (-1)

/-- The function `ins_methods_prot_i` (class.c 631-635). -/
def ins_methods_prot_i (name : String) (type : Int) (ary : List String) : Int × List String :=
  ins_methods_push name type ary NOEX_PROTECTED

/-- The function `ins_methods_priv_i` (class.c 637-641). -/
def ins_methods_priv_i (name : String) (type : Int) (ary : List String) : Int × List String :=
  ins_methods_push name type ary NOEX_PRIVATE

/-- The function `ins_methods_pub_i` (class.c 643-647). -/
def ins_methods_pub_i (name : String) (type : Int) (ary : List String) : Int × List String :=
  ins_methods_push name type ary NOEX_PUBLIC

/-- The function `rb_objc_method_node3`: the method node behind an
implementation, `none` for a native one. -/
def rb_objc_method_node3 (imp : IMP) : Option NODE :=
  imp.node

/-- The C library's `isupper` in the C locale. -/
def isupper (c : Char) : Bool :=
  decide ('A'.toNat ≤ c.toNat ∧ c.toNat ≤ 'Z'.toNat)

/-- The C library's `tolower` in the C locale. -/
def tolower (c : Char) : Char :=
  if isupper c = true then Char.ofNat (c.toNat + 32) else c

/-- The method name `rb_objc_push_methods` interns for a selector
(class.c 676-698); the `assert` on the length can fail. -/
def rb_objc_push_methods_name (sel_name : String) : Except Exn String :=
  let cs := sel_name.data
  if cs.count ':' = 1 then
    let len := cs.length
    if ¬ (len < 100) then Except.error Exn.assertion
    else if len > 4 ∧ cs.getD 0 (Char.ofNat 0) = 's' ∧ cs.getD 1 (Char.ofNat 0) = 'e'
        ∧ cs.getD 2 (Char.ofNat 0) = 't' ∧ isupper (cs.getD 3 (Char.ofNat 0)) = true then
      let buf := cs.drop 3
      let buf := buf.set (len - 4) '='
      let buf := buf.set 0 (tolower (buf.getD 0 (Char.ofNat 0)))
      Except.ok (String.mk buf)
    else Except.ok (String.mk (cs.take (len - 1)))
  else Except.ok sel_name

/-- The loop of `rb_objc_push_methods` (class.c 657-704) over the copied
method list.  A symbol is its interned name. -/
def rb_objc_push_methods_loop (s : State) : List String → List Method → Except Exn (List String)
  | ary, [] => Except.ok ary
  | ary, method :: rest =>
    let sel := method.sel
    if sel = s.sel_ignored then rb_objc_push_methods_loop s ary rest
    else if rb_objc_method_node3 method.imp = none ∧ cstr_head sel.data = '_' then
      rb_objc_push_methods_loop s ary rest
    else
      match rb_objc_push_methods_name sel with
      | Except.error e => Except.error e
      | Except.ok sym =>
        if ary.contains sym = false then rb_objc_push_methods_loop s (ary ++ [sym]) rest
        else rb_objc_push_methods_loop s ary rest

/-- The function `rb_objc_push_methods` (class.c 649-707). -/
def rb_objc_push_methods (s : State) (ary : List String) (mod : VALUE) :
    Except Exn (List String) :=
  rb_objc_push_methods_loop s ary (class_copyMethodList s mod)

/-- The loop `while (mod != 0)` of `class_instance_method_list`. -/
def class_instance_method_list_loop (s : State) (recur : Bool) :
    Nat → VALUE → List String → Except Exn (List String)
  | 0, _, _ => Except.error Exn.timeout
  | fuel + 1, mod, ary =>
    if mod = NULL then Except.ok ary
    else
      match rb_objc_push_methods s ary mod with
      | Except.error e => Except.error e
      | Except.ok ary =>
        if recur = false then Except.ok ary
        else class_instance_method_list_loop s recur fuel (class_getSuperclass s mod) ary

/-- The function `class_instance_method_list` (class.c 709-734).  `func` is
the visibility callback the callers pass; the body never calls it. -/
def class_instance_method_list (fuel : Nat) (s : State) (argv : List VALUE) (mod : VALUE)
    (_func : String → Int → List String → Int × List String) : Except Exn (List String) :=
  match (if argv.length = 0 then Except.ok true
         else
           match rb_scan_args VALUE.Qnil argv "01" with
           | Except.error e => Except.error e
           | Except.ok (_, outs) =>
             match outs with
             | [ScanOut.val r] => Except.ok (RTEST r)
             | _ => Except.error Exn.undefined : Except Exn Bool) with
  | Except.error e => Except.error e
  | Except.ok recur => class_instance_method_list_loop s recur fuel mod []

/-- The function `rb_class_instance_methods` (class.c 763-767). -/
def rb_class_instance_methods (fuel : Nat) (s : State) (argv : List VALUE) (mod : VALUE) :
    Except Exn (List String) :=
  class_instance_method_list fuel s argv mod ins_methods_i

/-- The function `rb_class_protected_instance_methods` (class.c 778-782). -/
def rb_class_protected_instance_methods (fuel : Nat) (s : State) (argv : List VALUE)
    (mod : VALUE) : Except Exn (List String) :=
  class_instance_method_list fuel s argv mod ins_methods_prot_i

/-- The function `rb_class_private_instance_methods` (class.c 801-805). -/
def rb_class_private_instance_methods (fuel : Nat) (s : State) (argv : List VALUE)
    (mod : VALUE) : Except Exn (List String) :=
  class_instance_method_list fuel s argv mod ins_methods_priv_i

/-- The function `rb_class_public_instance_methods` (class.c 816-820). -/
def rb_class_public_instance_methods (fuel : Nat) (s : State) (argv : List VALUE)
    (mod : VALUE) : Except Exn (List String) :=
  class_instance_method_list fuel s argv mod ins_methods_pub_i

/-! ## Concrete states used by the examples -/

/-- The state of a call that returned, or a fallback. -/
def state_of {α : Type} (r : Except Err (α × State)) (fallback : State) : State :=
  match r with
  | Except.ok (_, s) => s
  | Except.error _ => fallback

/-- A booted heap: `NSObject`, `Object`, `Module` and `Class`, each followed by
its metaclass, all registered with the host runtime; no container roots. -/
def ex_base : State :=
  { heap :=
      [ { klass := VALUE.ref 1, is_class := true, name := "NSObject" },
        { klass := VALUE.ref 1, is_class := true, is_meta := true, super := VALUE.ref 0,
          name := "NSObject" },
        { klass := VALUE.ref 3, is_class := true, super := VALUE.ref 0, name := "Object",
          version := { ruby_class := true } },
        { klass := VALUE.ref 1, is_class := true, is_meta := true, super := VALUE.ref 1,
          name := "Object" },
        { klass := VALUE.ref 5, is_class := true, super := VALUE.ref 2, name := "Module",
          version := { ruby_class := true, object_subclass := true } },
        { klass := VALUE.ref 1, is_class := true, is_meta := true, super := VALUE.ref 3,
          name := "Module" },
        { klass := VALUE.ref 7, is_class := true, super := VALUE.ref 4, name := "Class",
          version := { ruby_class := true, object_subclass := true } },
        { klass := VALUE.ref 1, is_class := true, is_meta := true, super := VALUE.ref 5,
          name := "Class" } ],
    rb_cNSObject := VALUE.ref 0,
    rb_cObject := VALUE.ref 2,
    rb_cModule := VALUE.ref 4,
    rb_cClass := VALUE.ref 6,
    objc_classes := [("NSObject", VALUE.ref 0), ("Object", VALUE.ref 2),
      ("Module", VALUE.ref 4), ("Class", VALUE.ref 6)] }

/-- The booted heap with a class `C < Object` (at `ref 8`, metaclass `ref 9`). -/
def ex_class_C : State :=
  state_of (rb_objc_create_class 4 ex_base (some "C") (VALUE.ref 2)) ex_base

/-- Class `C` with own methods `a` (public), `b` (protected), `c` (private). -/
def ex_visibility : State :=
  let s := rb_define_method ex_class_C (VALUE.ref 8) "a" "c_a" 0
  let s := rb_define_protected_method s (VALUE.ref 8) "b" "c_b" 0
  rb_define_private_method s (VALUE.ref 8) "c" "c_c" 0

/-- Class `C` with own methods `a` (public), `b` (private) and the instance
variable `x = 1`, and a freshly allocated class (at `ref 10`) for its clone. -/
def ex_clone : State :=
  let s := rb_define_method ex_class_C (VALUE.ref 8) "a" "c_a" 0
  let s := rb_define_private_method s (VALUE.ref 8) "b" "c_b" 0
  let s := rb_ivar_set s (VALUE.ref 8) "x" (VALUE.fixnum 1)
  state_of (rb_class_boot 5 s NULL) s

/-- A heap with the three container roots under a root class, a class
`MyArray < Array` (at `ref 4`) and a new class (at `ref 5`) below it. -/
def ex_containers : State :=
  { heap :=
      [ { is_class := true, name := "Object" },
        { is_class := true, super := VALUE.ref 0, name := "Array" },
        { is_class := true, super := VALUE.ref 0, name := "Hash" },
        { is_class := true, super := VALUE.ref 0, name := "String" },
        { is_class := true, super := VALUE.ref 1, name := "MyArray" },
        { is_class := true, super := VALUE.ref 4, name := "New" } ],
    rb_cObject := VALUE.ref 0,
    rb_cArray := VALUE.ref 1,
    rb_cHash := VALUE.ref 2,
    rb_cString := VALUE.ref 3 }

/-! ## Auxiliary definitions for the inclusion proofs -/

/-- The implementation the module's list leaves on a selector: that of the
last entry of the selector, or `i` when there is none. -/
def last_imp (S : String) (i : IMP) (ms : List Method) : IMP :=
  ms.foldl (fun acc m => if m.sel = S then m.imp else acc) i

/-- The state in which `rb_include_module` starts its bookkeeping: the class's
list exists. -/
def rb_include_module_ready (s : State) (klass : VALUE) : State :=
  match included_modules_ivar s klass with
  | none => set_included_modules s klass []
  | some _ => s

/-- A record with its method list forgotten. -/
def erase_methods (o : RObject) : RObject :=
  { o with methods := [] }

/-- A state with its heap forgotten. -/
def forget_heap (s : State) : State :=
  { s with heap := [] }

/-- Two states that differ at most in the method lists of their records. -/
def same_but_methods (s s1 : State) : Prop :=
  (∀ w, (deref s1 w).map erase_methods = (deref s w).map erase_methods) ∧
    forget_heap s1 = forget_heap s

/-- The function `rb_module_new` (class.c 389-396). -/
def rb_module_new (fuel : Nat) (s : State) : Except Err (VALUE × State) := do
  let (mdl, s) ← rb_objc_alloc_class fuel s none NULL T_MODULE s.rb_cModule
  let s := objc_registerClassPair s mdl
  pure (mdl, s)

/-- The function `rb_define_module_id` (class.c 398-407); the identifier is
its name. -/
def rb_define_module_id (fuel : Nat) (s : State) (id : String) : Except Err (VALUE × State) := do
  let (mdl, s) ← rb_objc_alloc_class fuel s (some id) NULL T_MODULE s.rb_cModule
  let s := objc_registerClassPair s mdl
  pure (mdl, s)

/-- Class `C` (at `ref 8`) with its own method `foo`, and a module `M` (at
`ref 10`) that also defines `foo`. -/
def ex_include : State :=
  let s := rb_define_method ex_class_C (VALUE.ref 8) "foo" "c_foo" 0
  let s := state_of (rb_define_module_id 4 s "M") s
  rb_define_method s (VALUE.ref 10) "foo" "m_foo" 0

/-- The state after `rb_include_module(C, M)` on `ex_include`. -/
def ex_included : State :=
  state_of (rb_include_module 4 ex_include (VALUE.ref 8) (VALUE.ref 10)) ex_include

/-! ## The ancestry traversal in the words of the specification -/

/-- Specification, section 4.4: the members of a list of modules, "each module
followed immediately by its own included modules", where `own m` answers the
latter. -/
def spec_each_followed_by_own (own : VALUE → Except Exn (List VALUE)) :
    List VALUE → Except Exn (List VALUE)
  | [] => Except.ok []
  | m :: rest =>
    match own m with
    | Except.error e => Except.error e
    | Except.ok sub =>
      match spec_each_followed_by_own own rest with
      | Except.error e => Except.error e
      | Except.ok more => Except.ok (m :: sub ++ more)

/-- Specification, section 4.4: the included modules of a module, depth-first
in list order (most recently included first), each followed by its own. -/
def spec_own_included : Nat → State → VALUE → Except Exn (List VALUE)
  | 0, _, _ => Except.error Exn.timeout
  | fuel + 1, s, m =>
    spec_each_followed_by_own (spec_own_included fuel s) ((included_modules_ivar s m).getD [])

/-- Specification, section 4.4: the walk of the superclass chain that emits
the current descriptor, then its included modules, and stops after a
module-kind descriptor. -/
def spec_ancestors_walk (own : VALUE → Except Exn (List VALUE)) (s : State) :
    Nat → VALUE → Except Exn (List VALUE)
  | 0, _ => Except.error Exn.timeout
  | n + 1, p =>
    if p = NULL then Except.ok []
    else
      match spec_each_followed_by_own own ((included_modules_ivar s p).getD []) with
      | Except.error e => Except.error e
      | Except.ok inc =>
        if RCLASS_MODULE s p = true then Except.ok (p :: inc)
        else
          match spec_ancestors_walk own s n (RCLASS_SUPER s p) with
          | Except.error e => Except.error e
          | Except.ok up => Except.ok (p :: inc ++ up)

/-- Specification, section 4.4: `ancestors(mod)`. -/
def spec_ancestors : Nat → State → VALUE → Except Exn (List VALUE)
  | 0, _, _ => Except.error Exn.timeout
  | fuel + 1, s, mod => spec_ancestors_walk (spec_own_included fuel s) s (fuel + 1) mod

/-- Every entry of every included-modules list is a module-kind descriptor. -/
def included_are_modules (s : State) : Prop :=
  ∀ a, a < s.heap.length →
    ∀ x ∈ (included_modules_ivar s (VALUE.ref a)).getD [], RCLASS_MODULE s x = true

/-- A rank on descriptors decreases along the superclass edges the traversal
follows (those of non-module descriptors) and along included-module edges:
the class graph the traversal walks is acyclic. -/
def rank_decreases (s : State) (rank : VALUE → Nat) : Prop :=
  (∀ a, a < s.heap.length → RCLASS_MODULE s (VALUE.ref a) = false →
    RCLASS_SUPER s (VALUE.ref a) ≠ NULL →
    rank (RCLASS_SUPER s (VALUE.ref a)) < rank (VALUE.ref a)) ∧
  (∀ a, a < s.heap.length →
    ∀ x ∈ (included_modules_ivar s (VALUE.ref a)).getD [], rank x < rank (VALUE.ref a))

/-- The descriptor `q` is visited by the loop `for (p = mod; p; p = RCLASS_SUPER(p))`
that stops after a module-kind descriptor. -/
inductive Walks (s : State) : VALUE → VALUE → Prop where
  | here (p : VALUE) (h : p ≠ NULL) : Walks s p p
  | up (p q : VALUE) (h : p ≠ NULL) (hm : RCLASS_MODULE s p = false)
      (hw : Walks s (RCLASS_SUPER s p) q) : Walks s p q

/-- The modules `Math` (at `ref 8`), `Comparable` (at `ref 10`) and `Mod`
(at `ref 12`), where `Mod` has included `Math` and then `Comparable`. -/
def ex_modules : State :=
  let s := state_of (rb_define_module_id 4 ex_base "Math") ex_base
  let s := state_of (rb_define_module_id 4 s "Comparable") s
  let s := state_of (rb_define_module_id 4 s "Mod") s
  let s := state_of (rb_include_module 4 s (VALUE.ref 12) (VALUE.ref 8)) s
  state_of (rb_include_module 4 s (VALUE.ref 12) (VALUE.ref 10)) s

/-- The module `A` (at `ref 8`), the classes `B < Object` (at `ref 10`) and
`C < B` (at `ref 12`), before `B` includes `A`. -/
def ex_abc : State :=
  let s := state_of (rb_define_module_id 4 ex_base "A") ex_base
  let s := state_of (rb_objc_create_class 4 s (some "B") (VALUE.ref 2)) s
  state_of (rb_objc_create_class 4 s (some "C") (VALUE.ref 10)) s

/-- The state `ex_abc` after `rb_include_module(B, A)`. -/
def ex_abc_included : State :=
  state_of (rb_include_module 4 ex_abc (VALUE.ref 10) (VALUE.ref 8)) ex_abc

/-- A rank for `ex_abc_included` that decreases along superclass and
included-module edges. -/
def ex_abc_rank : VALUE → Nat
  | VALUE.Qfalse => 0
  | VALUE.ref a => [1, 2, 2, 3, 3, 4, 4, 5, 1, 4, 3, 5, 4, 6].getD a 1
  | _ => 1

/-! ## Auxiliary definitions for the singleton-class proofs -/

/-- Every record of `s` is still there in `s1`, with the same superclass and
the same record kind. -/
def Pres (s s1 : State) : Prop :=
  s.heap.length ≤ s1.heap.length ∧
    ∀ v o, deref s v = some o →
      ∃ o1, deref s1 v = some o1 ∧ o1.super = o.super ∧ o1.is_class = o.is_class

/-- What a successful class creation guarantees: nothing old is lost, the
class is the record right after the old heap, and it has the requested
superclass (the root object class when none was given). -/
def Created (s : State) (super k : VALUE) (s1 : State) : Prop :=
  Pres s s1 ∧ k = VALUE.ref s.heap.length ∧
    ∃ o, deref s1 k = some o ∧ o.super = (if super = NULL then s.rb_cObject else super) ∧
      o.is_class = true

/-- The step `if (OBJ_FROZEN(obj)) OBJ_FREEZE(klass)` of `rb_singleton_class`. -/
def freeze_step (t : State) (obj k : VALUE) : State :=
  if OBJ_FROZEN t obj = true then OBJ_FREEZE t k else t

/-- The conditions under which the creation of an anonymous class below
`super` goes through: the next anonymous name is free in the host registry,
and the superclass chain is made of `n - 1` valid records at most. -/
def can_create (s : State) (super : VALUE) (n : Nat) : Prop :=
  objc_getClass s (snprintf_ocname ("RBAnonymous" ++ toString (s.anon_count + 1))) = NULL ∧
  (class_chain s n (if super = NULL then s.rb_cObject else super)).length < n ∧
  ∀ c ∈ class_chain s n (if super = NULL then s.rb_cObject else super),
    (deref s c).isSome = true

/-- An instance of class `C` (the object at `ref 10`) in the booted heap. -/
def ex_object : State :=
  { ex_class_C with heap := ex_class_C.heap ++ [{ klass := VALUE.ref 8 }] }

/-- The state after `rb_singleton_class` on the object of `ex_object`. -/
def ex_object_singleton : State :=
  state_of (rb_singleton_class 8 ex_object (VALUE.ref 10)) ex_object

/-! ## Class definition under a namespace -/

/-- Modelled from the spec: the namespace binding store answers `exists?` for
a constant under an outer scope (`rb_const_defined_at`, not part of
`class.c`). -/
def rb_const_defined_at (s : State) (outer : VALUE) (id : String) : Bool :=
  (s.constants.lookup (outer, id)).isSome

/-- Modelled from the spec: the namespace binding store answers `get` for a
constant under an outer scope (`rb_const_get_at`, not part of `class.c`); an
unbound name is a name error. -/
def rb_const_get_at (s : State) (outer : VALUE) (id : String) : Except Exn VALUE :=
  match s.constants.lookup (outer, id) with
  | some v => Except.ok v
  | none => Except.error Exn.NameError

/-- Modelled from the spec: the namespace binding store performs `define` for
a constant under an outer scope (`rb_const_set`, not part of `class.c`). -/
def rb_const_set (s : State) (outer : VALUE) (id : String) (v : VALUE) : State :=
  { s with constants := ((outer, id), v) :: s.constants.filter (fun p => p.1 ≠ (outer, id)) }

/-- Modelled from the spec: `rb_class2name` (not part of `class.c`) answers the
name a class is known under. -/
def rb_class2name (s : State) (klass : VALUE) : String :=
  match deref s klass with
  | some o => o.name
  | none => ""

/-- Modelled from the spec: `rb_set_class_path` (not part of `class.c`) records
the path of a class below its outer scope under the reserved key
`__classpath__`; the text of the path stands for the string object. -/
def rb_set_class_path (s : State) (klass under : VALUE) (name : String) : State :=
  let str := if under = s.rb_cObject then name else rb_class2name s under ++ "::" ++ name
  rb_ivar_set s klass "__classpath__" (VALUE.symbol str)

/-- Modelled from the spec: `rb_class_real` (not part of `class.c`) skips the
singleton classes on a superclass chain and answers the first class that is
not one; `0` for `0`. -/
def rb_class_real : Nat → State → VALUE → Except Exn VALUE
  | 0, _, _ => Except.error Exn.timeout
  | fuel + 1, s, cl =>
    if cl = NULL then Except.ok NULL
    else if RCLASS_SINGLETON s cl = true then rb_class_real fuel s (RCLASS_SUPER s cl)
    else Except.ok cl

/-- Modelled from the spec: `rb_funcall(recv, mid, 1, arg)` (not part of
`class.c`) invokes a notification callback; the call is recorded. -/
def rb_funcall (s : State) (recv : VALUE) (mid : String) (arg : VALUE) : State :=
  { s with funcalls := s.funcalls ++ [(recv, mid, arg)] }

/-- The call `rb_warn(...)`: the warning is recorded. -/
def rb_warn (s : State) (w : Warning) : State :=
  { s with warnings := s.warnings ++ [w] }

/-- The function `rb_define_class_id` (class.c 313-322). -/
def rb_define_class_id (fuel : Nat) (s : State) (id : String) (super : VALUE) :
    Except Err (VALUE × State) :=
  let super := if super = NULL then s.rb_cObject else super
  rb_objc_create_class fuel s (some id) super

/-- The function `rb_class_inherited` (class.c 324-329). -/
def rb_class_inherited (s : State) (super klass : VALUE) : State :=
  let super := if super = NULL then s.rb_cObject else super
  rb_funcall s super "inherited" klass

/-- The branch of `rb_define_class_under` taken when the name is already
bound in the outer scope (class.c 367-376). -/
def rb_define_class_under_bound (fuel : Nat) (s : State) (outer : VALUE) (id : String)
    (super : VALUE) : Except Err (VALUE × State) :=
  match rb_const_get_at s outer id with
  | Except.error e => Except.error (e, s)
  | Except.ok klass =>
    if TYPE s klass ≠ T_CLASS then Except.error (Exn.TypeError, s)
    else
      match rb_class_real fuel s (RCLASS_SUPER s klass) with
      | Except.error e => Except.error (e, s)
      | Except.ok real =>
        if real ≠ super then Except.error (Exn.NameError, s)
        else Except.ok (klass, s)

/-- The branch of `rb_define_class_under` taken when the name is not bound
in the outer scope (class.c 377-386). -/
def rb_define_class_under_new (fuel : Nat) (s : State) (outer : VALUE) (name : String)
    (super : VALUE) : Except Err (VALUE × State) := do
  let s :=
    if super = NULL then rb_warn s (Warning.no_super_class (rb_class2name s outer ++ "::" ++ name))
    else s
  let (klass, s) ← rb_define_class_id fuel s name super
  let s := rb_set_class_path s klass outer name
  let s := rb_const_set s outer name klass
  let s := rb_class_inherited s super klass
  pure (klass, s)

/-- The function `rb_define_class_under` (class.c 360-387). -/
def rb_define_class_under (fuel : Nat) (s : State) (outer : VALUE) (name : String)
    (super : VALUE) : Except Err (VALUE × State) :=
  if rb_const_defined_at s outer name = true then rb_define_class_under_bound fuel s outer name super
  else rb_define_class_under_new fuel s outer name super

/-! ## Singleton class clone -/

/-- The loop over the method list in `rb_singleton_class_clone`
(class.c 250-264). -/
def rb_singleton_class_clone_methods (fuel : Nat) :
    State → VALUE → List Method → Except Err (Unit × State)
  | s, _, [] => Except.ok ((), s)
  | s, clone, method :: rest =>
    match class_getInstanceMethod fuel s clone method.sel with
    | Except.error e => Except.error (e, s)
    | Except.ok method2 =>
      match class_getInstanceMethod fuel s (RCLASS_SUPER s clone) method.sel with
      | Except.error e => Except.error (e, s)
      | Except.ok inherited =>
        if method2 ≠ inherited then
          match method2 with
          | some m2 =>
            rb_singleton_class_clone_methods fuel (method_setImplementation s m2 method.imp)
              clone rest
          | none => rb_singleton_class_clone_methods fuel s clone rest
        else
          match class_addMethod s clone method.sel method.imp method.types with
          | (true, s) => rb_singleton_class_clone_methods fuel s clone rest
          | (false, s) => Except.error (Exn.assertion, s)

/-- The copy of the instance-variable dictionary in `rb_singleton_class_clone`
(class.c 238-245); the empty table stands for the `NULL` dictionary. -/
def rb_class_ivar_copy_dict (s : State) (clone klass : VALUE) : State :=
  match deref s klass with
  | some o => if o.ivars = [] then s else modify s clone (fun c => { c with ivars := o.ivars })
  | none => s

/-- The end of `rb_singleton_class_clone` (class.c 266-272). -/
def rb_singleton_class_clone_finish (s : State) (clone : VALUE) : State :=
  let s := rb_singleton_class_attached s (RBASIC_klass s clone) clone
  let s :=
    if RCLASS_SUPER s clone = s.rb_cNSObject then
      class_setVersion s clone ((RCLASS_VERSION s clone).xor RCLASS_IS_OBJECT_SUBCLASS)
    else s
  RCLASS_SET_VERSION_FLAG s clone RCLASS_IS_SINGLETON

/-- The function `rb_singleton_class_clone` (class.c 229-277). -/
def rb_singleton_class_clone (fuel : Nat) (s : State) (obj : VALUE) :
    Except Err (VALUE × State) :=
  let klass := RBASIC_klass s obj
  if RCLASS_SINGLETON s klass = false then Except.ok (klass, s)
  else do
    let (clone, s) ← rb_objc_create_class fuel s none (RCLASS_SUPER s klass)
    let s := rb_class_ivar_copy_dict s clone klass
    let (_, s) ← rb_singleton_class_clone_methods fuel s clone (class_copyMethodList s klass)
    pure (clone, rb_singleton_class_clone_finish s clone)

/-! ## Singleton method enumeration -/

/-- The macro `CLASS_OF(obj)`: the fixed class of an immediate, the class
word of anything else. -/
def CLASS_OF (s : State) : VALUE → VALUE
  | VALUE.fixnum _ => s.rb_cFixnum
  | VALUE.Qtrue => s.rb_cTrueClass
  | VALUE.symbol _ => s.rb_cSymbol
  | VALUE.Qnil => s.rb_cNilClass
  | VALUE.Qfalse => s.rb_cFalseClass
  | obj => RBASIC_klass s obj

/-- The loop `do ... while (recur == Qtrue && klass != 0)` of
`rb_obj_singleton_methods` (class.c 869-874); `fuel` bounds the number of
levels. -/
def rb_obj_singleton_methods_loop (s : State) (recur : VALUE) :
    Nat → VALUE → List String → Except Exn (List String)
  | 0, _, _ => Except.error Exn.timeout
  | fuel + 1, klass, ary =>
    match (if RCLASS_SINGLETON s klass = true then rb_objc_push_methods s ary klass
      else Except.ok ary) with
    | Except.error e => Except.error e
    | Except.ok ary =>
      let klass := RCLASS_SUPER s klass
      if recur = VALUE.Qtrue ∧ klass ≠ NULL then rb_obj_singleton_methods_loop s recur fuel klass ary
      else Except.ok ary

/-- The function `rb_obj_singleton_methods` (class.c 854-877). -/
def rb_obj_singleton_methods (fuel : Nat) (s : State) (argv : List VALUE) (obj : VALUE) :
    Except Exn (List String) :=
  match (if argv.length = 0 then Except.ok VALUE.Qtrue
    else
      match rb_scan_args VALUE.Qnil argv "01" with
      | Except.error e => Except.error e
      | Except.ok (_, [ScanOut.val recur]) => Except.ok recur
      | Except.ok _ => Except.error Exn.undefined : Except Exn VALUE) with
  | Except.error e => Except.error e
  | Except.ok recur => rb_obj_singleton_methods_loop s recur fuel (CLASS_OF s obj) []

/-! ## Auxiliary definitions for the class factory proofs -/

/-- Two states that differ at most in the heap and in the log of installed
container primitives. -/
def same_globals (s s1 : State) : Prop :=
  { s1 with heap := [], installed := [] } = { s with heap := [], installed := [] }

/-- The host-level names `rb_objc_alloc_class` tries, in order, for a name
that is taken: `RB` followed by the name, then `RB`, the name and the count
`2`, `3`, ..., each cut to the size of the buffer. -/
def rb_objc_alloc_class_candidate (name : String) (count : Nat) : String :=
  if count ≤ 1 then snprintf_ocname ("RB" ++ name)
  else snprintf_ocname ("RB" ++ name ++ toString count)

/-- The superclass chain a new class is put under (the root object class when
no superclass is given) ends within `n` steps and consists of valid records. -/
def superclass_chain_ready (s : State) (super : VALUE) (n : Nat) : Prop :=
  (class_chain s n (if super = NULL then s.rb_cObject else super)).length < n ∧
  ∀ c ∈ class_chain s n (if super = NULL then s.rb_cObject else super),
    (deref s c).isSome = true

/-- The booted heap after a class named `Object` was asked for a second time:
the host-level names `Object` and `RBObject` are both taken. -/
def ex_renamed : State :=
  state_of (rb_objc_create_class 4 ex_base (some "Object") (VALUE.ref 2)) ex_base

/-- Two states with the same root classes, the same namespace bindings and
the same record of callbacks. -/
def same_roots (s s1 : State) : Prop :=
  s1.rb_cNSObject = s.rb_cNSObject ∧ s1.rb_cObject = s.rb_cObject ∧
  s1.constants = s.constants ∧ s1.funcalls = s.funcalls

/-- A word that points at a class record. -/
def is_class_record (s : State) (v : VALUE) : Bool :=
  match deref s v with
  | some o => o.is_class
  | none => false

/-- Every class record carries the derives-from-root-object flag exactly when
the root object class is one of its proper ancestors (looked for along the
first `n` steps of its superclass chain). -/
def object_subclass_cached (s : State) (n : Nat) : Prop :=
  ∀ a, a < s.heap.length → is_class_record s (VALUE.ref a) = true →
    ((RCLASS_VERSION s (VALUE.ref a)).test RCLASS_IS_OBJECT_SUBCLASS = true ↔
      s.rb_cObject ∈ class_chain s n (RCLASS_SUPER s (VALUE.ref a)))

/-- The state of `ex_modules` with the module `Math` (at `ref 8`) bound to the
name `Math` in the root object class. -/
def ex_bound_module : State :=
  rb_const_set ex_modules (VALUE.ref 2) "Math" (VALUE.ref 8)

/-- The booted heap after `rb_define_class_under(Object, "K", 0)`. -/
def ex_defined_K : State :=
  state_of (rb_define_class_under 6 ex_base (VALUE.ref 2) "K" NULL) ex_base

/-- The booted heap after `rb_define_class_under(Object, "K", Module)`. -/
def ex_defined_K_module : State :=
  state_of (rb_define_class_under 6 ex_base (VALUE.ref 2) "K" (VALUE.ref 4)) ex_base

/-! ## Auxiliary definitions for the enumeration proofs -/

/-- The names `rb_objc_push_methods` offers to the array for a method list,
in the order of the list: one per method that is neither the ignored selector
nor an underscore-prefixed method without a node. -/
def listed_names (s : State) : List Method → Except Exn (List String)
  | [] => Except.ok []
  | method :: rest =>
    if method.sel = s.sel_ignored then listed_names s rest
    else if rb_objc_method_node3 method.imp = none ∧ cstr_head method.sel.data = '_' then
      listed_names s rest
    else
      match rb_objc_push_methods_name method.sel with
      | Except.error e => Except.error e
      | Except.ok sym =>
        match listed_names s rest with
        | Except.error e => Except.error e
        | Except.ok l => Except.ok (sym :: l)

/-- The names offered level by level along a list of classes. -/
def listed_names_of_classes (s : State) : List VALUE → Except Exn (List String)
  | [] => Except.ok []
  | c :: cs =>
    match listed_names s (class_copyMethodList s c) with
    | Except.error e => Except.error e
    | Except.ok l =>
      match listed_names_of_classes s cs with
      | Except.error e => Except.error e
      | Except.ok ls => Except.ok (l ++ ls)

/-- Appending names one at a time, a name that is already there being
skipped: the first occurrence wins. -/
def push_new : List String → List String → List String
  | ary, [] => ary
  | ary, x :: xs => if ary.contains x = false then push_new (ary ++ [x]) xs else push_new ary xs

/-- The class `C` of `ex_class_C` with one own method, `method2`. -/
def ex_method2 : State :=
  rb_define_method ex_class_C (VALUE.ref 8) "method2" "c_method2" 0

/-- The state of `ex_object_singleton` with the singleton method `one` on the
singleton class (at `ref 11`) of the object and the method `two` on its
class `C`. -/
def ex_singleton_methods : State :=
  rb_define_method (rb_define_method ex_object_singleton (VALUE.ref 11) "one" "o_one" 0)
    (VALUE.ref 8) "two" "c_two" 0

/-! ## Auxiliary definitions for the singleton class clone proofs -/

/-- The implementation a method list leaves on a selector when its entries
are copied one after the other onto a class that holds `init` for it: that
of the last entry of the selector, or `init` when there is none. -/
def last_imp_opt (S : String) (init : Option IMP) (ms : List Method) : Option IMP :=
  ms.foldl (fun acc m => if m.sel = S then some m.imp else acc) init

/-- The state of `ex_object_singleton` with the singleton method `one` on the
singleton class (at `ref 11`) of the object. -/
def ex_singleton_one : State :=
  rb_define_method ex_object_singleton (VALUE.ref 11) "one" "o_one" 0

/-! ## Concrete states for the copy, enumeration and scanning examples -/

/-- The state of `ex_modules` with one more module, freshly made by
`rb_module_new` (at `ref 14`). -/
def ex_module_clone : State :=
  state_of (rb_module_new 4 ex_modules) ex_modules

/-- The state of `ex_module_clone` after `rb_mod_init_copy` of the module `Mod`
(at `ref 12`) onto the fresh module. -/
def ex_module_cloned : State :=
  state_of (rb_mod_init_copy ex_module_clone (VALUE.ref 14) (VALUE.ref 12)) ex_module_clone

/-- The booted heap with two modules, `A` (at `ref 8`) and `B` (at `ref 10`),
and no inclusion at all. -/
def ex_two_modules : State :=
  let s := state_of (rb_define_module_id 4 ex_base "A") ex_base
  state_of (rb_define_module_id 4 s "B") s

/-- The state of `ex_two_modules` after `rb_include_module(A, A)`. -/
def ex_self_included : State :=
  state_of (rb_include_module 4 ex_two_modules (VALUE.ref 8) (VALUE.ref 8)) ex_two_modules

/-- The state of `ex_two_modules` after `rb_include_module(A, B)` followed by
`rb_include_module(B, A)`. -/
def ex_mutually_included : State :=
  let s := state_of (rb_include_module 4 ex_two_modules (VALUE.ref 8) (VALUE.ref 10))
    ex_two_modules
  state_of (rb_include_module 4 s (VALUE.ref 10) (VALUE.ref 8)) s

/-- What is left of a format of `rb_scan_args` after the directives it
recognises, in the words of the specification: a leading `*`, or a digit
optionally followed by a second digit and by `*`; then an optional `&`. -/
def scan_format_leftover (p : List Char) : List Char :=
  let p :=
    if cstr_head p = '*' then p.tail
    else
      let p := p.tail
      let p := if ISDIGIT (cstr_head p) = true then p.tail else p
      if cstr_head p = '*' then p.tail else p
  if cstr_head p = '&' then p.tail else p

/-! ## Theorems -/

/-! ### Specialization installer (C6) -/

theorem class_chain_null (s : State) (n : Nat) : class_chain s n NULL = [] := by
  cases n <;> simp [class_chain]

theorem container_root_eq_none (s : State) (c : VALUE) :
    container_root s c = none ↔ c ≠ s.rb_cArray ∧ c ≠ s.rb_cHash ∧ c ≠ s.rb_cString := by
  unfold container_root
  by_cases h1 : c = s.rb_cArray
  · rw [if_pos h1]; simp [h1]
  · rw [if_neg h1]
    by_cases h2 : c = s.rb_cHash
    · rw [if_pos h2]; simp [h2]
    · rw [if_neg h2]
      by_cases h3 : c = s.rb_cString
      · rw [if_pos h3]; simp [h3]
      · rw [if_neg h3]; simp [h1, h2, h3]

theorem rb_objc_install_primitives_loop_spec (s : State) (ocklass : VALUE)
    (ha : s.rb_cArray ≠ NULL) (hh : s.rb_cHash ≠ NULL) (hs : s.rb_cString ≠ NULL) :
    ∀ (n fuel : Nat) (ocsuper : VALUE), (class_chain s n ocsuper).length < n → n ≤ fuel →
      rb_objc_install_primitives_loop fuel s ocklass ocsuper =
        match (class_chain s n ocsuper).findSome? (container_root s) with
        | some c => Except.ok (true, RCLASS_SET_VERSION_FLAG (c.install s ocklass) ocklass c.flag)
        | none => Except.ok (false, s) := by
  intro n
  induction n with
  | zero => intro fuel c h; simp at h
  | succ n ih =>
    intro fuel c hlen hfuel
    obtain ⟨fuel, rfl⟩ : ∃ k, fuel = k + 1 := ⟨fuel - 1, by omega⟩
    by_cases hc : c = NULL
    · subst hc
      have h1 : ¬ (NULL = s.rb_cArray) := fun h => ha h.symm
      have h2 : ¬ (NULL = s.rb_cHash) := fun h => hh h.symm
      have h3 : ¬ (NULL = s.rb_cString) := fun h => hs h.symm
      simp [rb_objc_install_primitives_loop, class_chain, h1, h2, h3, class_getSuperclass,
        RCLASS_SUPER, deref]
    · simp only [class_chain, if_neg hc, List.findSome?_cons]
      unfold rb_objc_install_primitives_loop
      by_cases h1 : c = s.rb_cArray
      · simp [container_root, if_pos h1, Container.install, Container.flag]
      · by_cases h2 : c = s.rb_cHash
        · simp [container_root, if_neg h1, if_pos h2, Container.install, Container.flag]
        · by_cases h3 : c = s.rb_cString
          · simp [container_root, if_neg h1, if_neg h2, if_pos h3, Container.install,
              Container.flag]
          · have hnone : container_root s c = none :=
              (container_root_eq_none s c).2 ⟨h1, h2, h3⟩
            simp only [if_neg h1, if_neg h2, if_neg h3, hnone]
            have hlen2 : (class_chain s n (class_getSuperclass s c)).length < n := by
              simp only [class_chain, if_neg hc, List.length_cons] at hlen
              omega
            by_cases hn : class_getSuperclass s c = NULL
            · simp [hn, class_chain_null]
            · have := ih fuel (class_getSuperclass s c) hlen2 (by omega)
              simp [hn, this]

theorem version_test_or (v : Version) (f g : VFlag) :
    (v.or g).test f = (v.test f || decide (f = g)) := by
  cases f <;> cases g <;> simp [Version.or, Version.test]

/-- Claim C6. With the Array, Hash and String roots all defined and the chain
`super, superclass(super), ...` reaching `Nil` within `n` steps,
`rb_objc_install_primitives` (given at least `n` fuel) returns true exactly
when the chain contains a container root; it then installs the primitives of
the nearest root and ORs that root's flag, and only that flag, into the new
class's version word; when it returns false the state is untouched. -/
theorem rb_objc_install_primitives_single_winner (s : State) (ocklass ocsuper : VALUE)
    (n fuel : Nat)
    (hroots : s.rb_cArray ≠ NULL ∧ s.rb_cHash ≠ NULL ∧ s.rb_cString ≠ NULL)
    (hchain : (class_chain s n ocsuper).length < n) (hfuel : n ≤ fuel) :
    (∃ b s1, rb_objc_install_primitives fuel s ocklass ocsuper = Except.ok (b, s1) ∧
      (b = true ↔ ∃ c ∈ class_chain s n ocsuper,
        c = s.rb_cArray ∨ c = s.rb_cHash ∨ c = s.rb_cString) ∧
      (b = false → s1 = s)) ∧
    (∀ k, (class_chain s n ocsuper).findSome? (container_root s) = some k →
      rb_objc_install_primitives fuel s ocklass ocsuper =
          Except.ok (true, RCLASS_SET_VERSION_FLAG (k.install s ocklass) ocklass k.flag) ∧
      (k.install s ocklass).installed = s.installed ++ [(ocklass, k)] ∧
      ∀ f, (RCLASS_VERSION (RCLASS_SET_VERSION_FLAG (k.install s ocklass) ocklass k.flag)
              ocklass).test f =
            ((RCLASS_VERSION s ocklass).test f ||
              (decide (f = k.flag) && (deref s ocklass).isSome))) := by
  have hspec := rb_objc_install_primitives_loop_spec s ocklass hroots.1 hroots.2.1 hroots.2.2
    n fuel ocsuper hchain hfuel
  have hdef : rb_objc_install_primitives fuel s ocklass ocsuper =
      rb_objc_install_primitives_loop fuel s ocklass ocsuper := by
    simp [rb_objc_install_primitives, hroots.1, hroots.2.1, hroots.2.2]
  refine ⟨?_, ?_⟩
  · rw [hdef, hspec]
    cases hfs : (class_chain s n ocsuper).findSome? (container_root s) with
    | none =>
      refine ⟨false, s, rfl, ?_, fun _ => rfl⟩
      simp only [Bool.false_eq_true, false_iff]
      rintro ⟨c, hc, hroot⟩
      rw [List.findSome?_eq_none_iff] at hfs
      have := (container_root_eq_none s c).1 (hfs c hc)
      rcases hroot with h | h | h
      · exact this.1 h
      · exact this.2.1 h
      · exact this.2.2 h
    | some k =>
      refine ⟨true, _, rfl, ?_, fun h => by simp at h⟩
      simp only [true_iff]
      obtain ⟨c, hc, hk⟩ := List.exists_of_findSome?_eq_some hfs
      refine ⟨c, hc, ?_⟩
      by_contra hno
      have : container_root s c = none :=
        (container_root_eq_none s c).2
          ⟨fun h => hno (Or.inl h), fun h => hno (Or.inr (Or.inl h)),
            fun h => hno (Or.inr (Or.inr h))⟩
      rw [this] at hk
      exact Option.noConfusion hk
  · intro k hk
    rw [hdef, hspec, hk]
    refine ⟨rfl, ?_, ?_⟩
    · cases k <;> rfl
    · intro f
      have hd : deref (k.install s ocklass) ocklass = deref s ocklass := by
        cases k <;> cases ocklass <;> rfl
      cases ocklass with
      | ref a =>
        simp only [RCLASS_SET_VERSION_FLAG, class_setVersion, RCLASS_VERSION, modify, hd]
        have hh : (k.install s (VALUE.ref a)).heap = s.heap := by cases k <;> rfl
        simp only [deref, hh]
        cases hget : s.heap[a]? with
        | none => simp [hh, deref, hget, Version.test]
        | some o =>
          have hlt : a < s.heap.length := by
            rcases List.getElem?_eq_some_iff.1 hget with ⟨h, _⟩
            exact h
          simp [deref, hlt, version_test_or]
      | _ => simp [RCLASS_SET_VERSION_FLAG, class_setVersion, RCLASS_VERSION, modify, deref, hd,
          Version.test]

/-- Witness for claim C6: a new class below `MyArray < Array` gets the array
primitives and the array flag. -/
theorem rb_objc_install_primitives_single_winner_witness :
    rb_objc_install_primitives 4 ex_containers (VALUE.ref 5) (VALUE.ref 4) =
      Except.ok (true, RCLASS_SET_VERSION_FLAG
        (Container.array.install ex_containers (VALUE.ref 5)) (VALUE.ref 5)
        Container.array.flag) :=
  ((rb_objc_install_primitives_single_winner ex_containers (VALUE.ref 5) (VALUE.ref 4) 4 4
    (by decide) (by decide) (by decide)).2 Container.array (by decide)).1

/-! ### Visibility filtering (C2) -/

/-- Claim C2 (code defect). `class_instance_method_list` never calls the
visibility callback it is given, so the public, protected and private
enumerations all equal the unfiltered one; on the class with own methods
`a` (public), `b` (protected), `c` (private) each of them answers all three
names instead of `a`, `b`, `c` respectively. -/
theorem visibility_enumerations_ignore_visibility :
    (∀ fuel s argv mod,
      rb_class_public_instance_methods fuel s argv mod =
          rb_class_instance_methods fuel s argv mod ∧
      rb_class_protected_instance_methods fuel s argv mod =
          rb_class_instance_methods fuel s argv mod ∧
      rb_class_private_instance_methods fuel s argv mod =
          rb_class_instance_methods fuel s argv mod) ∧
    rb_class_public_instance_methods 1 ex_visibility [VALUE.Qfalse] (VALUE.ref 8) =
      Except.ok ["c", "b", "a"] ∧
    rb_class_protected_instance_methods 1 ex_visibility [VALUE.Qfalse] (VALUE.ref 8) =
      Except.ok ["c", "b", "a"] ∧
    rb_class_private_instance_methods 1 ex_visibility [VALUE.Qfalse] (VALUE.ref 8) =
      Except.ok ["c", "b", "a"] ∧
    (class_copyMethodList ex_visibility (VALUE.ref 8)).map
        (fun m => (m.sel, (rb_objc_method_node3 m.imp).map (fun n => n.noex))) =
      [("c", some NOEX_PRIVATE), ("b", some NOEX_PROTECTED), ("a", some NOEX_PUBLIC)] := by
  refine ⟨fun _ _ _ _ => ⟨rfl, rfl, rfl⟩, ?_, ?_, ?_, ?_⟩ <;> decide

/-! ### Clone fidelity (C3) -/

/-- Claim C3 (code defect). The copy of the instance-variable table and of the
method table in `rb_mod_init_copy` is compiled out (`#if 0 // TODO`): after
`rb_class_init_copy(clone, C)` on a fresh clone of the class `C` with own
methods `a`, `b` and instance variable `x`, the clone's own method table and
instance-variable table are still empty while `C` keeps its own. -/
theorem rb_class_init_copy_copies_no_tables :
    ∃ s1, rb_class_init_copy 4 ex_clone (VALUE.ref 10) (VALUE.ref 8) =
        Except.ok (VALUE.ref 10, s1) ∧
      (class_copyMethodList ex_clone (VALUE.ref 8)).map (fun m => m.sel) = ["b", "a"] ∧
      (class_copyMethodList s1 (VALUE.ref 8)).map (fun m => m.sel) = ["b", "a"] ∧
      class_copyMethodList s1 (VALUE.ref 10) = [] ∧
      rb_ivar_get s1 (VALUE.ref 8) "x" = VALUE.fixnum 1 ∧
      rb_ivar_get s1 (VALUE.ref 10) "x" = VALUE.Qnil ∧
      RCLASS_SUPER s1 (VALUE.ref 10) = RCLASS_SUPER s1 (VALUE.ref 8) := by
  refine ⟨state_of (rb_class_init_copy 4 ex_clone (VALUE.ref 10) (VALUE.ref 8)) ex_clone,
    ?_, ?_, ?_, ?_, ?_, ?_, ?_⟩ <;> decide

/-! ### Heap lemmas and module inclusion (C1, C5) -/

theorem deref_modify (s : State) (v w : VALUE) (f : RObject → RObject) :
    deref (modify s v f) w = if w = v then (deref s v).map f else deref s w := by
  by_cases hv : ∃ a, v = VALUE.ref a
  · obtain ⟨a, rfl⟩ := hv
    simp only [modify]
    cases h : s.heap[a]? with
    | none =>
      by_cases hw : w = VALUE.ref a
      · subst hw; simp [deref, h]
      · simp [hw]
    | some o =>
      cases w with
      | ref b =>
        by_cases hab : b = a
        · subst hab
          have hlt : b < s.heap.length := (List.getElem?_eq_some_iff.1 h).1
          simp [deref, h, hlt]
        · have : ¬ (VALUE.ref b = VALUE.ref a) := fun h => hab (by injection h)
          simp [deref, this, List.getElem?_set, Ne.symm hab]
      | _ => simp [deref]
  · have h1 : modify s v f = s := by
      cases v <;> first | rfl | exact absurd ⟨_, rfl⟩ hv
    have h2 : deref s v = none := by
      cases v <;> first | rfl | exact absurd ⟨_, rfl⟩ hv
    rw [h1]
    by_cases hw : w = v
    · subst hw; simp [h2]
    · simp [hw]

theorem modify_heap_length (s : State) (v : VALUE) (f : RObject → RObject) :
    (modify s v f).heap.length = s.heap.length := by
  cases v with
  | ref a => simp only [modify]; split <;> simp
  | _ => rfl

theorem modify_eq (s : State) (v : VALUE) (f : RObject → RObject) :
    modify s v f = { s with heap := (modify s v f).heap } := by
  cases v with
  | ref a => simp only [modify]; split <;> rfl
  | _ => rfl

theorem find_set_imp_ne (S sel : String) (imp : IMP) (h : sel ≠ S) (ms : List Method) :
    (set_imp sel imp ms).find? (fun m => m.sel = S) = ms.find? (fun m => m.sel = S) := by
  induction ms with
  | nil => rfl
  | cons m ms ih =>
    rw [set_imp]
    split
    · rename_i hm
      have h1 : ¬ m.sel = S := fun h2 => h (hm ▸ h2)
      simp [List.find?_cons, h1]
    · by_cases hS : m.sel = S
      · simp [List.find?_cons, hS]
      · simp [List.find?_cons, hS, ih]

theorem find_set_imp_eq (S : String) (imp : IMP) (ms : List Method) (m0 : Method)
    (h : ms.find? (fun m => m.sel = S) = some m0) :
    (set_imp S imp ms).find? (fun m => m.sel = S) = some { m0 with imp := imp } := by
  induction ms with
  | nil => simp at h
  | cons m ms ih =>
    rw [set_imp]
    split
    · rename_i hm
      simp only [List.find?_cons, hm, decide_True] at h ⊢
      simp only [Option.some.injEq] at h
      subst h
      simp [hm]
    · rename_i hm
      simp only [List.find?_cons, hm, decide_False] at h ⊢
      exact ih h

theorem any_sel_eq_false_iff (S : String) (ms : List Method) :
    ms.any (fun m => decide (m.sel = S)) = false ↔ ms.find? (fun m => m.sel = S) = none := by
  induction ms with
  | nil => simp
  | cons m ms ih =>
    by_cases hm : m.sel = S <;> simp [hm, List.find?_cons] at ih ⊢

theorem own_imp_some_iff (s : State) (c : VALUE) (S : String) (i : IMP) :
    own_imp s c S = some i ↔
      ∃ o m, deref s c = some o ∧ o.methods.find? (fun m => m.sel = S) = some m ∧ m.imp = i := by
  unfold own_imp class_copyMethodList
  cases hd : deref s c with
  | none => simp
  | some o =>
    cases hf : o.methods.find? (fun m => m.sel = S) with
    | none => simp [hf]
    | some m => simp [hf]

theorem class_getInstanceMethod_own (fuel : Nat) (s : State) (c : VALUE) (S : String) (i : IMP)
    (r : Option MethodRef) (hown : own_imp s c S = some i)
    (h : class_getInstanceMethod fuel s c S = Except.ok r) :
    r = some { owner := c, sel := S } := by
  obtain ⟨o, m, hd, hf, _⟩ := (own_imp_some_iff s c S i).1 hown
  cases fuel with
  | zero => simp [class_getInstanceMethod] at h
  | succ fuel =>
    have hany : o.methods.any (fun m => decide (m.sel = S)) = true := by
      cases hb : o.methods.any (fun m => decide (m.sel = S)) with
      | true => rfl
      | false => rw [(any_sel_eq_false_iff S o.methods).1 hb] at hf; exact Option.noConfusion hf
    simp [class_getInstanceMethod, hd, hany] at h
    exact h.symm

theorem class_getInstanceMethod_sel (fuel : Nat) (s : State) (S : String) :
    ∀ (c : VALUE) (m : MethodRef), class_getInstanceMethod fuel s c S = Except.ok (some m) →
      m.sel = S := by
  induction fuel with
  | zero => intro c m h; simp [class_getInstanceMethod] at h
  | succ fuel ih =>
    intro c m h
    unfold class_getInstanceMethod at h
    cases hd : deref s c with
    | none => simp [hd] at h
    | some o =>
      simp only [hd] at h
      split at h
      · simp at h; rw [← h]
      · exact ih _ _ h

theorem own_imp_setImplementation_ne (s : State) (c : VALUE) (S : String) (m : MethodRef)
    (imp : IMP) (h : m.sel ≠ S) :
    own_imp (method_setImplementation s m imp) c S = own_imp s c S := by
  unfold own_imp class_copyMethodList method_setImplementation
  rw [deref_modify]
  by_cases hc : c = m.owner
  · rw [if_pos hc, hc]
    cases hd : deref s m.owner with
    | none => simp
    | some o => simp [find_set_imp_ne S m.sel imp h]
  · simp [hc]

theorem own_imp_setImplementation_eq (s : State) (c : VALUE) (S : String) (imp i : IMP)
    (h : own_imp s c S = some i) :
    own_imp (method_setImplementation s { owner := c, sel := S } imp) c S = some imp := by
  obtain ⟨o, m, hd, hf, _⟩ := (own_imp_some_iff s c S i).1 h
  unfold own_imp class_copyMethodList method_setImplementation
  rw [deref_modify]
  simp [hd, find_set_imp_eq S imp o.methods m hf]

theorem class_addMethod_own (s s1 : State) (c : VALUE) (S sel : String) (imp i : IMP)
    (types : String) (hown : own_imp s c S = some i)
    (h : class_addMethod s c sel imp types = (true, s1)) :
    sel ≠ S ∧ own_imp s1 c S = some i := by
  obtain ⟨o, m, hd, hf, hi⟩ := (own_imp_some_iff s c S i).1 hown
  unfold class_addMethod at h
  simp only [hd] at h
  split at h
  · simp at h
  · rename_i hany
    simp only [Prod.mk.injEq, true_and] at h
    have hne : sel ≠ S := by
      intro he
      subst he
      have := (any_sel_eq_false_iff sel o.methods).1 (by simpa using hany)
      rw [this] at hf; exact Option.noConfusion hf
    refine ⟨hne, ?_⟩
    rw [← h]
    unfold own_imp class_copyMethodList
    rw [deref_modify]
    simp [hd, List.find?_cons, hne, hf, hi]

theorem rb_include_module_methods_own (fuel : Nat) (C : VALUE) (S : String) :
    ∀ (ms : List Method) (s s1 : State) (i : IMP),
      rb_include_module_methods fuel s C ms = Except.ok ((), s1) →
      own_imp s C S = some i → own_imp s1 C S = some (last_imp S i ms) := by
  intro ms
  induction ms with
  | nil =>
    intro s s1 i h hown
    simp [rb_include_module_methods] at h
    subst h; simpa [last_imp] using hown
  | cons method rest ih =>
    intro s s1 i h hown
    unfold rb_include_module_methods at h
    have hadd : ∀ s2, (match class_addMethod s C method.sel method.imp method.types with
          | (true, s) => rb_include_module_methods fuel s C rest
          | (false, s) => Except.error (Exn.assertion, s)) = Except.ok ((), s2) →
          own_imp s2 C S = some (last_imp S i (method :: rest)) := by
      intro s2 h2
      cases hcm : class_addMethod s C method.sel method.imp method.types with
      | mk b s3 =>
        rw [hcm] at h2
        cases b with
        | false => simp at h2
        | true =>
          simp only at h2
          obtain ⟨hne, hown3⟩ := class_addMethod_own s s3 C S _ _ i _ hown hcm
          have := ih s3 s2 i h2 hown3
          simpa [last_imp, List.foldl_cons, hne] using this
    cases hl : class_getInstanceMethod fuel s C method.sel with
    | error e => simp [hl] at h
    | ok r =>
      rw [hl] at h
      cases r with
      | none => exact hadd s1 h
      | some m2 =>
        simp only at h
        cases hl2 : class_getInstanceMethod fuel s (RCLASS_SUPER s C) method.sel with
        | error e => simp [hl2] at h
        | ok inh =>
          rw [hl2] at h
          simp only at h
          split at h
          · have hsel := class_getInstanceMethod_sel fuel s method.sel C m2 hl
            by_cases hS : method.sel = S
            · have hm2 := class_getInstanceMethod_own fuel s C S i _ hown (hS ▸ hl)
              simp only [Option.some.injEq] at hm2
              subst hm2
              have := ih _ s1 method.imp h (own_imp_setImplementation_eq s C S method.imp i hown)
              simpa [last_imp, List.foldl_cons, hS] using this
            · have hne : m2.sel ≠ S := by rw [hsel]; exact hS
              have := ih _ s1 i h
                ((own_imp_setImplementation_ne s C S m2 method.imp hne).trans hown)
              simpa [last_imp, List.foldl_cons, hS] using this
          · exact hadd s1 h

theorem rb_include_module_eq (fuel : Nat) (s : State) (C M : VALUE) :
    rb_include_module fuel s C M =
      if OBJ_FROZEN s C = true then Except.error (Exn.FrozenError, s)
      else if OBJ_TAINTED s C = false ∧ 4 ≤ s.safe_level then
        Except.error (Exn.SecurityError, s)
      else if TYPE s M ≠ T_MODULE then Except.error (Exn.TypeError, s)
      else if M ∈ (included_modules_ivar s C).getD [] then Except.ok ((), s)
      else
        rb_include_module_methods fuel
          (rb_include_module_record (rb_include_module_ready s C) C M
            ((included_modules_ivar s C).getD []))
          C (class_copyMethodList (rb_include_module_record (rb_include_module_ready s C) C M
            ((included_modules_ivar s C).getD [])) M) := by
  unfold rb_include_module
  simp only [rb_frozen_class_p, rb_secure, Check_Type, bind, Except.bind]
  cases hf : OBJ_FROZEN s C with
  | true => simp
  | false =>
    cases ht : OBJ_TAINTED s C with
    | false =>
      by_cases hl : 4 ≤ s.safe_level
      · simp [hl, ht]
      · by_cases hty : TYPE s M = T_MODULE
        · cases hi : included_modules_ivar s C with
          | none => simp [hl, ht, hty, hi, rb_include_module_ready]
          | some ary => simp [hl, ht, hty, hi, rb_include_module_ready]
        · simp [hl, ht, hty]
    | true =>
      by_cases hty : TYPE s M = T_MODULE
      · cases hi : included_modules_ivar s C with
        | none => simp [ht, hty, hi, rb_include_module_ready]
        | some ary => simp [ht, hty, hi, rb_include_module_ready]
      · simp [ht, hty]

theorem deref_ready (s : State) (C w : VALUE) :
    deref (rb_include_module_ready s C) w =
      (deref s w).map (fun o =>
        { o with included_modules :=
            if w = C then some (o.included_modules.getD []) else o.included_modules }) := by
  unfold rb_include_module_ready included_modules_ivar
  cases hC : deref s C with
  | none =>
    simp only [set_included_modules, deref_modify]
    by_cases hw : w = C
    · subst hw; simp [hC]
    · simp [hw]
  | some o =>
    cases hi : o.included_modules with
    | none =>
      simp only [hi, set_included_modules, deref_modify]
      by_cases hw : w = C
      · subst hw; simp [hC, hi]
      · simp [hw]
    | some ary =>
      simp only [hi]
      by_cases hw : w = C
      · subst hw
        cases o
        simp_all
      · simp [hw]

theorem deref_record (s : State) (C M w : VALUE) (ary : List VALUE) :
    deref (rb_include_module_record s C M ary) w =
      (deref s w).map (fun o =>
        { o with
          included_modules := if w = C then some (M :: ary) else o.included_modules,
          included_in_classes :=
            if w = M then some (o.included_in_classes.getD [] ++ [C])
            else o.included_in_classes }) := by
  unfold rb_include_module_record included_in_classes_ivar
  simp only [set_included_modules, set_included_in_classes]
  by_cases hwM : w = M
  · subst hwM
    by_cases hwC : w = C
    · subst hwC
      cases hd : deref s w with
      | none => simp [deref_modify, hd]
      | some o =>
        cases hi : o.included_in_classes <;> simp [deref_modify, hd, hi]
    · cases hd : deref s w with
      | none => simp [deref_modify, hd, hwC]
      | some o =>
        cases hi : o.included_in_classes <;> simp [deref_modify, hd, hi, hwC]
  · by_cases hwC : w = C
    · subst hwC
      have hMw : ¬ M = w := fun h => hwM h.symm
      cases hd : deref s w with
      | none =>
        cases hdM : deref s M with
        | none => simp [deref_modify, hd, hdM, hwM, hMw]
        | some oM => cases hi : oM.included_in_classes <;>
            simp [deref_modify, hd, hdM, hi, hwM, hMw]
      | some o =>
        cases hdM : deref s M with
        | none => simp [deref_modify, hd, hdM, hwM, hMw]
        | some oM => cases hi : oM.included_in_classes <;>
            simp [deref_modify, hd, hdM, hi, hwM, hMw]
    · by_cases hMC : M = C
      · subst hMC
        cases hdM : deref s M with
        | none => simp [deref_modify, hdM, hwM]
        | some oM => cases hi : oM.included_in_classes <;>
            simp [deref_modify, hdM, hi, hwM]
      · cases hdM : deref s M with
        | none => simp [deref_modify, hdM, hwM, hwC, hMC]
        | some oM => cases hi : oM.included_in_classes <;>
            simp [deref_modify, hdM, hi, hwM, hwC, hMC]

theorem same_but_methods_refl (s : State) : same_but_methods s s :=
  ⟨fun _ => rfl, rfl⟩

theorem same_but_methods_trans {s s1 s2 : State} (h1 : same_but_methods s s1)
    (h2 : same_but_methods s1 s2) : same_but_methods s s2 :=
  ⟨fun w => (h2.1 w).trans (h1.1 w), h2.2.trans h1.2⟩

theorem same_but_methods_modify (s : State) (v : VALUE) (f : RObject → RObject)
    (hf : ∀ o, erase_methods (f o) = erase_methods o) : same_but_methods s (modify s v f) := by
  refine ⟨fun w => ?_, ?_⟩
  · rw [deref_modify]
    by_cases hw : w = v
    · subst hw
      cases hd : deref s w with
      | none => simp
      | some o => simp [hf]
    · simp [hw]
  · rw [modify_eq]; rfl

theorem same_but_methods_addMethod (s s1 : State) (c : VALUE) (sel : String) (imp : IMP)
    (types : String) (b : Bool) (h : class_addMethod s c sel imp types = (b, s1)) :
    same_but_methods s s1 := by
  unfold class_addMethod at h
  cases hd : deref s c with
  | none => simp [hd] at h; rw [← h.2]; exact same_but_methods_refl s
  | some o =>
    simp only [hd] at h
    split at h
    · simp at h; rw [← h.2]; exact same_but_methods_refl s
    · simp at h; rw [← h.2]
      exact same_but_methods_modify s c _ (fun o => rfl)

theorem rb_include_module_methods_frame (fuel : Nat) (C : VALUE) :
    ∀ (ms : List Method) (s s1 : State),
      rb_include_module_methods fuel s C ms = Except.ok ((), s1) → same_but_methods s s1 := by
  intro ms
  induction ms with
  | nil =>
    intro s s1 h
    simp [rb_include_module_methods] at h
    subst h; exact same_but_methods_refl s
  | cons method rest ih =>
    intro s s1 h
    unfold rb_include_module_methods at h
    have hadd : ∀ s2, (match class_addMethod s C method.sel method.imp method.types with
          | (true, s) => rb_include_module_methods fuel s C rest
          | (false, s) => Except.error (Exn.assertion, s)) = Except.ok ((), s2) →
          same_but_methods s s2 := by
      intro s2 h2
      cases hcm : class_addMethod s C method.sel method.imp method.types with
      | mk b s3 =>
        rw [hcm] at h2
        cases b with
        | false => simp at h2
        | true =>
          simp only at h2
          exact same_but_methods_trans (same_but_methods_addMethod s s3 C _ _ _ _ hcm)
            (ih s3 s2 h2)
    cases hl : class_getInstanceMethod fuel s C method.sel with
    | error e => simp [hl] at h
    | ok r =>
      rw [hl] at h
      cases r with
      | none => exact hadd s1 h
      | some m2 =>
        simp only at h
        cases hl2 : class_getInstanceMethod fuel s (RCLASS_SUPER s C) method.sel with
        | error e => simp [hl2] at h
        | ok inh =>
          rw [hl2] at h
          simp only at h
          split at h
          · have hset : same_but_methods s (method_setImplementation s m2 method.imp) :=
              same_but_methods_modify s m2.owner _ (fun o => rfl)
            exact same_but_methods_trans hset (ih _ s1 h)
          · exact hadd s1 h

theorem TYPE_deref (t : State) (w : VALUE) :
    TYPE t w =
      match w with
      | VALUE.Qnil => T_NIL
      | VALUE.Qfalse => T_FALSE
      | VALUE.Qtrue => T_TRUE
      | VALUE.Qundef => T_UNDEF
      | VALUE.fixnum _ => T_FIXNUM
      | VALUE.symbol _ => T_SYMBOL
      | VALUE.ref _ =>
        match deref t w with
        | some o =>
          if o.is_class then (if o.version.test RCLASS_IS_MODULE then T_MODULE else T_CLASS)
          else o.builtin_type
        | none => T_NONE := by
  cases w <;> rfl

theorem deref_of_TYPE_module (s : State) (M : VALUE) (h : TYPE s M = T_MODULE) :
    ∃ o, deref s M = some o := by
  rw [TYPE_deref] at h
  cases M with
  | ref a =>
    simp only at h
    cases hd : deref s (VALUE.ref a) with
    | none => simp [hd] at h
    | some o => exact ⟨o, rfl⟩
  | _ => simp at h

theorem forget_heap_modify (s : State) (v : VALUE) (f : RObject → RObject) :
    forget_heap (modify s v f) = forget_heap s := by
  rw [modify_eq]; rfl

theorem record_obs (s : State) (C M w : VALUE) (ary : List VALUE) :
    OBJ_FROZEN (rb_include_module_record (rb_include_module_ready s C) C M ary) w =
        OBJ_FROZEN s w ∧
    OBJ_TAINTED (rb_include_module_record (rb_include_module_ready s C) C M ary) w =
        OBJ_TAINTED s w ∧
    TYPE (rb_include_module_record (rb_include_module_ready s C) C M ary) w = TYPE s w ∧
    (rb_include_module_record (rb_include_module_ready s C) C M ary).safe_level =
        s.safe_level := by
  refine ⟨?_, ?_, ?_, ?_⟩
  · unfold OBJ_FROZEN; rw [deref_record, deref_ready]; cases deref s w <;> rfl
  · unfold OBJ_TAINTED; rw [deref_record, deref_ready]; cases deref s w <;> rfl
  · rw [TYPE_deref, TYPE_deref s, deref_record, deref_ready]
    cases w <;> try rfl
    rename_i a
    cases deref s (VALUE.ref a) <;> rfl
  · have h1 : forget_heap (rb_include_module_ready s C) = forget_heap s := by
      unfold rb_include_module_ready
      split
      · exact forget_heap_modify _ _ _
      · rfl
    have h2 : ∀ t : State, forget_heap (rb_include_module_record t C M ary) = forget_heap t := by
      intro t
      unfold rb_include_module_record
      simp only [set_included_modules, set_included_in_classes]
      split <;> simp [forget_heap_modify]
    have := congrArg State.safe_level ((h2 _).trans h1)
    simpa [forget_heap] using this

theorem same_but_methods_obs {s s1 : State} (h : same_but_methods s s1) (w : VALUE) :
    OBJ_FROZEN s1 w = OBJ_FROZEN s w ∧ OBJ_TAINTED s1 w = OBJ_TAINTED s w ∧
    TYPE s1 w = TYPE s w ∧ included_modules_ivar s1 w = included_modules_ivar s w ∧
    included_in_classes_ivar s1 w = included_in_classes_ivar s w ∧
    s1.safe_level = s.safe_level := by
  have hw := h.1 w
  have hs : s1.safe_level = s.safe_level := by
    have := congrArg State.safe_level h.2
    simpa [forget_heap] using this
  have hT := fun t : State => TYPE_deref t w
  rw [hT s1, hT s]
  unfold OBJ_FROZEN OBJ_TAINTED included_modules_ivar included_in_classes_ivar
  cases h1 : deref s1 w with
  | none =>
    cases h0 : deref s w with
    | none => simp [hs]
    | some o => simp [h1, h0] at hw
  | some o1 =>
    cases h0 : deref s w with
    | none => simp [h1, h0] at hw
    | some o =>
      simp only [h1, h0, Option.map_some', Option.some.injEq, erase_methods] at hw
      cases o1; cases o
      simp only [RObject.mk.injEq] at hw
      simp [hw, hs]

theorem last_imp_of_not_mem (S : String) :
    ∀ (ms : List Method) (i : IMP), (∀ x ∈ ms, x.sel ≠ S) → last_imp S i ms = i := by
  intro ms
  induction ms with
  | nil => intro i _; rfl
  | cons x rest ih =>
    intro i h
    have hx : x.sel ≠ S := h x (List.mem_cons_self _ _)
    have := ih i (fun y hy => h y (List.mem_cons_of_mem _ hy))
    simpa [last_imp, List.foldl_cons, hx] using this

theorem last_imp_of_mem (S : String) (m : Method) (hsel : m.sel = S) :
    ∀ (ms : List Method) (i : IMP), m ∈ ms → (ms.map Method.sel).Nodup →
      last_imp S i ms = m.imp := by
  intro ms
  induction ms with
  | nil => intro i h; simp at h
  | cons x rest ih =>
    intro i hmem hnd
    simp only [List.map_cons, List.nodup_cons, List.mem_map, not_exists, not_and] at hnd
    rcases List.mem_cons.1 hmem with h | h
    · subst h
      have hrest : ∀ y ∈ rest, y.sel ≠ S := fun y hy hys => hnd.1 y hy (hys.trans hsel.symm)
      have := last_imp_of_not_mem S rest m.imp hrest
      simpa [last_imp, List.foldl_cons, hsel] using this
    · have := ih (if x.sel = S then x.imp else i) h hnd.2
      simpa [last_imp, List.foldl_cons] using this

theorem class_copyMethodList_record (s : State) (C M c : VALUE) :
    class_copyMethodList (rb_include_module_record (rb_include_module_ready s C) C M
      ((included_modules_ivar s C).getD [])) c = class_copyMethodList s c := by
  unfold class_copyMethodList
  rw [deref_record, deref_ready]
  cases deref s c <;> rfl

/-- Claim C1, as amended. After a successful `rb_include_module(C, M)` where
`C` owns selector `S` and `M` defines `S` (by entry `m`, selectors of `M`
being distinct): if `M` was already in `C`'s list nothing changes; otherwise
`C`'s own entry for `S` holds the module's implementation. -/
theorem rb_include_module_replaces_own_implementation (fuel : Nat) (s s1 : State)
    (C M : VALUE) (S : String) (i : IMP) (m : Method)
    (hown : own_imp s C S = some i)
    (hm : m ∈ class_copyMethodList s M) (hsel : m.sel = S)
    (hnodup : ((class_copyMethodList s M).map Method.sel).Nodup)
    (hok : rb_include_module fuel s C M = Except.ok ((), s1)) :
    (M ∈ (included_modules_ivar s C).getD [] → s1 = s) ∧
    (M ∉ (included_modules_ivar s C).getD [] → own_imp s1 C S = some m.imp) := by
  rw [rb_include_module_eq] at hok
  split at hok
  · simp at hok
  · split at hok
    · simp at hok
    · split at hok
      · simp at hok
      · split at hok
        · rename_i hin
          simp only [Except.ok.injEq, Prod.mk.injEq, true_and] at hok
          exact ⟨fun _ => hok.symm, fun h => absurd hin h⟩
        · rename_i hin
          refine ⟨fun h => absurd h hin, fun _ => ?_⟩
          rw [class_copyMethodList_record] at hok
          have hown0 : own_imp (rb_include_module_record (rb_include_module_ready s C) C M
              ((included_modules_ivar s C).getD [])) C S = some i := by
            unfold own_imp
            rw [class_copyMethodList_record]
            exact hown
          have := rb_include_module_methods_own fuel C S _ _ s1 i hok hown0
          rw [this, last_imp_of_mem S m hsel _ i hm hnodup]

theorem rb_include_module_list (fuel : Nat) (s s1 : State) (C M : VALUE)
    (hC : (deref s C).isSome = true)
    (hok : rb_include_module fuel s C M = Except.ok ((), s1)) :
    included_modules_ivar s1 C =
      some (if M ∈ (included_modules_ivar s C).getD [] then (included_modules_ivar s C).getD []
            else M :: (included_modules_ivar s C).getD []) := by
  rw [rb_include_module_eq] at hok
  split at hok
  · simp at hok
  · split at hok
    · simp at hok
    · split at hok
      · simp at hok
      · split at hok
        · rename_i hin
          simp only [Except.ok.injEq, Prod.mk.injEq, true_and] at hok
          subst hok
          rw [if_pos hin]
          cases h : included_modules_ivar s C with
          | none => simp [h] at hin
          | some l => rfl
        · rename_i hin
          rw [class_copyMethodList_record] at hok
          have hfr := rb_include_module_methods_frame fuel C _ _ s1 hok
          obtain ⟨o, ho⟩ := Option.isSome_iff_exists.1 hC
          rw [if_neg hin, (same_but_methods_obs hfr C).2.2.2.1]
          unfold included_modules_ivar
          rw [deref_record, deref_ready]
          simp [ho]

/-- Claim C5. After a successful `rb_include_module(C, M)` on a class `C`, an
immediately following identical call succeeds and changes nothing at all (so
`C`'s included-modules list, `M`'s included-in list and every query on the
state are as after the first call); `C`'s list then holds `M`, in front of
the old list if it was not in it and the old list otherwise, so `M` occurs
once when it did not occur before and no duplicate is introduced. -/
theorem rb_include_module_idempotent (fuel fuel2 : Nat) (s s1 : State) (C M : VALUE)
    (hC : (deref s C).isSome = true)
    (hok : rb_include_module fuel s C M = Except.ok ((), s1)) :
    rb_include_module fuel2 s1 C M = Except.ok ((), s1) ∧
    included_modules_ivar s1 C =
      some (if M ∈ (included_modules_ivar s C).getD [] then (included_modules_ivar s C).getD []
            else M :: (included_modules_ivar s C).getD []) ∧
    included_in_classes_ivar s1 M =
      (if M ∈ (included_modules_ivar s C).getD [] then included_in_classes_ivar s M
       else some ((included_in_classes_ivar s M).getD [] ++ [C])) ∧
    (M ∉ (included_modules_ivar s C).getD [] →
      ((included_modules_ivar s1 C).getD []).count M = 1) ∧
    (((included_modules_ivar s C).getD []).Nodup →
      ((included_modules_ivar s1 C).getD []).Nodup) := by
  have hok0 := hok
  rw [rb_include_module_eq] at hok
  split at hok
  · simp at hok
  · rename_i hfrozen
    split at hok
    · simp at hok
    · rename_i hsec
      split at hok
      · simp at hok
      · rename_i hty
        split at hok
        · rename_i hin
          simp only [Except.ok.injEq, Prod.mk.injEq, true_and] at hok
          subst hok
          have hsome : included_modules_ivar s C = some ((included_modules_ivar s C).getD []) := by
            cases h : included_modules_ivar s C with
            | none => simp [h] at hin
            | some l => rfl
          refine ⟨?_, ?_, ?_, fun h => absurd hin h, ?_⟩
          · rw [rb_include_module_eq]; simp [hfrozen, hsec, hty, hin]
          · rw [if_pos hin]; exact hsome
          · rw [if_pos hin]
          · exact fun h => h
        · rename_i hin
          rw [class_copyMethodList_record] at hok
          have hfr := rb_include_module_methods_frame fuel C _ _ s1 hok
          obtain ⟨o, ho⟩ := Option.isSome_iff_exists.1 hC
          -- observations in the state reached by the bookkeeping
          have hobs : ∀ w, OBJ_FROZEN s1 w = OBJ_FROZEN s w ∧ OBJ_TAINTED s1 w = OBJ_TAINTED s w ∧
              TYPE s1 w = TYPE s w ∧ s1.safe_level = s.safe_level := by
            intro w
            obtain ⟨h1, h2, h3, _, _, h6⟩ := same_but_methods_obs hfr w
            obtain ⟨g1, g2, g3, g4⟩ := record_obs s C M w ((included_modules_ivar s C).getD [])
            exact ⟨h1.trans g1, h2.trans g2, h3.trans g3, h6.trans g4⟩
          have hinc1 : included_modules_ivar s1 C =
              some (M :: (included_modules_ivar s C).getD []) := by
            rw [rb_include_module_list fuel s s1 C M hC hok0, if_neg hin]
          have hinn1 : included_in_classes_ivar s1 M =
              some ((included_in_classes_ivar s M).getD [] ++ [C]) := by
            rw [(same_but_methods_obs hfr M).2.2.2.2.1]
            obtain ⟨oM, hoM⟩ := deref_of_TYPE_module s M (by simpa using hty)
            unfold included_in_classes_ivar
            rw [deref_record, deref_ready]
            simp [hoM]
          refine ⟨?_, ?_, ?_, ?_, ?_⟩
          · rw [rb_include_module_eq]
            obtain ⟨h1, h2, _, _⟩ := hobs C
            obtain ⟨_, _, h3, h4⟩ := hobs M
            simp only [h1, h2, h3, h4, hinc1]
            simp [hfrozen, hsec, hty]
          · rw [if_neg hin]; exact hinc1
          · rw [if_neg hin]; exact hinn1
          · intro _
            rw [hinc1]
            simp [List.count_cons, List.count_eq_zero.2 hin]
          · intro hnd
            rw [hinc1]
            simpa [hin] using hnd

/-- Counterexample to claim C1 as stated: class `C` owns `foo`, module `M`
defines `foo`; after `rb_include_module(C, M)` the implementation `C` owns for
`foo` is no longer its own but the module's. -/
theorem rb_include_module_override_counterexample :
    rb_include_module 4 ex_include (VALUE.ref 8) (VALUE.ref 10) = Except.ok ((), ex_included) ∧
    own_imp ex_include (VALUE.ref 8) "foo" =
      some { node := some { noex := NOEX_PUBLIC, body := some ("c_foo", 0) } } ∧
    own_imp ex_include (VALUE.ref 10) "foo" =
      some { node := some { noex := NOEX_PUBLIC, body := some ("m_foo", 0) } } ∧
    own_imp ex_included (VALUE.ref 8) "foo" =
      some { node := some { noex := NOEX_PUBLIC, body := some ("m_foo", 0) } } ∧
    own_imp ex_included (VALUE.ref 8) "foo" ≠ own_imp ex_include (VALUE.ref 8) "foo" := by
  decide

/-- Witness for the amended claim C1 on `ex_include`. -/
theorem rb_include_module_replaces_own_implementation_witness :
    own_imp ex_included (VALUE.ref 8) "foo" =
      some { node := some { noex := NOEX_PUBLIC, body := some ("m_foo", 0) } } :=
  (rb_include_module_replaces_own_implementation 4 ex_include ex_included (VALUE.ref 8)
    (VALUE.ref 10) "foo" { node := some { noex := NOEX_PUBLIC, body := some ("c_foo", 0) } }
    { sel := "foo", imp := { node := some { noex := NOEX_PUBLIC, body := some ("m_foo", 0) } } }
    (by decide) (by decide) (by decide) (by decide) (by decide)).2 (by decide)

/-- Witness for claim C5 on `ex_include`: the second inclusion is a no-op. -/
theorem rb_include_module_idempotent_witness :
    rb_include_module 0 ex_included (VALUE.ref 8) (VALUE.ref 10) = Except.ok ((), ex_included) :=
  (rb_include_module_idempotent 4 0 ex_include ex_included (VALUE.ref 8) (VALUE.ref 10)
    (by decide) (by decide)).1

/-! ### Ancestry traversal (C8, C9, C10) -/

theorem nosuper_loop_eq_spec (rec1 rec2 : VALUE → Except Exn (List VALUE)) :
    ∀ (l ary : List VALUE), (∀ x ∈ l, rec1 x = rec2 x) →
      rb_mod_included_modules_nosuper_loop rec1 l ary =
        (spec_each_followed_by_own rec2 l).map (fun r => ary ++ r) := by
  intro l
  induction l with
  | nil => intro ary _; simp [rb_mod_included_modules_nosuper_loop, spec_each_followed_by_own,
      Except.map]
  | cons x rest ih =>
    intro ary h
    have hx := h x (List.mem_cons_self _ _)
    have hrest := fun y hy => h y (List.mem_cons_of_mem _ hy)
    unfold rb_mod_included_modules_nosuper_loop spec_each_followed_by_own
    rw [hx]
    cases hr : rec2 x with
    | error e => simp [Except.map]
    | ok sub =>
      simp only
      rw [ih _ hrest]
      cases spec_each_followed_by_own rec2 rest with
      | error e => simp [Except.map]
      | ok more => simp [Except.map]

theorem nosuper_eq_spec (rec1 rec2 : VALUE → Except Exn (List VALUE)) (s : State)
    (p : VALUE) (ary : List VALUE)
    (h : ∀ x ∈ (included_modules_ivar s p).getD [], rec1 x = rec2 x) :
    rb_mod_included_modules_nosuper rec1 s p ary =
      (spec_each_followed_by_own rec2 ((included_modules_ivar s p).getD [])).map
        (fun r => ary ++ r) := by
  unfold rb_mod_included_modules_nosuper
  cases hi : included_modules_ivar s p with
  | none => simp [spec_each_followed_by_own, Except.map]
  | some l =>
    simp only [Option.getD_some]
    exact nosuper_loop_eq_spec rec1 rec2 l ary (by simpa [hi] using h)

theorem RCLASS_MODULE_ne_null (s : State) (p : VALUE) (h : RCLASS_MODULE s p = true) :
    p ≠ NULL := by
  intro hp
  subst hp
  simp [RCLASS_MODULE, RCLASS_VERSION, deref, Version.test] at h

theorem included_modules_ivar_invalid (s : State) (v : VALUE) (h : deref s v = none) :
    included_modules_ivar s v = none := by
  simp [included_modules_ivar, h]

theorem deref_ref_lt (s : State) (v : VALUE) (o : RObject) (h : deref s v = some o) :
    ∃ a, v = VALUE.ref a ∧ a < s.heap.length := by
  cases v with
  | ref a => exact ⟨a, rfl, (List.getElem?_eq_some_iff.1 h).1⟩
  | _ => simp [deref] at h

theorem included_are_modules_all (s : State) (H : included_are_modules s) (v x : VALUE)
    (hx : x ∈ (included_modules_ivar s v).getD []) : RCLASS_MODULE s x = true := by
  cases hd : deref s v with
  | none => simp [included_modules_ivar_invalid s v hd] at hx
  | some o =>
    obtain ⟨a, rfl, ha⟩ := deref_ref_lt s v o hd
    exact H a ha x hx

theorem included_modules_eq_spec (s : State) (H : included_are_modules s) :
    ∀ (fuel : Nat) (m : VALUE), RCLASS_MODULE s m = true →
      rb_mod_included_modules fuel s m = spec_own_included fuel s m := by
  intro fuel
  induction fuel with
  | zero => intro m _; rfl
  | succ fuel ih =>
    intro m hm
    have hne := RCLASS_MODULE_ne_null s m hm
    unfold rb_mod_included_modules spec_own_included
    unfold rb_mod_included_modules_for
    rw [if_neg hne]
    rw [nosuper_eq_spec (rb_mod_included_modules fuel s) (spec_own_included fuel s) s m []
      (fun x hx => ih x (included_are_modules_all s H m x hx))]
    cases spec_each_followed_by_own (spec_own_included fuel s)
        ((included_modules_ivar s m).getD []) with
    | error e => simp [Except.map]
    | ok r => simp [Except.map, hm]

theorem ancestors_for_eq_spec (s : State) (rec1 rec2 : VALUE → Except Exn (List VALUE))
    (h : ∀ v, ∀ x ∈ (included_modules_ivar s v).getD [], rec1 x = rec2 x) :
    ∀ (n : Nat) (p : VALUE) (ary : List VALUE),
      rb_mod_ancestors_for rec1 s n p ary =
        (spec_ancestors_walk rec2 s n p).map (fun r => ary ++ r) := by
  intro n
  induction n with
  | zero => intro p ary; rfl
  | succ n ih =>
    intro p ary
    unfold rb_mod_ancestors_for spec_ancestors_walk
    by_cases hp : p = NULL
    · simp [hp, Except.map]
    · rw [if_neg hp, if_neg hp, nosuper_eq_spec rec1 rec2 s p (ary ++ [p]) (h p)]
      cases spec_each_followed_by_own rec2 ((included_modules_ivar s p).getD []) with
      | error e => simp [Except.map]
      | ok inc =>
        by_cases hm : RCLASS_MODULE s p = true
        · simp [Except.map, hm]
        · simp only [Except.map, hm, if_false]
          rw [ih]
          cases spec_ancestors_walk rec2 s n (RCLASS_SUPER s p) with
          | error e => simp [Except.map]
          | ok up => simp [Except.map]

theorem rb_mod_ancestors_eq_spec (s : State) (H : included_are_modules s) (fuel : Nat)
    (mod : VALUE) : rb_mod_ancestors fuel s mod = spec_ancestors fuel s mod := by
  cases fuel with
  | zero => rfl
  | succ fuel =>
    rw [rb_mod_ancestors, spec_ancestors]
    rw [ancestors_for_eq_spec s (rb_mod_included_modules fuel s) (spec_own_included fuel s)
      (fun v x hx => included_modules_eq_spec s H fuel x (included_are_modules_all s H v x hx))]
    cases spec_ancestors_walk (spec_own_included fuel s) s (fuel + 1) mod with
    | error e => simp [Except.map]
    | ok r => simp [Except.map]

theorem spec_ancestors_walk_head (rec2 : VALUE → Except Exn (List VALUE)) (s : State)
    (n : Nat) (p : VALUE) (l : List VALUE) (hp : p ≠ NULL)
    (h : spec_ancestors_walk rec2 s n p = Except.ok l) : l.head? = some p := by
  cases n with
  | zero => simp [spec_ancestors_walk] at h
  | succ n =>
    unfold spec_ancestors_walk at h
    rw [if_neg hp] at h
    cases h1 : spec_each_followed_by_own rec2 ((included_modules_ivar s p).getD []) with
    | error e => simp [h1] at h
    | ok inc =>
      simp only [h1] at h
      split at h
      · simp at h; rw [← h]; rfl
      · cases h2 : spec_ancestors_walk rec2 s n (RCLASS_SUPER s p) with
        | error e => simp [h2] at h
        | ok up => simp [h2] at h; rw [← h]; rfl

theorem rb_mod_ancestors_head (fuel : Nat) (s : State) (mod : VALUE) (l : List VALUE)
    (hp : mod ≠ NULL) (h : rb_mod_ancestors fuel s mod = Except.ok l) : l.head? = some mod := by
  cases fuel with
  | zero => simp [rb_mod_ancestors] at h
  | succ fuel =>
    rw [rb_mod_ancestors, ancestors_for_eq_spec s _ _ (fun _ _ _ => rfl)] at h
    cases h1 : spec_ancestors_walk (rb_mod_included_modules fuel s) s (fuel + 1) mod with
    | error e => simp [h1, Except.map] at h
    | ok r =>
      simp [h1, Except.map] at h
      rw [← h]
      exact spec_ancestors_walk_head _ s _ mod r hp h1

theorem rb_mod_ancestors_of_module (fuel : Nat) (s : State) (mod : VALUE)
    (hm : RCLASS_MODULE s mod = true) :
    rb_mod_ancestors fuel s mod =
      (rb_mod_included_modules fuel s mod).map (fun l => mod :: l) := by
  have hne := RCLASS_MODULE_ne_null s mod hm
  cases fuel with
  | zero => rfl
  | succ fuel =>
    rw [rb_mod_ancestors, rb_mod_included_modules]
    unfold rb_mod_ancestors_for rb_mod_included_modules_for
    rw [if_neg hne, if_neg hne,
      nosuper_eq_spec _ (rb_mod_included_modules fuel s) s mod _ (fun _ _ => rfl),
      nosuper_eq_spec _ (rb_mod_included_modules fuel s) s mod _ (fun _ _ => rfl)]
    cases spec_each_followed_by_own (rb_mod_included_modules fuel s)
        ((included_modules_ivar s mod).getD []) with
    | error e => simp [Except.map]
    | ok r => simp [Except.map, hm]

/-- Claim C8. Provided every entry of an included-modules list is a
module-kind descriptor, `rb_mod_ancestors` is the traversal the specification
describes (`spec_ancestors`, for every amount of fuel); its first element is
`mod` itself; a module that includes nothing has ancestors `[mod]`; and the
module `Mod` that included `Math` and then `Comparable` has ancestors
`[Mod, Comparable, Math]`. -/
theorem rb_mod_ancestors_refines_spec :
    (∀ (s : State) (fuel : Nat) (mod : VALUE), included_are_modules s →
      rb_mod_ancestors fuel s mod = spec_ancestors fuel s mod) ∧
    (∀ (s : State) (fuel : Nat) (mod : VALUE) (l : List VALUE), mod ≠ NULL →
      rb_mod_ancestors fuel s mod = Except.ok l → l.head? = some mod) ∧
    (∀ (s : State) (fuel : Nat) (mod : VALUE), RCLASS_MODULE s mod = true →
      (included_modules_ivar s mod).getD [] = [] →
      rb_mod_ancestors (fuel + 1) s mod = Except.ok [mod]) ∧
    (∀ fuel, rb_mod_ancestors (fuel + 2) ex_modules (VALUE.ref 12) =
      Except.ok [VALUE.ref 12, VALUE.ref 10, VALUE.ref 8]) ∧
    (∀ fuel, rb_mod_ancestors (fuel + 1) ex_modules (VALUE.ref 8) = Except.ok [VALUE.ref 8]) := by
  have h3 : ∀ (s : State) (fuel : Nat) (mod : VALUE), RCLASS_MODULE s mod = true →
      (included_modules_ivar s mod).getD [] = [] →
      rb_mod_ancestors (fuel + 1) s mod = Except.ok [mod] := by
    intro s fuel mod hm hnone
    have hne := RCLASS_MODULE_ne_null s mod hm
    rw [rb_mod_ancestors_of_module _ s mod hm, rb_mod_included_modules]
    unfold rb_mod_included_modules_for
    rw [if_neg hne, nosuper_eq_spec _ (rb_mod_included_modules fuel s) s mod _ (fun _ _ => rfl),
      hnone]
    simp [spec_each_followed_by_own, Except.map, hm]
  refine ⟨fun s fuel mod H => rb_mod_ancestors_eq_spec s H fuel mod,
    fun s fuel mod l hp h => rb_mod_ancestors_head fuel s mod l hp h, h3, ?_, ?_⟩
  · intro fuel
    have hm : RCLASS_MODULE ex_modules (VALUE.ref 12) = true := by decide
    have hi : included_modules_ivar ex_modules (VALUE.ref 12) =
        some [VALUE.ref 10, VALUE.ref 8] := by decide
    have h10 : rb_mod_included_modules (fuel + 1) ex_modules (VALUE.ref 10) = Except.ok [] := by
      have := h3 ex_modules fuel (VALUE.ref 10) (by decide) (by decide)
      rw [rb_mod_ancestors_of_module _ _ _ (by decide)] at this
      cases h : rb_mod_included_modules (fuel + 1) ex_modules (VALUE.ref 10) with
      | error e => simp [h, Except.map] at this
      | ok l => simp [h, Except.map] at this; rw [this]
    have h8 : rb_mod_included_modules (fuel + 1) ex_modules (VALUE.ref 8) = Except.ok [] := by
      have := h3 ex_modules fuel (VALUE.ref 8) (by decide) (by decide)
      rw [rb_mod_ancestors_of_module _ _ _ (by decide)] at this
      cases h : rb_mod_included_modules (fuel + 1) ex_modules (VALUE.ref 8) with
      | error e => simp [h, Except.map] at this
      | ok l => simp [h, Except.map] at this; rw [this]
    rw [rb_mod_ancestors_of_module _ _ _ hm, rb_mod_included_modules]
    unfold rb_mod_included_modules_for
    rw [if_neg (by decide),
      nosuper_eq_spec _ (rb_mod_included_modules (fuel + 1) ex_modules) _ _ _ (fun _ _ => rfl), hi]
    simp [spec_each_followed_by_own, Except.map, hm, h10, h8]
  · intro fuel
    exact h3 ex_modules fuel (VALUE.ref 8) (by decide) (by decide)

/-- Witness for claim C8: on `ex_modules` the code and the specification's
traversal agree. -/
theorem rb_mod_ancestors_refines_spec_witness :
    rb_mod_ancestors 3 ex_modules (VALUE.ref 12) = spec_ancestors 3 ex_modules (VALUE.ref 12) :=
  rb_mod_ancestors_refines_spec.1 ex_modules 3 (VALUE.ref 12)
    (by unfold included_are_modules; decide)

theorem spec_each_all (rec2 : VALUE → Except Exn (List VALUE)) (P : VALUE → Prop) :
    ∀ (l r : List VALUE), spec_each_followed_by_own rec2 l = Except.ok r →
      (∀ x ∈ l, P x) → (∀ x ∈ l, ∀ lx, rec2 x = Except.ok lx → ∀ y ∈ lx, P y) →
      ∀ y ∈ r, P y := by
  intro l
  induction l with
  | nil =>
    intro r h _ _ y hy
    simp [spec_each_followed_by_own] at h
    subst h; simp at hy
  | cons x rest ih =>
    intro r h hl hrec y hy
    unfold spec_each_followed_by_own at h
    cases h1 : rec2 x with
    | error e => simp [h1] at h
    | ok sub =>
      simp only [h1] at h
      cases h2 : spec_each_followed_by_own rec2 rest with
      | error e => simp [h2] at h
      | ok more =>
        simp only [h2, Except.ok.injEq] at h
        subst h
        rcases List.mem_cons.1 hy with hy | hy
        · subst hy; exact hl _ (List.mem_cons_self _ _)
        · rcases List.mem_append.1 hy with hy | hy
          · exact hrec x (List.mem_cons_self _ _) sub h1 y hy
          · exact ih more h2 (fun z hz => hl z (List.mem_cons_of_mem _ hz))
              (fun z hz => hrec z (List.mem_cons_of_mem _ hz)) y hy

theorem included_for_all (s : State) (rec1 : VALUE → Except Exn (List VALUE))
    (P : VALUE → Prop)
    (hent : ∀ v, ∀ x ∈ (included_modules_ivar s v).getD [], P x)
    (hrec : ∀ x lx, rec1 x = Except.ok lx → ∀ y ∈ lx, P y) :
    ∀ (n : Nat) (p : VALUE) (ary l : List VALUE), (∀ x ∈ ary, P x) →
      rb_mod_included_modules_for rec1 s n p ary = Except.ok l → ∀ x ∈ l, P x := by
  intro n
  induction n with
  | zero => intro p ary l _ h; simp [rb_mod_included_modules_for] at h
  | succ n ih =>
    intro p ary l hary h
    unfold rb_mod_included_modules_for at h
    by_cases hp : p = NULL
    · simp [hp] at h; subst h; exact hary
    · rw [if_neg hp, nosuper_eq_spec rec1 rec1 s p ary (fun _ _ => rfl)] at h
      cases h1 : spec_each_followed_by_own rec1 ((included_modules_ivar s p).getD []) with
      | error e => simp [h1, Except.map] at h
      | ok r =>
        have hr := spec_each_all rec1 P _ r h1 (hent p) (fun x _ lx hx => hrec x lx hx)
        have hall : ∀ x ∈ ary ++ r, P x := by
          intro x hx
          rcases List.mem_append.1 hx with hx | hx
          · exact hary x hx
          · exact hr x hx
        simp only [h1, Except.map] at h
        split at h
        · simp at h; subst h; exact hall
        · exact ih _ _ l hall h

theorem included_modules_all_module (s : State) (H : included_are_modules s) :
    ∀ (fuel : Nat) (m : VALUE) (l : List VALUE),
      rb_mod_included_modules fuel s m = Except.ok l → ∀ x ∈ l, RCLASS_MODULE s x = true := by
  intro fuel
  induction fuel with
  | zero => intro m l h; simp [rb_mod_included_modules] at h
  | succ fuel ih =>
    intro m l h
    rw [rb_mod_included_modules] at h
    exact included_for_all s _ (fun x => RCLASS_MODULE s x = true)
      (fun v x hx => included_are_modules_all s H v x hx) (fun x lx hx => ih x lx hx)
      _ m [] l (by simp) h

theorem ancestors_for_filter (s : State) (rec1 : VALUE → Except Exn (List VALUE))
    (hent : ∀ v, ∀ x ∈ (included_modules_ivar s v).getD [], RCLASS_MODULE s x = true)
    (hrec : ∀ x lx, rec1 x = Except.ok lx → ∀ y ∈ lx, RCLASS_MODULE s y = true) :
    ∀ (n : Nat) (p : VALUE) (ary1 ary2 : List VALUE),
      (∀ q ∈ class_chain s n p, RCLASS_MODULE s q = false) →
      ary1.filter (RCLASS_MODULE s) = ary2 →
      (rb_mod_ancestors_for rec1 s n p ary1).map (List.filter (RCLASS_MODULE s)) =
        rb_mod_included_modules_for rec1 s n p ary2 := by
  intro n
  induction n with
  | zero => intro p ary1 ary2 _ _; rfl
  | succ n ih =>
    intro p ary1 ary2 hchain hary
    unfold rb_mod_ancestors_for rb_mod_included_modules_for
    by_cases hp : p = NULL
    · simp [hp, Except.map, hary]
    · rw [if_neg hp, if_neg hp, nosuper_eq_spec rec1 rec1 s p _ (fun _ _ => rfl),
        nosuper_eq_spec rec1 rec1 s p _ (fun _ _ => rfl)]
      have hpm : RCLASS_MODULE s p = false := by
        apply hchain
        simp [class_chain, hp]
      cases h1 : spec_each_followed_by_own rec1 ((included_modules_ivar s p).getD []) with
      | error e => simp [Except.map]
      | ok r =>
        have hr := spec_each_all rec1 (fun x => RCLASS_MODULE s x = true) _ r h1 (hent p)
          (fun x _ lx hx => hrec x lx hx)
        simp only [Except.map, hpm, Bool.false_eq_true, if_false]
        apply ih
        · intro q hq
          apply hchain
          simp only [class_chain, if_neg hp, List.mem_cons]
          exact Or.inr hq
        · rw [List.filter_append, List.filter_append, hary]
          rw [List.filter_eq_self.2 hr]
          simp [List.filter_cons, hpm]

/-- Claim C9, as amended. For a module `mod`, `rb_mod_ancestors(mod)` is `mod`
followed by `rb_mod_included_modules(mod)`: the two differ by the starting
module itself.  For a class whose superclass chain holds no module-kind
descriptor (included-modules lists holding module-kind descriptors only),
`rb_mod_included_modules(mod)` is `rb_mod_ancestors(mod)` restricted to its
module-kind entries. -/
theorem rb_mod_included_modules_vs_ancestors :
    (∀ (s : State) (fuel : Nat) (mod : VALUE), RCLASS_MODULE s mod = true →
      rb_mod_ancestors fuel s mod =
        (rb_mod_included_modules fuel s mod).map (fun l => mod :: l)) ∧
    (∀ (s : State) (fuel : Nat) (mod : VALUE), included_are_modules s →
      (∀ q ∈ class_chain s fuel mod, RCLASS_MODULE s q = false) →
      (rb_mod_ancestors fuel s mod).map (List.filter (RCLASS_MODULE s)) =
        rb_mod_included_modules fuel s mod) := by
  refine ⟨fun s fuel mod hm => rb_mod_ancestors_of_module fuel s mod hm, ?_⟩
  intro s fuel mod H hchain
  cases fuel with
  | zero => rfl
  | succ fuel =>
    rw [rb_mod_ancestors, rb_mod_included_modules]
    exact ancestors_for_filter s _ (fun v x hx => included_are_modules_all s H v x hx)
      (fun x lx hx => included_modules_all_module s H fuel x lx hx) _ mod [] [] hchain rfl

/-- Counterexample to claim C9 as stated: for the module `Mod` that included
`Math` and `Comparable`, the module-kind entries of `rb_mod_ancestors(Mod)`
are `[Mod, Comparable, Math]` (every entry is module-kind) while
`rb_mod_included_modules(Mod)` is `[Comparable, Math]`. -/
theorem rb_mod_included_modules_counterexample :
    (rb_mod_ancestors 3 ex_modules (VALUE.ref 12)).map
        (List.filter (RCLASS_MODULE ex_modules)) =
      Except.ok [VALUE.ref 12, VALUE.ref 10, VALUE.ref 8] ∧
    rb_mod_included_modules 3 ex_modules (VALUE.ref 12) =
      Except.ok [VALUE.ref 10, VALUE.ref 8] ∧
    (rb_mod_ancestors 3 ex_modules (VALUE.ref 12)).map
        (List.filter (RCLASS_MODULE ex_modules)) ≠
      rb_mod_included_modules 3 ex_modules (VALUE.ref 12) := by
  decide

/-- Witness for the amended claim C9: the class `C < B` of `ex_abc_included`. -/
theorem rb_mod_included_modules_vs_ancestors_witness :
    (rb_mod_ancestors 6 ex_abc_included (VALUE.ref 12)).map
        (List.filter (RCLASS_MODULE ex_abc_included)) =
      rb_mod_included_modules 6 ex_abc_included (VALUE.ref 12) :=
  rb_mod_included_modules_vs_ancestors.2 ex_abc_included 6 (VALUE.ref 12)
    (by unfold included_are_modules; decide) (by decide)

theorem spec_each_total (rec2 : VALUE → Except Exn (List VALUE)) :
    ∀ (l : List VALUE), (∀ x ∈ l, ∃ lx, rec2 x = Except.ok lx) →
      ∃ r, spec_each_followed_by_own rec2 l = Except.ok r ∧ ∀ x ∈ l, x ∈ r := by
  intro l
  induction l with
  | nil => intro _; exact ⟨[], rfl, fun x hx => by simp at hx⟩
  | cons x rest ih =>
    intro h
    obtain ⟨lx, hlx⟩ := h x (List.mem_cons_self _ _)
    obtain ⟨r, hr, hmem⟩ := ih (fun y hy => h y (List.mem_cons_of_mem _ hy))
    refine ⟨x :: lx ++ r, ?_, ?_⟩
    · unfold spec_each_followed_by_own
      simp [hlx, hr]
    · intro y hy
      rcases List.mem_cons.1 hy with hy | hy
      · subst hy; exact List.mem_cons_self _ _
      · exact List.mem_cons_of_mem _ (List.mem_append_right _ (hmem y hy))

theorem included_for_total (s : State) (rank : VALUE → Nat)
    (rec1 : VALUE → Except Exn (List VALUE)) (m : Nat)
    (hs : ∀ p, p ≠ NULL → RCLASS_MODULE s p = false → rank (RCLASS_SUPER s p) < rank p)
    (hi : ∀ p x, x ∈ (included_modules_ivar s p).getD [] → rank x < rank p)
    (hrec : ∀ x, rank x < m → ∃ lx, rec1 x = Except.ok lx) :
    ∀ (k : Nat) (p : VALUE) (ary : List VALUE), rank p < k → rank p ≤ m →
      ∃ l, rb_mod_included_modules_for rec1 s k p ary = Except.ok l ∧ (∀ y ∈ ary, y ∈ l) ∧
        ∀ q, Walks s p q → ∀ x ∈ (included_modules_ivar s q).getD [], x ∈ l := by
  intro k
  induction k with
  | zero => intro p ary h; omega
  | succ k ih =>
    intro p ary hk hm
    unfold rb_mod_included_modules_for
    by_cases hp : p = NULL
    · refine ⟨ary, by simp [hp], fun y hy => hy, ?_⟩
      intro q hw
      cases hw with
      | here _ h => exact absurd hp h
      | up _ _ h _ _ => exact absurd hp h
    · rw [if_neg hp, nosuper_eq_spec rec1 rec1 s p ary (fun _ _ => rfl)]
      obtain ⟨r, hr, hmem⟩ := spec_each_total rec1 ((included_modules_ivar s p).getD [])
        (fun x hx => hrec x (lt_of_lt_of_le (hi p x hx) hm))
      simp only [hr, Except.map]
      by_cases hmod : RCLASS_MODULE s p = true
      · refine ⟨ary ++ r, by simp [hmod], fun y hy => List.mem_append_left _ hy, ?_⟩
        intro q hw x hx
        cases hw with
        | here _ _ => exact List.mem_append_right _ (hmem x hx)
        | up _ _ _ hnm _ => rw [hmod] at hnm; exact absurd hnm (by simp)
      · have hmod2 : RCLASS_MODULE s p = false := by
          cases h : RCLASS_MODULE s p with
          | true => exact absurd h hmod
          | false => rfl
        have hlt := hs p hp hmod2
        obtain ⟨l, hl, hsub, hwalk⟩ := ih (RCLASS_SUPER s p) (ary ++ r) (by omega) (by omega)
        refine ⟨l, by simp [hmod2, hl], fun y hy => hsub y (List.mem_append_left _ hy), ?_⟩
        intro q hw x hx
        cases hw with
        | here _ _ => exact hsub x (List.mem_append_right _ (hmem x hx))
        | up _ _ _ _ hw2 => exact hwalk q hw2 x hx

theorem included_modules_total (s : State) (rank : VALUE → Nat)
    (hs : ∀ p, p ≠ NULL → RCLASS_MODULE s p = false → rank (RCLASS_SUPER s p) < rank p)
    (hi : ∀ p x, x ∈ (included_modules_ivar s p).getD [] → rank x < rank p) :
    ∀ (n : Nat) (p : VALUE), rank p < n →
      ∃ l, rb_mod_included_modules n s p = Except.ok l ∧
        ∀ q, Walks s p q → ∀ x ∈ (included_modules_ivar s q).getD [], x ∈ l := by
  intro n
  induction n with
  | zero => intro p h; omega
  | succ n ih =>
    intro p hp
    rw [rb_mod_included_modules]
    obtain ⟨l, hl, _, hw⟩ := included_for_total s rank (rb_mod_included_modules n s) n hs hi
      (fun x hx => (ih x hx).imp (fun _ h => h.1)) (n + 1) p [] hp (by omega)
    exact ⟨l, hl, hw⟩

theorem RCLASS_MODULE_invalid (s : State) (v : VALUE) (h : deref s v = none) :
    RCLASS_MODULE s v = false := by
  simp [RCLASS_MODULE, RCLASS_VERSION, h, Version.test]

theorem RCLASS_SUPER_invalid (s : State) (v : VALUE) (h : deref s v = none) :
    RCLASS_SUPER s v = NULL := by
  simp [RCLASS_SUPER, h]

theorem included_modules_total_of_rank (s : State) (rank : VALUE → Nat)
    (h : rank_decreases s rank) (n : Nat) (p : VALUE) (hn : rank p + 3 ≤ n) :
    ∃ l, rb_mod_included_modules n s p = Except.ok l ∧
      ∀ q, Walks s p q → ∀ x ∈ (included_modules_ivar s q).getD [], x ∈ l := by
  have hbound : ∀ v, (if (deref s v).isSome = true then rank v + 2
      else if v = NULL then 0 else 1) ≤ rank v + 2 := by
    intro v; split
    · exact le_rfl
    · split <;> omega
  apply included_modules_total s
    (fun v => if (deref s v).isSome = true then rank v + 2 else if v = NULL then 0 else 1)
  · intro p hp hm
    cases hd : deref s p with
    | none => simp [RCLASS_SUPER_invalid s p hd, deref, hp]
    | some o =>
      obtain ⟨a, rfl, ha⟩ := deref_ref_lt s p o hd
      simp only [hd, Option.isSome_some, if_true]
      by_cases hq : RCLASS_SUPER s (VALUE.ref a) = NULL
      · rw [hq]; simp [deref]
      · have := h.1 a ha hm hq
        split <;> omega
  · intro p x hx
    cases hd : deref s p with
    | none => simp [included_modules_ivar_invalid s p hd] at hx
    | some o =>
      obtain ⟨a, rfl, ha⟩ := deref_ref_lt s p o hd
      have := h.2 a ha x hx
      simp only [hd, Option.isSome_some, if_true]
      have := hbound x
      omega
  · have := hbound p
    simp only at this ⊢
    omega

/-- Claim C10. `rb_mod_include_p(mod, m)` is the membership test of `m` in
`rb_mod_included_modules(mod)`.  After a successful `rb_include_module(B, A)`,
in a state whose class graph is acyclic (a rank decreases along the edges the
traversal follows), `include?(C, A)` is true, given enough fuel, for `B` itself
and for every `C` whose superclass walk visits `B`; and `include?(A, A)` is
false for a module `A` that has included nothing. -/
theorem rb_mod_include_p_membership :
    (∀ (fuel : Nat) (s : State) (mod m : VALUE),
      rb_mod_include_p fuel s mod m =
        (rb_mod_included_modules fuel s mod).map (fun l => decide (m ∈ l))) ∧
    (∀ (f : Nat) (s s1 : State) (A B C : VALUE) (rank : VALUE → Nat),
      (deref s B).isSome = true →
      rb_include_module f s B A = Except.ok ((), s1) →
      rank_decreases s1 rank → Walks s1 C B →
      ∀ fuel, rank C + 3 ≤ fuel → rb_mod_include_p fuel s1 C A = Except.ok true) ∧
    (∀ (fuel : Nat) (s : State) (A : VALUE), RCLASS_MODULE s A = true →
      (included_modules_ivar s A).getD [] = [] →
      rb_mod_include_p (fuel + 1) s A A = Except.ok false) := by
  refine ⟨?_, ?_, ?_⟩
  · intro fuel s mod m
    unfold rb_mod_include_p
    cases rb_mod_included_modules fuel s mod <;> rfl
  · intro f s s1 A B C rank hB hok hrank hw fuel hfuel
    have hlist := rb_include_module_list f s s1 B A hB hok
    have hA : A ∈ (included_modules_ivar s1 B).getD [] := by
      rw [hlist]
      simp only [Option.getD_some]
      split
      · assumption
      · exact List.mem_cons_self _ _
    obtain ⟨l, hl, hmem⟩ := included_modules_total_of_rank s1 rank hrank fuel C hfuel
    unfold rb_mod_include_p
    rw [hl]
    simp [hmem B hw A hA]
  · intro fuel s A hm hnone
    have hne := RCLASS_MODULE_ne_null s A hm
    unfold rb_mod_include_p
    rw [rb_mod_included_modules]
    unfold rb_mod_included_modules_for
    rw [if_neg hne, nosuper_eq_spec _ (rb_mod_included_modules fuel s) s A _ (fun _ _ => rfl),
      hnone]
    simp [spec_each_followed_by_own, Except.map, hm]

/-- Witness for claim C10: module `A`, class `B` including `A`, class `C < B`. -/
theorem rb_mod_include_p_membership_witness :
    rb_mod_include_p 7 ex_abc_included (VALUE.ref 12) (VALUE.ref 8) = Except.ok true :=
  rb_mod_include_p_membership.2.1 4 ex_abc ex_abc_included (VALUE.ref 8) (VALUE.ref 10)
    (VALUE.ref 12) ex_abc_rank (by decide) (by decide)
    (by unfold rank_decreases; decide)
    (Walks.up _ _ (by decide) (by decide) (Walks.here _ (by decide))) 7 (by decide)

/-! ### Singleton classes (C4, C7) -/

theorem Pres_refl (s : State) : Pres s s :=
  ⟨le_rfl, fun _ o h => ⟨o, h, rfl, rfl⟩⟩

theorem Pres_trans {s s1 s2 : State} (h1 : Pres s s1) (h2 : Pres s1 s2) : Pres s s2 := by
  refine ⟨le_trans h1.1 h2.1, fun v o hv => ?_⟩
  obtain ⟨o1, ho1, hs1, hc1⟩ := h1.2 v o hv
  obtain ⟨o2, ho2, hs2, hc2⟩ := h2.2 v o1 ho1
  exact ⟨o2, ho2, hs2.trans hs1, hc2.trans hc1⟩

theorem Pres_of_heap_eq (s s1 : State) (h : s1.heap = s.heap) : Pres s s1 := by
  refine ⟨by rw [h], fun v o hv => ⟨o, ?_, rfl, rfl⟩⟩
  cases v <;> simp_all [deref]

theorem Pres_modify (s : State) (v : VALUE) (f : RObject → RObject)
    (hf : ∀ o, (f o).super = o.super ∧ (f o).is_class = o.is_class) :
    Pres s (modify s v f) := by
  refine ⟨by rw [modify_heap_length], fun w o hw => ?_⟩
  rw [deref_modify]
  by_cases h : w = v
  · subst h
    exact ⟨f o, by simp [hw], (hf o).1, (hf o).2⟩
  · exact ⟨o, by simp [h, hw], rfl, rfl⟩

theorem Pres_append (s : State) (l : List RObject) :
    Pres s { s with heap := s.heap ++ l } := by
  refine ⟨by simp, fun v o hv => ⟨o, ?_, rfl, rfl⟩⟩
  cases v with
  | ref a =>
    simp only [deref] at hv ⊢
    have hlt : a < s.heap.length := (List.getElem?_eq_some_iff.1 hv).1
    rw [List.getElem?_append_left hlt]
    exact hv
  | _ => simp [deref] at hv

theorem Pres_install (fuel : Nat) (s s1 : State) (k sup : VALUE) (b : Bool)
    (h : rb_objc_install_primitives fuel s k sup = Except.ok (b, s1)) : Pres s s1 := by
  have hloop : ∀ (fuel : Nat) (sup : VALUE),
      rb_objc_install_primitives_loop fuel s k sup = Except.ok (b, s1) → Pres s s1 := by
    intro fuel
    induction fuel with
    | zero => intro sup h; simp [rb_objc_install_primitives_loop] at h
    | succ fuel ih =>
      intro sup h
      have hflag : ∀ (c : Container),
          Pres s (RCLASS_SET_VERSION_FLAG (c.install s k) k c.flag) := by
        intro c
        have h1 : Pres s (c.install s k) := Pres_of_heap_eq _ _ (by cases c <;> rfl)
        exact Pres_trans h1 (Pres_modify _ _ _ (fun o => ⟨rfl, rfl⟩))
      unfold rb_objc_install_primitives_loop at h
      split at h
      · simp only [Except.ok.injEq, Prod.mk.injEq] at h
        rw [← h.2]; exact hflag Container.array
      · split at h
        · simp only [Except.ok.injEq, Prod.mk.injEq] at h
          rw [← h.2]; exact hflag Container.hash
        · split at h
          · simp only [Except.ok.injEq, Prod.mk.injEq] at h
            rw [← h.2]; exact hflag Container.string
          · simp only at h
            split at h
            · exact ih _ h
            · simp only [Except.ok.injEq, Prod.mk.injEq] at h
              rw [← h.2]; exact Pres_refl s
  unfold rb_objc_install_primitives at h
  split at h
  · exact hloop fuel sup h
  · simp only [Except.ok.injEq, Prod.mk.injEq] at h
    rw [← h.2]; exact Pres_refl s

theorem alloc_name_heap (fuel : Nat) (s s1 : State) (name : Option String) (ocname : String)
    (h : rb_objc_alloc_class_name fuel s name = Except.ok (ocname, s1)) :
    s1.heap = s.heap ∧ s1.rb_cObject = s.rb_cObject ∧ s1.rb_cClass = s.rb_cClass ∧
    s1.rb_cNSObject = s.rb_cNSObject := by
  unfold rb_objc_alloc_class_name at h
  cases name with
  | none => simp at h; rw [← h.2]; simp
  | some nm =>
    simp only at h
    split at h
    · split at h
      · simp at h
      · simp at h; rw [← h.2]; simp
    · split at h
      · simp at h; rw [← h.2]; simp
      · simp at h

theorem allocateClassPair_ok (s s1 : State) (sup k : VALUE) (nm : String)
    (h : objc_allocateClassPair s sup nm = (k, s1)) (hk : k ≠ NULL) :
    k = VALUE.ref s.heap.length ∧ objc_getClass s nm = NULL ∧
    ∃ crec mrec, s1 = { s with heap := s.heap ++ [crec, mrec] } ∧ crec.super = sup ∧
      crec.is_class = true ∧ crec.klass = VALUE.ref (s.heap.length + 1) ∧
      crec.frozen = false ∧ crec.version = {} ∧ mrec.is_class = true ∧ mrec.version = {} ∧
      mrec.frozen = false := by
  unfold objc_allocateClassPair at h
  split at h
  · simp only [Prod.mk.injEq] at h
    exact absurd h.1.symm hk
  · rename_i hfree
    simp only [Prod.mk.injEq] at h
    refine ⟨h.1.symm, by simpa using hfree, _, _, h.2.symm, rfl, rfl, rfl, rfl, rfl, rfl, rfl, rfl⟩

theorem deref_append_new (s : State) (crec mrec : RObject) :
    deref { s with heap := s.heap ++ [crec, mrec] } (VALUE.ref s.heap.length) = some crec ∧
    deref { s with heap := s.heap ++ [crec, mrec] } (VALUE.ref (s.heap.length + 1)) =
      some mrec := by
  constructor
  · simp only [deref]
    rw [List.getElem?_append_right (le_refl _)]
    simp
  · simp only [deref]
    rw [List.getElem?_append_right (by omega)]
    simp

theorem alloc_class_ok (fuel : Nat) (s s1 : State) (name : Option String) (super k klass : VALUE)
    (flags : ruby_value_type)
    (h : rb_objc_alloc_class fuel s name super flags klass = Except.ok (k, s1)) :
    Pres s s1 ∧ k = VALUE.ref s.heap.length ∧
    ∃ o, deref s1 k = some o ∧ o.super = (if super = NULL then s.rb_cObject else super) ∧
      o.is_class = true := by
  unfold rb_objc_alloc_class at h
  simp only [bind, Except.bind] at h
  cases hn : rb_objc_alloc_class_name fuel s name with
  | error e => simp [hn] at h
  | ok r =>
    obtain ⟨ocname, sa⟩ := r
    obtain ⟨hheap, hobj, _, _⟩ := alloc_name_heap fuel s sa name ocname hn
    simp only [hn] at h
    cases hp : objc_allocateClassPair sa (if super = NULL then sa.rb_cObject else super) ocname with
    | mk k0 sb =>
      simp only [hp] at h
      split at h
      · simp at h
      · rename_i hk0
        obtain ⟨hk, _, crec, mrec, hsb, hsup, hcls, _⟩ := allocateClassPair_ok sa sb _ k0 ocname hp hk0
        have hPa : Pres s sa := Pres_of_heap_eq s sa hheap
        have hPb : Pres sa sb := by rw [hsb]; exact Pres_append sa _
        have hd : deref sb k0 = some crec := by
          rw [hk, hsb]; exact (deref_append_new sa crec mrec).1
        generalize rb_objc_alloc_class_version sb
          (if super = NULL then sa.rb_cObject else super) flags = ver at h
        have hPc : Pres sb (class_setVersion sb k0 ver) := Pres_modify _ _ _ (fun o => ⟨rfl, rfl⟩)
        have hdc : ∃ o, deref (class_setVersion sb k0 ver) k0 = some o ∧
            o.super = (if super = NULL then s.rb_cObject else super) ∧ o.is_class = true := by
          obtain ⟨o1, ho1, hs1, hc1⟩ := hPc.2 k0 crec hd
          exact ⟨o1, ho1, by rw [hs1, hsup, hobj], by rw [hc1, hcls]⟩
        have hk' : k0 = VALUE.ref s.heap.length := by rw [hk, hheap]
        split at h
        · cases hi : rb_objc_install_primitives fuel (class_setVersion sb k0 ver) k0
              (if super = NULL then sa.rb_cObject else super) with
          | error e => simp [hi] at h
          | ok r =>
            obtain ⟨b, sd⟩ := r
            simp only [hi, pure, Except.pure, Except.ok.injEq, Prod.mk.injEq] at h
            obtain ⟨h1, h2⟩ := h
            subst h1 h2
            have hPd := Pres_install fuel _ _ _ _ b hi
            refine ⟨Pres_trans hPa (Pres_trans hPb (Pres_trans hPc hPd)), hk', ?_⟩
            obtain ⟨o, ho, hs, hc⟩ := hdc
            obtain ⟨o2, ho2, hs2, hc2⟩ := hPd.2 k0 o ho
            exact ⟨o2, ho2, hs2.trans hs, hc2.trans hc⟩
        · simp only [pure, Except.pure, Except.ok.injEq, Prod.mk.injEq] at h
          obtain ⟨h1, h2⟩ := h
          subst h1 h2
          exact ⟨Pres_trans hPa (Pres_trans hPb hPc), hk', hdc⟩

theorem Pres_registerClassPair (s : State) (k : VALUE) : Pres s (objc_registerClassPair s k) := by
  apply Pres_of_heap_eq
  unfold objc_registerClassPair
  split <;> rfl

theorem Pres_add_method (s : State) (k : VALUE) (mid : String) (body : Option (String × Int))
    (noex : Nat) : Pres s (rb_add_method s k mid body noex) := by
  unfold rb_add_method
  apply Pres_modify
  intro o
  split <;> exact ⟨rfl, rfl⟩

theorem Pres_define_method (s : State) (k : VALUE) (name func : String) (argc : Int) :
    Pres s (rb_define_method s k name func argc) :=
  Pres_add_method s k name _ _

theorem Pres_attached (s : State) (k obj : VALUE) :
    Pres s (rb_singleton_class_attached s k obj) := by
  unfold rb_singleton_class_attached
  split
  · exact Pres_modify _ _ _ (fun o => ⟨rfl, rfl⟩)
  · exact Pres_refl s

theorem Created_trans {s s1 s2 : State} {super k : VALUE} (h : Created s super k s1)
    (h2 : Pres s1 s2) : Created s super k s2 := by
  obtain ⟨hP, hk, o, ho, hs, hc⟩ := h
  obtain ⟨o2, ho2, hs2, hc2⟩ := h2.2 k o ho
  exact ⟨Pres_trans hP h2, hk, o2, ho2, hs2.trans hs, hc2.trans hc⟩

theorem Pres_set_klass (s : State) (obj k : VALUE) : Pres s (RBASIC_set_klass s obj k) :=
  Pres_modify _ _ _ (fun _ => ⟨rfl, rfl⟩)

theorem Pres_setVersion (s : State) (k : VALUE) (v : Version) : Pres s (class_setVersion s k v) :=
  Pres_modify _ _ _ (fun _ => ⟨rfl, rfl⟩)

theorem Pres_SET_VERSION_FLAG (s : State) (k : VALUE) (f : VFlag) :
    Pres s (RCLASS_SET_VERSION_FLAG s k f) :=
  Pres_modify _ _ _ (fun _ => ⟨rfl, rfl⟩)

theorem Pres_FREEZE (s : State) (k : VALUE) : Pres s (OBJ_FREEZE s k) :=
  Pres_modify _ _ _ (fun _ => ⟨rfl, rfl⟩)

theorem Pres_finish (s : State) (obj super k : VALUE) :
    Pres s (rb_make_metaclass_finish s obj super k) := by
  unfold rb_make_metaclass_finish
  have h2 := Pres_set_klass s obj k
  have h3 : Pres (RBASIC_set_klass s obj k)
      (if super = (RBASIC_set_klass s obj k).rb_cNSObject then
        class_setVersion (RBASIC_set_klass s obj k) k
          ((RCLASS_VERSION (RBASIC_set_klass s obj k) k).xor RCLASS_IS_OBJECT_SUBCLASS)
      else RBASIC_set_klass s obj k) := by
    split
    · exact Pres_setVersion _ _ _
    · exact Pres_refl _
  exact Pres_trans h2 (Pres_trans h3
    (Pres_trans (Pres_SET_VERSION_FLAG _ _ _) (Pres_attached _ _ _)))

theorem Pres_create_class_tbl (s : State) (name : Option String) (k : VALUE) :
    Pres s (rb_objc_create_class_tbl s name k) := by
  apply Pres_of_heap_eq
  unfold rb_objc_create_class_tbl
  split <;> rfl

theorem cluster_pres (n : Nat) :
    (∀ s name super k s1, rb_objc_create_class n s name super = Except.ok (k, s1) →
      Created s super k s1) ∧
    (∀ s super k s1, rb_class_boot n s super = Except.ok (k, s1) → Created s super k s1) ∧
    (∀ s obj super k s1, rb_make_metaclass n s obj super = Except.ok (k, s1) → Pres s s1) ∧
    (∀ s obj k s1, rb_singleton_class n s obj = Except.ok (k, s1) → Pres s s1) ∧
    (∀ s obj name func argc s1,
      rb_define_singleton_method n s obj name func argc = Except.ok ((), s1) → Pres s s1) := by
  induction n with
  | zero =>
    refine ⟨?_, ?_, ?_, ?_, ?_⟩
    · intro s name super k s1 h; simp [rb_objc_create_class] at h
    · intro s super k s1 h; simp [rb_class_boot] at h
    · intro s obj super k s1 h; simp [rb_make_metaclass] at h
    · intro s obj k s1 h; simp [rb_singleton_class] at h
    · intro s obj name func argc s1 h; simp [rb_define_singleton_method] at h
  | succ n ih =>
    obtain ⟨ihc, ihb, ihm, ihs, ihd⟩ := ih
    refine ⟨?_, ?_, ?_, ?_, ?_⟩
    · intro s name super k s1 h
      rw [rb_objc_create_class] at h
      simp only [bind, Except.bind] at h
      cases ha : rb_objc_alloc_class n s name super T_CLASS s.rb_cClass with
      | error e => simp [ha] at h
      | ok r =>
        obtain ⟨k0, sa⟩ := r
        have hcr : Created s super k0 sa := alloc_class_ok n s sa name super k0 _ _ ha
        simp only [ha] at h
        have hreg := Pres_registerClassPair sa k0
        split at h
        · rename_i hblock
          simp at h
        · rename_i v hblock
          simp only [pure, Except.pure, Except.ok.injEq, Prod.mk.injEq] at h
          obtain ⟨h1, h2⟩ := h
          subst h1 h2
          refine Created_trans (Created_trans hcr ?_) (Pres_create_class_tbl _ _ _)
          split at hblock
          · cases hd : rb_define_singleton_method n
                (rb_define_alloc_func (objc_registerClassPair sa k0) k0
                  "rb_class_allocate_instance") k0 "new" "rb_class_new_instance" (-1) with
            | error e => simp [hd] at hblock
            | ok r2 =>
              obtain ⟨u, sd⟩ := r2
              simp only [hd, pure, Except.pure, Except.ok.injEq] at hblock
              rw [← hblock]
              have h3 : Pres (objc_registerClassPair sa k0)
                  (rb_define_alloc_func (objc_registerClassPair sa k0) k0
                    "rb_class_allocate_instance") := Pres_modify _ _ _ (fun o => ⟨rfl, rfl⟩)
              have h4 := ihd _ _ _ _ _ sd hd
              exact Pres_trans hreg (Pres_trans h3 (Pres_trans h4
                (Pres_trans (Pres_define_method _ _ _ _ _) (Pres_define_method _ _ _ _ _))))
          · simp only [pure, Except.pure, Except.ok.injEq] at hblock
            rw [← hblock]
            exact hreg
    · intro s super k s1 h
      rw [rb_class_boot] at h
      exact ihc s none super k s1 h
    · intro s obj super k s1 h
      rw [rb_make_metaclass] at h
      split at h
      · simp only [Except.ok.injEq, Prod.mk.injEq] at h
        rw [← h.2]
        exact Pres_set_klass _ _ _
      · simp only [bind, Except.bind] at h
        cases hb : rb_class_boot n s super with
        | error e => simp [hb] at h
        | ok r =>
          obtain ⟨k0, sb⟩ := r
          simp only [hb, pure, Except.pure, Except.ok.injEq, Prod.mk.injEq] at h
          rw [← h.2]
          have h1 := (ihb s super k0 sb hb).1
          exact Pres_trans h1 (Pres_finish sb obj super k0)
    · intro s obj k s1 h
      rw [rb_singleton_class] at h
      split at h
      · simp at h
      · split at h
        · split at h
          · simp only [Except.ok.injEq, Prod.mk.injEq] at h; rw [← h.2]; exact Pres_refl s
          · split at h
            · simp only [Except.ok.injEq, Prod.mk.injEq] at h; rw [← h.2]; exact Pres_refl s
            · split at h
              · simp only [Except.ok.injEq, Prod.mk.injEq] at h; rw [← h.2]; exact Pres_refl s
              · simp at h
        · simp only [bind, Except.bind] at h
          split at h
          · simp at h
          · rename_i v hv
            simp only [pure, Except.pure, Except.ok.injEq, Prod.mk.injEq] at h
            rw [← h.2]
            have hfreeze : Pres v.2 (if OBJ_FROZEN v.2 obj = true then OBJ_FREEZE v.2 v.1
                else v.2) := by
              split
              · exact Pres_FREEZE _ _
              · exact Pres_refl _
            refine Pres_trans ?_ hfreeze
            split at hv
            · simp only [pure, Except.pure, Except.ok.injEq] at hv
              rw [← hv]; exact Pres_refl s
            · split at hv
              · simp only [pure, Except.pure, Except.ok.injEq] at hv
                rw [← hv]; exact Pres_refl s
              · simp only [pure, Except.pure, Except.ok.injEq] at hv
                rw [← hv]; exact Pres_refl s
              · obtain ⟨k1, s2⟩ := v
                exact ihm _ _ _ _ _ hv
    · intro s obj name func argc s1 h
      rw [rb_define_singleton_method] at h
      simp only [bind, Except.bind] at h
      cases hs : rb_singleton_class n s obj with
      | error e => simp [hs] at h
      | ok r =>
        obtain ⟨k0, s2⟩ := r
        simp only [hs, pure, Except.pure, Except.ok.injEq, Prod.mk.injEq, true_and] at h
        rw [← h]
        exact Pres_trans (ihs _ _ _ _ hs) (Pres_define_method _ _ _ _ _)

theorem version_or_singleton (v : Version) : (v.or RCLASS_IS_SINGLETON).test RCLASS_IS_SINGLETON = true := by
  simp [Version.or, Version.test]

theorem rb_make_metaclass_finish_spec (sb : State) (obj super k : VALUE) (o oo : RObject)
    (hk : deref sb k = some o) (hobj : deref sb obj = some oo) (hne : obj ≠ k) :
    (∃ o1, deref (rb_make_metaclass_finish sb obj super k) k = some o1 ∧ o1.super = o.super ∧
      o1.version.test RCLASS_IS_SINGLETON = true ∧
      o1.ivars.lookup "__attached__" = some obj) ∧
    deref (rb_make_metaclass_finish sb obj super k) obj = some { oo with klass := k } := by
  have hne2 : k ≠ obj := fun h => hne h.symm
  unfold rb_make_metaclass_finish
  simp only [rb_singleton_class_attached, RCLASS_SINGLETON, RCLASS_SET_VERSION_FLAG,
    class_setVersion, RBASIC_set_klass, rb_ivar_set, RCLASS_VERSION]
  by_cases hns : super = (modify sb obj fun o => { o with klass := k }).rb_cNSObject
  · simp [hns, deref_modify, hk, hobj, hne, hne2, version_or_singleton, List.lookup]
  · simp [hns, deref_modify, hk, hobj, hne, hne2, version_or_singleton, List.lookup]

theorem deref_length_none (s : State) : deref s (VALUE.ref s.heap.length) = none := by
  simp [deref]

theorem rb_make_metaclass_creates (fuel : Nat) (s s1 : State) (obj super k : VALUE)
    (oo : RObject) (hobj : deref s obj = some oo)
    (hbr : ¬ (TYPE s obj = T_CLASS ∧ RCLASS_SINGLETON s obj = true))
    (h : rb_make_metaclass fuel s obj super = Except.ok (k, s1)) :
    k = VALUE.ref s.heap.length ∧ deref s k = none ∧
    RCLASS_SUPER s1 k = (if super = NULL then s.rb_cObject else super) ∧
    RCLASS_SINGLETON s1 k = true ∧ rb_iv_get s1 k "__attached__" = obj ∧
    RBASIC_klass s1 obj = k := by
  cases fuel with
  | zero => simp [rb_make_metaclass] at h
  | succ fuel =>
    rw [rb_make_metaclass, if_neg hbr] at h
    simp only [bind, Except.bind] at h
    cases hb : rb_class_boot fuel s super with
    | error e => simp [hb] at h
    | ok r =>
      obtain ⟨k0, sb⟩ := r
      simp only [hb, pure, Except.pure, Except.ok.injEq, Prod.mk.injEq] at h
      obtain ⟨h1, h2⟩ := h
      subst h1 h2
      obtain ⟨hP, hk, o, ho, hs, hc⟩ := (cluster_pres fuel).2.1 s super k0 sb hb
      have hnone : deref s k0 = none := by rw [hk]; exact deref_length_none s
      have hne : obj ≠ k0 := by
        intro he; rw [he, hnone] at hobj; exact Option.noConfusion hobj
      obtain ⟨oo1, hoo1, _, _⟩ := hP.2 obj oo hobj
      obtain ⟨⟨o1, ho1, hs1, hv1, hi1⟩, hobj1⟩ :=
        rb_make_metaclass_finish_spec sb obj super k0 o oo1 ho hoo1 hne
      refine ⟨hk, hnone, ?_, ?_, ?_, ?_⟩
      · simp [RCLASS_SUPER, ho1, hs1, hs]
      · simp [RCLASS_SINGLETON, RCLASS_VERSION, ho1, hv1]
      · simp [rb_iv_get, rb_ivar_get, ho1, hi1]
      · simp [RBASIC_klass, hobj1]

theorem modify_modify (s : State) (v : VALUE) (f g : RObject → RObject) :
    modify (modify s v f) v g = modify s v (fun o => g (f o)) := by
  cases v with
  | ref a =>
    simp only [modify]
    cases h : s.heap[a]? with
    | none => simp [h]
    | some o =>
      have hlt : a < s.heap.length := (List.getElem?_eq_some_iff.1 h).1
      simp [hlt, List.set_set]
  | _ => rfl

theorem deref_freeze_step (t : State) (obj k x : VALUE) :
    deref (freeze_step t obj k) x =
      (deref t x).map (fun o =>
        { o with frozen := o.frozen || (decide (x = k) && OBJ_FROZEN t obj) }) := by
  unfold freeze_step
  by_cases hf : OBJ_FROZEN t obj = true
  · rw [if_pos hf, OBJ_FREEZE, deref_modify]
    by_cases hx : x = k
    · subst hx; cases deref t x <;> simp [hf]
    · cases deref t x <;> simp [hf, hx]
  · rw [if_neg hf]
    have : OBJ_FROZEN t obj = false := by
      cases h : OBJ_FROZEN t obj with
      | true => exact absurd h hf
      | false => rfl
    cases deref t x <;> simp [this]

theorem freeze_step_frozen (t : State) (obj k : VALUE) :
    OBJ_FROZEN (freeze_step t obj k) obj = OBJ_FROZEN t obj := by
  have h := deref_freeze_step t obj k obj
  unfold OBJ_FROZEN at h ⊢
  rw [h]
  cases hd : deref t obj with
  | none => simp
  | some o =>
    simp only [Option.map_some']
    cases hf : o.frozen <;> simp [hd, hf]

theorem freeze_step_idem (t : State) (obj k : VALUE) :
    freeze_step (freeze_step t obj k) obj k = freeze_step t obj k := by
  have hfr := freeze_step_frozen t obj k
  by_cases hf : OBJ_FROZEN t obj = true
  · have h1 : freeze_step t obj k = OBJ_FREEZE t k := by unfold freeze_step; rw [if_pos hf]
    have h2 : freeze_step (freeze_step t obj k) obj k = OBJ_FREEZE (freeze_step t obj k) k := by
      unfold freeze_step at hfr ⊢
      rw [if_pos (hfr.trans hf)]
    rw [h2, h1, OBJ_FREEZE, OBJ_FREEZE, modify_modify]
  · have h1 : freeze_step t obj k = t := by unfold freeze_step; rw [if_neg hf]
    rw [h1, h1]

theorem freeze_step_obs (t : State) (obj k x : VALUE) (id : String) :
    RBASIC_klass (freeze_step t obj k) x = RBASIC_klass t x ∧
    RCLASS_SINGLETON (freeze_step t obj k) x = RCLASS_SINGLETON t x ∧
    rb_iv_get (freeze_step t obj k) x id = rb_iv_get t x id ∧
    TYPE (freeze_step t obj k) x = TYPE t x := by
  have h := deref_freeze_step t obj k x
  refine ⟨?_, ?_, ?_, ?_⟩
  · unfold RBASIC_klass; rw [h]; cases deref t x <;> rfl
  · unfold RCLASS_SINGLETON RCLASS_VERSION; rw [h]; cases deref t x <;> rfl
  · unfold rb_iv_get rb_ivar_get; rw [h]; cases deref t x <;> rfl
  · rw [TYPE_deref, TYPE_deref t, h]
    cases x <;> try rfl
    rename_i a
    cases deref t (VALUE.ref a) <;> rfl

theorem rb_singleton_class_eq (fuel : Nat) (s : State) (a : Nat) :
    rb_singleton_class (fuel + 1) s (VALUE.ref a) =
      if RCLASS_SINGLETON s (RBASIC_klass s (VALUE.ref a)) = true ∧
          rb_iv_get s (RBASIC_klass s (VALUE.ref a)) "__attached__" = VALUE.ref a then
        Except.ok (RBASIC_klass s (VALUE.ref a),
          freeze_step s (VALUE.ref a) (RBASIC_klass s (VALUE.ref a)))
      else if TYPE s (VALUE.ref a) = T_CLASS ∨ TYPE s (VALUE.ref a) = T_MODULE then
        Except.ok (RBASIC_klass s (VALUE.ref a),
          freeze_step s (VALUE.ref a) (RBASIC_klass s (VALUE.ref a)))
      else
        match rb_make_metaclass fuel s (VALUE.ref a) (RBASIC_klass s (VALUE.ref a)) with
        | Except.error e => Except.error e
        | Except.ok (k, s2) => Except.ok (k, freeze_step s2 (VALUE.ref a) k) := by
  rw [rb_singleton_class]
  simp only [FIXNUM_P, SYMBOL_P, rb_special_const_p, Bool.false_eq_true, or_self, if_false,
    bind, Except.bind, pure, Except.pure, freeze_step]
  by_cases hc : RCLASS_SINGLETON s (RBASIC_klass s (VALUE.ref a)) = true ∧
      rb_iv_get s (RBASIC_klass s (VALUE.ref a)) "__attached__" = VALUE.ref a
  · rw [if_pos hc, if_pos hc]
  · rw [if_neg hc, if_neg hc]
    cases hT : TYPE s (VALUE.ref a) <;> simp
    all_goals
      cases rb_make_metaclass fuel s (VALUE.ref a) (RBASIC_klass s (VALUE.ref a)) <;> rfl

theorem class_chain_Pres (s s1 : State) (hP : Pres s s1) :
    ∀ (n : Nat) (c : VALUE), (∀ x ∈ class_chain s n c, (deref s x).isSome = true) →
      class_chain s1 n c = class_chain s n c := by
  intro n
  induction n with
  | zero => intro c _; rfl
  | succ n ih =>
    intro c h
    unfold class_chain
    by_cases hc : c = NULL
    · simp [hc]
    · rw [if_neg hc, if_neg hc]
      have hv : (deref s c).isSome = true := h c (by simp [class_chain, hc])
      obtain ⟨o, ho⟩ := Option.isSome_iff_exists.1 hv
      obtain ⟨o1, ho1, hs1, _⟩ := hP.2 c o ho
      have hsup : class_getSuperclass s1 c = class_getSuperclass s c := by
        simp [class_getSuperclass, RCLASS_SUPER, ho, ho1, hs1]
      rw [hsup, ih]
      intro x hx
      apply h
      simp only [class_chain, if_neg hc, List.mem_cons]
      exact Or.inr hx

theorem install_total (fuel n : Nat) (s : State) (k sup : VALUE)
    (hchain : (class_chain s n sup).length < n) (hfuel : n ≤ fuel) :
    ∃ b s1, rb_objc_install_primitives fuel s k sup = Except.ok (b, s1) := by
  unfold rb_objc_install_primitives
  split
  · rename_i hroots
    rw [rb_objc_install_primitives_loop_spec s k hroots.1 hroots.2.1 hroots.2.2 n fuel sup
      hchain hfuel]
    cases (class_chain s n sup).findSome? (container_root s) with
    | none => exact ⟨false, s, rfl⟩
    | some c => exact ⟨true, _, rfl⟩
  · exact ⟨false, s, rfl⟩

theorem allocateClassPair_free (s : State) (sup : VALUE) (nm : String)
    (h : objc_getClass s nm = NULL) :
    ∃ crec mrec, objc_allocateClassPair s sup nm =
      (VALUE.ref s.heap.length, { s with heap := s.heap ++ [crec, mrec] }) := by
  unfold objc_allocateClassPair
  rw [h, if_neg (fun hne => hne rfl)]
  exact ⟨_, _, rfl⟩

theorem alloc_class_total (fuel n : Nat) (s : State) (super klass : VALUE)
    (flags : ruby_value_type) (hc : can_create s super n) (hfuel : n ≤ fuel) :
    ∃ k s1, rb_objc_alloc_class fuel s none super flags klass = Except.ok (k, s1) := by
  obtain ⟨hname, hlen, hvalid⟩ := hc
  unfold rb_objc_alloc_class
  simp only [rb_objc_alloc_class_name, bind, Except.bind]
  obtain ⟨crec, mrec, hpair⟩ := allocateClassPair_free { s with anon_count := s.anon_count + 1 }
    (if super = NULL then s.rb_cObject else super)
    (snprintf_ocname ("RBAnonymous" ++ toString (s.anon_count + 1))) hname
  cases hp : objc_allocateClassPair { s with anon_count := s.anon_count + 1 }
    (if super = NULL then s.rb_cObject else super)
    (snprintf_ocname ("RBAnonymous" ++ toString (s.anon_count + 1))) with
  | mk k0 sb =>
    have hk0 : k0 = VALUE.ref s.heap.length := by
      have := hp.symm.trans hpair
      simp only [Prod.mk.injEq] at this
      exact this.1
    have hne : k0 ≠ NULL := by rw [hk0]; simp
    obtain ⟨_, _, c2, m2, hsb, _⟩ := allocateClassPair_ok _ sb _ k0 _ hp hne
    have hPb : Pres s sb := by
      rw [hsb]
      exact Pres_trans (Pres_of_heap_eq s { s with anon_count := s.anon_count + 1 } rfl)
        (Pres_append _ _)
    simp only []
    rw [if_neg hne]
    split
    · generalize rb_objc_alloc_class_version _ _ flags = ver
      have hP : Pres s (class_setVersion sb k0 ver) := Pres_trans hPb (Pres_setVersion _ _ _)
      have hch := class_chain_Pres s _ hP n _ hvalid
      obtain ⟨b, sd, hsd⟩ := install_total fuel n (class_setVersion sb k0 ver) k0
        (if super = NULL then s.rb_cObject else super) (by rw [hch]; exact hlen) hfuel
      rw [hsd]
      exact ⟨_, _, rfl⟩
    · exact ⟨_, _, rfl⟩

theorem rb_singleton_class_of_class (g : Nat) (s : State) (k : VALUE) (o : RObject)
    (hk : deref s k = some o) (hc : o.is_class = true) :
    ∃ s1, rb_singleton_class (g + 1) s k = Except.ok (RBASIC_klass s k, s1) := by
  obtain ⟨a, rfl, _⟩ := deref_ref_lt s k o hk
  rw [rb_singleton_class_eq]
  split
  · exact ⟨_, rfl⟩
  · have hT : TYPE s (VALUE.ref a) = T_CLASS ∨ TYPE s (VALUE.ref a) = T_MODULE := by
      rw [TYPE_deref]
      simp only [hk, hc, if_true]
      split
      · exact Or.inr rfl
      · exact Or.inl rfl
    rw [if_pos hT]
    exact ⟨_, rfl⟩

theorem rb_objc_create_class_total (F n : Nat) (s : State) (super : VALUE)
    (hc : can_create s super n) (hF : n ≤ F) (hF2 : 2 ≤ F) :
    ∃ k s1, rb_objc_create_class (F + 1) s none super = Except.ok (k, s1) := by
  obtain ⟨k, sa, ha⟩ := alloc_class_total F n s super s.rb_cClass T_CLASS hc hF
  obtain ⟨hP, hk, o, ho, hs, hcl⟩ := alloc_class_ok F s sa none super k _ _ ha
  rw [rb_objc_create_class]
  simp only [bind, Except.bind, ha]
  split
  · rename_i e hblock
    exfalso
    split at hblock
    · obtain ⟨F1, rfl⟩ : ∃ m, F = m + 2 := ⟨F - 2, by omega⟩
      rw [rb_define_singleton_method] at hblock
      simp only [bind, Except.bind] at hblock
      have hP2 : Pres sa (rb_define_alloc_func (objc_registerClassPair sa k) k
          "rb_class_allocate_instance") :=
        Pres_trans (Pres_registerClassPair sa k) (Pres_modify _ _ _ (fun _ => ⟨rfl, rfl⟩))
      obtain ⟨o2, ho2, _, hc2⟩ := hP2.2 k o ho
      obtain ⟨s3, hs3⟩ := rb_singleton_class_of_class F1 _ k o2 ho2 (hc2.trans hcl)
      rw [hs3] at hblock
      simp [pure, Except.pure] at hblock
    · simp [pure, Except.pure] at hblock
  · exact ⟨_, _, rfl⟩

theorem rb_make_metaclass_total (F n : Nat) (s : State) (obj super : VALUE)
    (hc : can_create s super n) (hF : n ≤ F) (hF2 : 2 ≤ F) :
    ∃ k s1, rb_make_metaclass (F + 3) s obj super = Except.ok (k, s1) := by
  rw [rb_make_metaclass]
  split
  · exact ⟨_, _, rfl⟩
  · obtain ⟨k, s1, h⟩ := rb_objc_create_class_total F n s super hc hF hF2
    simp only [bind, Except.bind, rb_class_boot, h]
    exact ⟨_, _, rfl⟩

/-- Claim C7. `rb_make_metaclass(obj, super)` on a class that is itself a
singleton class creates nothing, makes `rb_cClass` the class of `obj` and
returns it.  Otherwise (for an object `obj` of the heap, a superclass `super`
whose chain is finite, the next anonymous host name being free, and enough
fuel) it returns a class that did not exist before, whose superclass is
`super`, which is tagged is-singleton, whose `__attached__` is `obj`, and
which is the class of `obj` afterwards. -/
theorem rb_make_metaclass_spec :
    (∀ (fuel : Nat) (s : State) (obj super : VALUE),
      TYPE s obj = T_CLASS → RCLASS_SINGLETON s obj = true →
      rb_make_metaclass (fuel + 1) s obj super =
          Except.ok (s.rb_cClass, RBASIC_set_klass s obj s.rb_cClass) ∧
      (RBASIC_set_klass s obj s.rb_cClass).heap.length = s.heap.length ∧
      RBASIC_klass (RBASIC_set_klass s obj s.rb_cClass) obj = s.rb_cClass) ∧
    (∀ (F n : Nat) (s : State) (obj super : VALUE),
      ¬ (TYPE s obj = T_CLASS ∧ RCLASS_SINGLETON s obj = true) →
      (deref s obj).isSome = true → super ≠ NULL → can_create s super n → n ≤ F → 2 ≤ F →
      ∃ k s1, rb_make_metaclass (F + 3) s obj super = Except.ok (k, s1) ∧
        k = VALUE.ref s.heap.length ∧ deref s k = none ∧
        RCLASS_SUPER s1 k = super ∧ RCLASS_SINGLETON s1 k = true ∧
        rb_iv_get s1 k "__attached__" = obj ∧ RBASIC_klass s1 obj = k) := by
  refine ⟨?_, ?_⟩
  · intro fuel s obj super hT hS
    refine ⟨?_, ?_, ?_⟩
    · rw [rb_make_metaclass, if_pos ⟨hT, hS⟩]
      have hg : (RBASIC_set_klass s obj s.rb_cClass).rb_cClass = s.rb_cClass := by
        unfold RBASIC_set_klass; rw [modify_eq]
      simp only [hg]
    · exact modify_heap_length _ _ _
    · have hd : ∃ o, deref s obj = some o := by
        rw [TYPE_deref] at hT
        cases obj with
        | ref a =>
          simp only at hT
          cases hd : deref s (VALUE.ref a) with
          | none => simp [hd] at hT
          | some o => exact ⟨o, rfl⟩
        | _ => simp at hT
      obtain ⟨o, ho⟩ := hd
      simp [RBASIC_klass, RBASIC_set_klass, deref_modify, ho]
  · intro F n s obj super hbr hobj hsup hc hF hF2
    obtain ⟨k, s1, h⟩ := rb_make_metaclass_total F n s obj super hc hF hF2
    obtain ⟨oo, hoo⟩ := Option.isSome_iff_exists.1 hobj
    obtain ⟨h1, h2, h3, h4, h5, h6⟩ := rb_make_metaclass_creates _ s s1 obj super k oo hoo hbr h
    rw [if_neg hsup] at h3
    exact ⟨k, s1, h, h1, h2, h3, h4, h5, h6⟩

/-- Witness for claim C7: the metaclass made for the object of `ex_object`
below its class `C` is tagged is-singleton. -/
theorem rb_make_metaclass_spec_witness :
    RCLASS_SINGLETON (state_of (rb_make_metaclass 7 ex_object (VALUE.ref 10) (VALUE.ref 8))
      ex_object) (VALUE.ref 11) = true := by
  obtain ⟨k, s1, h, hk, _, _, hs, _⟩ := rb_make_metaclass_spec.2 4 4 ex_object (VALUE.ref 10)
    (VALUE.ref 8) (by decide) (by decide) (by decide) (by unfold can_create; decide)
    (by decide) (by decide)
  rw [h]
  have hk2 : k = VALUE.ref 11 := hk
  rw [← hk2]
  exact hs

/-- Claim C4. For an object of the heap, a second call of `rb_singleton_class`
right after a successful first one returns the same class and leaves the
state as the first call left it (no class is created, the object's class is
unchanged); and the first call succeeds whenever an anonymous class can be
created below the object's class and the fuel suffices. -/
theorem rb_singleton_class_idempotent :
    (∀ (fuel fuel2 : Nat) (s s1 : State) (a : Nat) (k : VALUE),
      (deref s (VALUE.ref a)).isSome = true →
      rb_singleton_class fuel s (VALUE.ref a) = Except.ok (k, s1) → 1 ≤ fuel2 →
      rb_singleton_class fuel2 s1 (VALUE.ref a) = Except.ok (k, s1)) ∧
    (∀ (F n : Nat) (s : State) (a : Nat),
      can_create s (RBASIC_klass s (VALUE.ref a)) n → n ≤ F → 2 ≤ F →
      ∃ k s1, rb_singleton_class (F + 4) s (VALUE.ref a) = Except.ok (k, s1)) := by
  refine ⟨?_, ?_⟩
  · intro fuel fuel2 s s1 a k hobj h hf2
    obtain ⟨oo, hoo⟩ := Option.isSome_iff_exists.1 hobj
    obtain ⟨f, rfl⟩ : ∃ f, fuel = f + 1 := by
      cases fuel with
      | zero => simp [rb_singleton_class] at h
      | succ f => exact ⟨f, rfl⟩
    obtain ⟨g, rfl⟩ : ∃ g, fuel2 = g + 1 := ⟨fuel2 - 1, by omega⟩
    rw [rb_singleton_class_eq] at h
    rw [rb_singleton_class_eq]
    split at h
    · rename_i hc
      simp only [Except.ok.injEq, Prod.mk.injEq] at h
      obtain ⟨hk, hs1⟩ := h
      subst hk hs1
      obtain ⟨o1, _, _, _⟩ := freeze_step_obs s (VALUE.ref a) (RBASIC_klass s (VALUE.ref a))
        (VALUE.ref a) "__attached__"
      obtain ⟨_, o2, o3, _⟩ := freeze_step_obs s (VALUE.ref a) (RBASIC_klass s (VALUE.ref a))
        (RBASIC_klass s (VALUE.ref a)) "__attached__"
      rw [o1, o2, o3, if_pos hc, freeze_step_idem]
    · rename_i hc
      split at h
      · rename_i hT
        simp only [Except.ok.injEq, Prod.mk.injEq] at h
        obtain ⟨hk, hs1⟩ := h
        subst hk hs1
        obtain ⟨o1, _, _, o4⟩ := freeze_step_obs s (VALUE.ref a) (RBASIC_klass s (VALUE.ref a))
          (VALUE.ref a) "__attached__"
        obtain ⟨_, o2, o3, _⟩ := freeze_step_obs s (VALUE.ref a) (RBASIC_klass s (VALUE.ref a))
          (RBASIC_klass s (VALUE.ref a)) "__attached__"
        rw [o1, o2, o3, o4, if_neg hc, if_pos hT, freeze_step_idem]
      · rename_i hT
        cases hm : rb_make_metaclass f s (VALUE.ref a) (RBASIC_klass s (VALUE.ref a)) with
        | error e => simp [hm] at h
        | ok r =>
          obtain ⟨k0, s2⟩ := r
          simp only [hm, Except.ok.injEq, Prod.mk.injEq] at h
          obtain ⟨hk, hs1⟩ := h
          subst hk hs1
          have hbr : ¬ (TYPE s (VALUE.ref a) = T_CLASS ∧
              RCLASS_SINGLETON s (VALUE.ref a) = true) := fun hh => hT (Or.inl hh.1)
          obtain ⟨_, _, _, h4, h5, h6⟩ :=
            rb_make_metaclass_creates f s s2 (VALUE.ref a) _ k0 oo hoo hbr hm
          obtain ⟨o1, _, _, _⟩ := freeze_step_obs s2 (VALUE.ref a) k0 (VALUE.ref a) "__attached__"
          obtain ⟨_, o2, o3, _⟩ := freeze_step_obs s2 (VALUE.ref a) k0 k0 "__attached__"
          rw [o1, h6, o2, o3, if_pos ⟨h4, h5⟩, freeze_step_idem]
  · intro F n s a hc hF hF2
    rw [rb_singleton_class_eq]
    split
    · exact ⟨_, _, rfl⟩
    · split
      · exact ⟨_, _, rfl⟩
      · obtain ⟨k, s1, h⟩ := rb_make_metaclass_total F n s (VALUE.ref a) _ hc hF hF2
        rw [h]
        exact ⟨_, _, rfl⟩

/-- Witness for claim C4: the second call on the object of `ex_object`. -/
theorem rb_singleton_class_idempotent_witness :
    rb_singleton_class 1 ex_object_singleton (VALUE.ref 10) =
      Except.ok (VALUE.ref 11, ex_object_singleton) :=
  rb_singleton_class_idempotent.1 8 1 ex_object ex_object_singleton 10 (VALUE.ref 11)
    (by decide) (by decide) (by decide)

/-! ### Failure paths that leave the state alone (C15, C16, C20) -/

theorem install_loop_error_timeout :
    ∀ (fuel : Nat) (s : State) (k sup : VALUE) (e : Exn) (s1 : State),
      rb_objc_install_primitives_loop fuel s k sup = Except.error (e, s1) → e = Exn.timeout := by
  intro fuel
  induction fuel with
  | zero =>
    intro s k sup e s1 h
    simp [rb_objc_install_primitives_loop] at h
    exact h.1.symm
  | succ fuel ih =>
    intro s k sup e s1 h
    unfold rb_objc_install_primitives_loop at h
    split at h
    · simp at h
    · split at h
      · simp at h
      · split at h
        · simp at h
        · simp only at h
          split at h
          · exact ih _ _ _ _ _ h
          · simp at h

theorem install_error_timeout (fuel : Nat) (s : State) (k sup : VALUE) (e : Exn) (s1 : State)
    (h : rb_objc_install_primitives fuel s k sup = Except.error (e, s1)) : e = Exn.timeout := by
  unfold rb_objc_install_primitives at h
  split at h
  · exact install_loop_error_timeout _ _ _ _ _ _ h
  · simp at h

/-- Claim C20: on the constants nil, false and true `rb_singleton_class` answers the
fixed classes `NilClass`, `FalseClass` and `TrueClass` of the state and leaves
the state as it was (no class is created, no class word changes); on a fixnum
or a symbol it raises a type error and leaves the state as it was. -/
theorem rb_singleton_class_special_constants (fuel : Nat) (s : State) :
    rb_singleton_class (fuel + 1) s VALUE.Qnil = Except.ok (s.rb_cNilClass, s) ∧
    rb_singleton_class (fuel + 1) s VALUE.Qfalse = Except.ok (s.rb_cFalseClass, s) ∧
    rb_singleton_class (fuel + 1) s VALUE.Qtrue = Except.ok (s.rb_cTrueClass, s) ∧
    (∀ n, rb_singleton_class (fuel + 1) s (VALUE.fixnum n) = Except.error (Exn.TypeError, s)) ∧
    (∀ n, rb_singleton_class (fuel + 1) s (VALUE.symbol n) = Except.error (Exn.TypeError, s)) := by
  refine ⟨?_, ?_, ?_, ?_, ?_⟩
  · simp [rb_singleton_class, FIXNUM_P, SYMBOL_P, rb_special_const_p]
  · simp [rb_singleton_class, FIXNUM_P, SYMBOL_P, rb_special_const_p]
  · simp [rb_singleton_class, FIXNUM_P, SYMBOL_P, rb_special_const_p]
  · intro n; simp [rb_singleton_class, FIXNUM_P]
  · intro n; simp [rb_singleton_class, FIXNUM_P, SYMBOL_P]

/-- Claim C15: `rb_class_init_copy` raises a type error and leaves the state as it
was (so the clone keeps its superclass, flags and method table) whenever the
original is a singleton class.  When the original is not a singleton class
that error is not raised: the only type error the call can then end in is the
one `rb_obj_init_copy` raises for a clone of another type, and when the clone
is the original or of the same type no type error is raised at all. -/
theorem rb_class_init_copy_rejects_singleton (fuel : Nat) (s : State) (clone orig : VALUE) :
    (RCLASS_SINGLETON s orig = true →
      rb_class_init_copy fuel s clone orig = Except.error (Exn.TypeError, s)) ∧
    (RCLASS_SINGLETON s orig = false →
      ∀ s1, rb_class_init_copy fuel s clone orig = Except.error (Exn.TypeError, s1) →
        rb_obj_init_copy s clone orig = Except.error (Exn.TypeError, s1)) ∧
    (RCLASS_SINGLETON s orig = false → (clone = orig ∨ TYPE s clone = TYPE s orig) →
      ∀ s1, rb_class_init_copy fuel s clone orig ≠ Except.error (Exn.TypeError, s1)) := by
  have hB : RCLASS_SINGLETON s orig = false →
      ∀ s1, rb_class_init_copy fuel s clone orig = Except.error (Exn.TypeError, s1) →
        rb_obj_init_copy s clone orig = Except.error (Exn.TypeError, s1) := by
    intro h s1 he
    unfold rb_class_init_copy at he
    rw [h] at he
    simp only [Bool.false_eq_true, if_false, bind, Except.bind] at he
    cases hm : rb_mod_init_copy s clone orig with
    | error e =>
      obtain ⟨e1, sx⟩ := e
      simp only [hm] at he
      unfold rb_mod_init_copy at hm
      simp only [bind, Except.bind] at hm
      cases ho : rb_obj_init_copy s clone orig with
      | error e2 =>
        simp only [ho] at hm
        rw [hm, he]
      | ok r => simp only [ho] at hm; exact Except.noConfusion hm
    | ok r =>
      obtain ⟨c, s2⟩ := r
      simp only [hm] at he
      cases hi : rb_objc_install_primitives fuel s2 c orig with
      | error e =>
        obtain ⟨e1, sx⟩ := e
        have := install_error_timeout _ _ _ _ _ _ hi
        simp [hi] at he
        rw [this] at he
        exact absurd he.1 (by decide)
      | ok r2 => simp only [hi] at he; exact Except.noConfusion he
  refine ⟨?_, hB, ?_⟩
  · intro h
    simp [rb_class_init_copy, h]
  · intro h ht s1 he
    have hx := hB h s1 he
    unfold rb_obj_init_copy at hx
    rcases ht with ht | ht
    · simp [ht] at hx
    · split at hx
      · simp at hx
      · split at hx
        · simp at hx
        · simp [ht] at hx

theorem rb_class_init_copy_rejects_singleton_witness :
    rb_class_init_copy 5 ex_object_singleton (VALUE.ref 8) (VALUE.ref 11) =
        Except.error (Exn.TypeError, ex_object_singleton) ∧
      ∀ s1, rb_class_init_copy 5 ex_object_singleton (VALUE.ref 6) (VALUE.ref 8) ≠
        Except.error (Exn.TypeError, s1) :=
  ⟨(rb_class_init_copy_rejects_singleton 5 ex_object_singleton (VALUE.ref 8) (VALUE.ref 11)).1
      (by decide),
    (rb_class_init_copy_rejects_singleton 5 ex_object_singleton (VALUE.ref 6) (VALUE.ref 8)).2.2
      (by decide) (Or.inr (by decide))⟩

theorem TYPE_of_class_not_module (s : State) (m : VALUE) (o : RObject)
    (hd : deref s m = some o) (hc : o.is_class = true) (hm : RCLASS_MODULE s m = false) :
    TYPE s m = T_CLASS := by
  cases m with
  | ref a =>
    simp only [deref] at hd
    simp only [RCLASS_MODULE, RCLASS_VERSION, deref, hd] at hm
    simp [TYPE, hd, hc, hm]
  | _ => simp [deref] at hd

/-- Claim C16: `rb_include_module` fails when the class is frozen or when the module
argument is not a module (a class record that is not tagged is-module is not
one); the state such a failure leaves is the state before the call, so the
list of included modules of the class, the included-in list of the module and
the method table of the class are unchanged. -/
theorem rb_include_module_failure_keeps_state (fuel : Nat) (s : State) (klass module : VALUE)
    (h : OBJ_FROZEN s klass = true ∨ TYPE s module ≠ T_MODULE ∨
      (∃ o, deref s module = some o ∧ o.is_class = true) ∧ RCLASS_MODULE s module = false) :
    ∃ e, rb_include_module fuel s klass module = Except.error (e, s) := by
  have hty : OBJ_FROZEN s klass = true ∨ TYPE s module ≠ T_MODULE := by
    rcases h with h | h | ⟨⟨o, hd, hc⟩, hm⟩
    · exact Or.inl h
    · exact Or.inr h
    · right
      rw [TYPE_of_class_not_module s module o hd hc hm]
      decide
  rw [rb_include_module_eq]
  rcases hty with h | h
  · exact ⟨_, by rw [if_pos h]⟩
  · by_cases hf : OBJ_FROZEN s klass = true
    · exact ⟨_, by rw [if_pos hf]⟩
    · rw [if_neg hf]
      by_cases hs : OBJ_TAINTED s klass = false ∧ 4 ≤ s.safe_level
      · exact ⟨_, by rw [if_pos hs]⟩
      · rw [if_neg hs, if_pos h]
        exact ⟨_, rfl⟩

theorem rb_include_module_failure_keeps_state_witness :
    (RCLASS_MODULE ex_modules (VALUE.ref 6) = false) ∧
      ∃ e, rb_include_module 5 ex_modules (VALUE.ref 6) (VALUE.ref 6) =
        Except.error (e, ex_modules) :=
  ⟨by decide, rb_include_module_failure_keeps_state 5 ex_modules (VALUE.ref 6) (VALUE.ref 6)
    (Or.inr (Or.inr ⟨⟨_, rfl, rfl⟩, by decide⟩))⟩

/-! ### Exact effect of class allocation -/

theorem same_globals_refl (s : State) : same_globals s s := rfl

theorem same_globals_trans {s s1 s2 : State} (h1 : same_globals s s1) (h2 : same_globals s1 s2) :
    same_globals s s2 := by
  unfold same_globals at *
  rw [h2, h1]

theorem same_globals_fields {s s1 : State} (h : same_globals s s1) :
    s1.rb_cObject = s.rb_cObject ∧ s1.rb_cClass = s.rb_cClass ∧
    s1.rb_cNSObject = s.rb_cNSObject ∧ s1.objc_classes = s.objc_classes ∧
    s1.warnings = s.warnings ∧ s1.constants = s.constants ∧ s1.funcalls = s.funcalls ∧
    s1.rb_class_tbl = s.rb_class_tbl ∧ s1.anon_count = s.anon_count := by
  unfold same_globals at h
  have h1 := congrArg State.rb_cObject h
  have h2 := congrArg State.rb_cClass h
  have h3 := congrArg State.rb_cNSObject h
  have h4 := congrArg State.objc_classes h
  have h5 := congrArg State.warnings h
  have h6 := congrArg State.constants h
  have h7 := congrArg State.funcalls h
  have h8 := congrArg State.rb_class_tbl h
  have h9 := congrArg State.anon_count h
  exact ⟨h1, h2, h3, h4, h5, h6, h7, h8, h9⟩

theorem same_globals_modify (s : State) (v : VALUE) (f : RObject → RObject) :
    same_globals s (modify s v f) := by
  unfold same_globals
  rw [modify_eq]

theorem modify_new_fst (s : State) (h : List RObject) (c m : RObject) (f : RObject → RObject)
    (hs : s.heap = h ++ [c, m]) :
    (modify s (VALUE.ref h.length) f).heap = h ++ [f c, m] := by
  have hg : s.heap[h.length]? = some c := by
    rw [hs, List.getElem?_append_right (le_refl _)]; simp
  simp only [modify, hg]
  rw [hs, List.set_append_right _ _ (le_refl _)]
  simp

theorem modify_new_snd (s : State) (h : List RObject) (c m : RObject) (f : RObject → RObject)
    (hs : s.heap = h ++ [c, m]) :
    (modify s (VALUE.ref (h.length + 1)) f).heap = h ++ [c, f m] := by
  have hg : s.heap[h.length + 1]? = some m := by
    rw [hs, List.getElem?_append_right (by omega)]; simp
  simp only [modify, hg]
  rw [hs, List.set_append_right _ _ (by omega)]
  simp

theorem deref_new_fst (s : State) (h : List RObject) (c m : RObject)
    (hs : s.heap = h ++ [c, m]) : deref s (VALUE.ref h.length) = some c := by
  simp only [deref, hs]
  rw [List.getElem?_append_right (le_refl _)]; simp

theorem deref_new_snd (s : State) (h : List RObject) (c m : RObject)
    (hs : s.heap = h ++ [c, m]) : deref s (VALUE.ref (h.length + 1)) = some m := by
  simp only [deref, hs]
  rw [List.getElem?_append_right (by omega)]; simp

theorem deref_old (s s1 : State) (l : List RObject) (hs : s1.heap = s.heap ++ l) (v : VALUE)
    (o : RObject) (hv : deref s v = some o) : deref s1 v = some o := by
  cases v with
  | ref a =>
    simp only [deref] at hv ⊢
    have hlt : a < s.heap.length := (List.getElem?_eq_some_iff.1 hv).1
    rw [hs, List.getElem?_append_left hlt]
    exact hv
  | _ => simp [deref] at hv

theorem install_loop_exact (k : VALUE) :
    ∀ (fuel : Nat) (s s1 : State) (sup : VALUE) (b : Bool),
      rb_objc_install_primitives_loop fuel s k sup = Except.ok (b, s1) →
      s1 = s ∨ ∃ c : Container, s1 = RCLASS_SET_VERSION_FLAG (c.install s k) k c.flag := by
  intro fuel
  induction fuel with
  | zero => intro s s1 sup b h; simp [rb_objc_install_primitives_loop] at h
  | succ fuel ih =>
    intro s s1 sup b h
    unfold rb_objc_install_primitives_loop at h
    split at h
    · simp only [Except.ok.injEq, Prod.mk.injEq] at h
      exact Or.inr ⟨Container.array, h.2.symm⟩
    · split at h
      · simp only [Except.ok.injEq, Prod.mk.injEq] at h
        exact Or.inr ⟨Container.hash, h.2.symm⟩
      · split at h
        · simp only [Except.ok.injEq, Prod.mk.injEq] at h
          exact Or.inr ⟨Container.string, h.2.symm⟩
        · simp only at h
          split at h
          · exact ih _ _ _ _ h
          · simp only [Except.ok.injEq, Prod.mk.injEq] at h
            exact Or.inl h.2.symm

theorem install_exact (fuel : Nat) (s s1 : State) (k sup : VALUE) (b : Bool)
    (h : rb_objc_install_primitives fuel s k sup = Except.ok (b, s1)) :
    s1 = s ∨ ∃ c : Container, s1 = RCLASS_SET_VERSION_FLAG (c.install s k) k c.flag := by
  unfold rb_objc_install_primitives at h
  split at h
  · exact install_loop_exact k _ _ _ _ _ h
  · simp only [Except.ok.injEq, Prod.mk.injEq] at h
    exact Or.inl h.2.symm

theorem container_install_heap (c : Container) (s : State) (k : VALUE) :
    (c.install s k).heap = s.heap ∧ same_globals s (c.install s k) := by
  cases c <;> exact ⟨rfl, rfl⟩

theorem container_flag_or (c : Container) (v : Version) :
    (v.or c.flag).object_subclass = v.object_subclass ∧ (v.or c.flag).is_module = v.is_module ∧
    (v.or c.flag).singleton = v.singleton ∧ (v.or c.flag).ruby_class = v.ruby_class := by
  cases c <;> simp [Container.flag, Version.or]

/-- What `rb_objc_install_primitives` may change: at most the container flags
in the version word of the class it is called for, and the installer log. -/
theorem install_new (fuel : Nat) (s s1 : State) (h : List RObject) (c m : RObject) (sup : VALUE)
    (b : Bool) (hs : s.heap = h ++ [c, m])
    (hi : rb_objc_install_primitives fuel s (VALUE.ref h.length) sup = Except.ok (b, s1)) :
    same_globals s s1 ∧ ∃ v : Version, s1.heap = h ++ [{ c with version := v }, m] ∧
      v.object_subclass = c.version.object_subclass ∧ v.is_module = c.version.is_module ∧
      v.singleton = c.version.singleton ∧ v.ruby_class = c.version.ruby_class := by
  rcases install_exact fuel s s1 _ sup b hi with h1 | ⟨ct, h1⟩
  · subst h1
    exact ⟨rfl, c.version, by rw [hs], rfl, rfl, rfl, rfl⟩
  · subst h1
    obtain ⟨hh, hg⟩ := container_install_heap ct s (VALUE.ref h.length)
    refine ⟨same_globals_trans hg (same_globals_modify _ _ _), ?_⟩
    have hs2 : (ct.install s (VALUE.ref h.length)).heap = h ++ [c, m] := by rw [hh, hs]
    refine ⟨(c.version.or ct.flag), ?_, container_flag_or ct c.version⟩
    unfold RCLASS_SET_VERSION_FLAG class_setVersion
    rw [modify_new_fst _ h c m _ hs2]
    simp [RCLASS_VERSION, deref_new_fst _ h c m hs2]

theorem RCLASS_VERSION_of_heap_eq (s s1 : State) (h : s1.heap = s.heap) (v : VALUE) :
    RCLASS_VERSION s1 v = RCLASS_VERSION s v := by
  cases v <;> simp [RCLASS_VERSION, deref, h]

theorem RCLASS_VERSION_append (s : State) (c m : RObject) (hc : c.version = {})
    (hm : m.version = {}) (v : VALUE) :
    RCLASS_VERSION { s with heap := s.heap ++ [c, m] } v = RCLASS_VERSION s v := by
  cases v with
  | ref a =>
    simp only [RCLASS_VERSION, deref]
    by_cases h1 : a < s.heap.length
    · rw [List.getElem?_append_left h1]
    · have hn : s.heap[a]? = none := List.getElem?_eq_none (by omega)
      rw [hn, List.getElem?_append_right (by omega)]
      by_cases h2 : a - s.heap.length = 0
      · simp [h2, hc]
      · by_cases h3 : a - s.heap.length = 1
        · simp [h3, hm]
        · have : ([c, m] : List RObject)[a - s.heap.length]? = none :=
            List.getElem?_eq_none (by simp; omega)
          rw [this]
  | _ => rfl

theorem alloc_class_version_congr (s s1 : State) (hv : ∀ v, RCLASS_VERSION s1 v = RCLASS_VERSION s v)
    (ho : s1.rb_cObject = s.rb_cObject) (sup : VALUE) (flags : ruby_value_type) :
    rb_objc_alloc_class_version s1 sup flags = rb_objc_alloc_class_version s sup flags := by
  unfold rb_objc_alloc_class_version
  rw [hv, ho]

theorem alloc_name_globals (fuel : Nat) (s s1 : State) (name : Option String) (ocname : String)
    (h : rb_objc_alloc_class_name fuel s name = Except.ok (ocname, s1)) :
    s1.objc_classes = s.objc_classes := by
  unfold rb_objc_alloc_class_name at h
  cases name with
  | none => simp at h; rw [← h.2]
  | some nm =>
    simp only at h
    split at h
    · split at h
      · simp at h
      · simp at h; rw [← h.2]
    · split at h
      · simp at h; rw [← h.2]
      · simp at h

theorem allocateClassPair_exact (s s1 : State) (sup k : VALUE) (nm : String)
    (h : objc_allocateClassPair s sup nm = (k, s1)) (hk : k ≠ NULL) :
    k = VALUE.ref s.heap.length ∧ objc_getClass s nm = NULL ∧ same_globals s s1 ∧
    ∃ mrec, s1.heap = s.heap ++
        [{ klass := VALUE.ref (s.heap.length + 1), is_class := true, super := sup, name := nm },
          mrec] ∧
      mrec.is_class = true ∧ mrec.version = ({} : Version) ∧ mrec.frozen = false ∧
      mrec.methods = [] := by
  unfold objc_allocateClassPair at h
  split at h
  · simp only [Prod.mk.injEq] at h
    exact absurd h.1.symm hk
  · rename_i hfree
    simp only [Prod.mk.injEq] at h
    obtain ⟨h1, h2⟩ := h
    subst h1 h2
    exact ⟨rfl, by simpa using hfree, rfl, _, rfl, rfl, rfl, rfl, rfl⟩

theorem RCLASS_VERSION_append2 (s s1 : State) (c m : RObject) (hs : s1.heap = s.heap ++ [c, m])
    (hc : c.version = ({} : Version)) (hm : m.version = ({} : Version)) (v : VALUE) :
    RCLASS_VERSION s1 v = RCLASS_VERSION s v := by
  rw [← RCLASS_VERSION_append s c m hc hm v]
  exact RCLASS_VERSION_of_heap_eq _ _ hs v

/-- What a successful `rb_objc_alloc_class` leaves: the heap grows by exactly
the new class record and its metaclass record, the class record has the
superclass asked for, the chosen host-level name (which was free), no methods,
and the version word computed from the superclass. -/
theorem alloc_class_exact (fuel : Nat) (s s1 : State) (name : Option String)
    (super k klass : VALUE) (flags : ruby_value_type)
    (h : rb_objc_alloc_class fuel s name super flags klass = Except.ok (k, s1)) :
    ∃ ocname sa c m,
      rb_objc_alloc_class_name fuel s name = Except.ok (ocname, sa) ∧
      objc_getClass s ocname = NULL ∧ k = VALUE.ref s.heap.length ∧
      s1.heap = s.heap ++ [c, m] ∧ same_globals sa s1 ∧
      c = { klass := VALUE.ref (s.heap.length + 1), is_class := true,
            super := (if super = NULL then s.rb_cObject else super), name := ocname,
            version := c.version } ∧
      c.version.object_subclass =
        (rb_objc_alloc_class_version s (if super = NULL then s.rb_cObject else super)
          flags).object_subclass ∧
      c.version.is_module = decide (flags = T_MODULE) ∧ c.version.singleton = false ∧
      m.is_class = true ∧ m.version = ({} : Version) ∧ m.frozen = false ∧ m.methods = [] := by
  unfold rb_objc_alloc_class at h
  simp only [bind, Except.bind] at h
  cases hn : rb_objc_alloc_class_name fuel s name with
  | error e => simp [hn] at h
  | ok r =>
    obtain ⟨ocname, sa⟩ := r
    obtain ⟨hheap, hobj, _, _⟩ := alloc_name_heap fuel s sa name ocname hn
    have hreg := alloc_name_globals fuel s sa name ocname hn
    simp only [hn] at h
    rw [hobj] at h
    generalize hsup : (if super = NULL then s.rb_cObject else super) = sup at h ⊢
    cases hp : objc_allocateClassPair sa sup ocname with
    | mk k0 sb =>
      simp only [hp] at h
      split at h
      · simp at h
      · rename_i hk0
        obtain ⟨hk, hfree, hgb, mrec, hsb, hmfin⟩ := allocateClassPair_exact sa sb sup k0 ocname hp hk0
        have hfree2 : objc_getClass s ocname = NULL := by
          simpa [objc_getClass, hreg] using hfree
        have hver : rb_objc_alloc_class_version sb sup flags
            = rb_objc_alloc_class_version s sup flags := by
          apply alloc_class_version_congr
          · intro v
            rw [RCLASS_VERSION_append2 sa sb _ mrec hsb rfl hmfin.2.1]
            exact RCLASS_VERSION_of_heap_eq s sa hheap v
          · rw [← hobj]
            exact (same_globals_fields hgb).1
        rw [hheap] at hsb hk
        rw [hver, hk] at h
        generalize hV : rb_objc_alloc_class_version s sup flags = V at h ⊢
        have hset : (class_setVersion sb (VALUE.ref s.heap.length) V).heap = _ :=
          modify_new_fst sb s.heap _ mrec (fun o => { o with version := V }) hsb
        have hgl : same_globals sa (class_setVersion sb (VALUE.ref s.heap.length) V) :=
          same_globals_trans hgb (same_globals_modify _ _ _)
        have hVm : V.is_module = decide (flags = T_MODULE) ∧ V.singleton = false := by
          rw [← hV]
          unfold rb_objc_alloc_class_version
          by_cases hf : flags = T_MODULE <;> simp only [hf, if_true, if_false] <;>
            (split <;> [skip; split]) <;> simp [Version.or]
        split at h
        · cases hi : rb_objc_install_primitives fuel
              (class_setVersion sb (VALUE.ref s.heap.length) V) (VALUE.ref s.heap.length) sup with
          | error e => simp [hi] at h
          | ok r =>
            obtain ⟨b, sd⟩ := r
            simp only [hi, pure, Except.pure, Except.ok.injEq, Prod.mk.injEq] at h
            obtain ⟨h1, h2⟩ := h
            subst h1 h2
            obtain ⟨hg2, v, hh, hv1, hv2, hv3, _⟩ :=
              install_new fuel _ _ s.heap _ mrec sup b hset hi
            refine ⟨ocname, sa, _, mrec, rfl, hfree2, rfl,
              hh, same_globals_trans hgl hg2, rfl, ?_, ?_, ?_, hmfin⟩
            · exact hv1
            · exact hv2.trans hVm.1
            · exact hv3.trans hVm.2
        · simp only [pure, Except.pure, Except.ok.injEq, Prod.mk.injEq] at h
          obtain ⟨h1, h2⟩ := h
          subst h1 h2
          exact ⟨ocname, sa, _, mrec, rfl, hfree2, rfl, hset, hgl, rfl, rfl,
            hVm.1, hVm.2, hmfin⟩

/-! ### Name collision policy (C13) -/

theorem candidate_one (name : String) :
    snprintf_ocname ("RB" ++ name) = rb_objc_alloc_class_candidate name 1 := by
  simp [rb_objc_alloc_class_candidate]

theorem candidate_succ (name : String) (count : Nat) (h : 1 ≤ count) :
    snprintf_ocname ("RB" ++ name ++ toString (count + 1)) =
      rb_objc_alloc_class_candidate name (count + 1) := by
  unfold rb_objc_alloc_class_candidate
  rw [if_neg (by omega)]

/-- The renaming loop answers a candidate that is free, after candidates that
are all taken. -/
theorem rename_sound (s : State) (name : String) :
    ∀ (fuel count : Nat) (oc : String), 1 ≤ count →
      rb_objc_alloc_class_rename fuel s name count (rb_objc_alloc_class_candidate name count) =
        Except.ok oc →
      ∃ j, count ≤ j ∧ oc = rb_objc_alloc_class_candidate name j ∧ objc_getClass s oc = NULL ∧
        ∀ i, count ≤ i → i < j → objc_getClass s (rb_objc_alloc_class_candidate name i) ≠ NULL := by
  intro fuel
  induction fuel with
  | zero => intro count oc _ h; simp [rb_objc_alloc_class_rename] at h
  | succ fuel ih =>
    intro count oc hc h
    unfold rb_objc_alloc_class_rename at h
    by_cases ht : objc_getClass s (rb_objc_alloc_class_candidate name count) ≠ NULL
    · rw [if_pos ht] at h
      simp only at h
      rw [candidate_succ name count hc] at h
      obtain ⟨j, hj, hoc, hfree, hall⟩ := ih (count + 1) oc (by omega) h
      refine ⟨j, by omega, hoc, hfree, fun i hi1 hi2 => ?_⟩
      by_cases hi : i = count
      · rw [hi]; exact ht
      · exact hall i (by omega) hi2
    · rw [if_neg ht] at h
      simp only [Except.ok.injEq] at h
      subst h
      exact ⟨count, le_refl _, rfl, by simpa using ht, fun i hi1 hi2 => by omega⟩

/-- The renaming loop finds the first free candidate when given enough fuel. -/
theorem rename_total (s : State) (name : String) :
    ∀ (d fuel count : Nat), 1 ≤ count →
      (∀ i, count ≤ i → i < count + d →
        objc_getClass s (rb_objc_alloc_class_candidate name i) ≠ NULL) →
      objc_getClass s (rb_objc_alloc_class_candidate name (count + d)) = NULL → d < fuel →
      rb_objc_alloc_class_rename fuel s name count (rb_objc_alloc_class_candidate name count) =
        Except.ok (rb_objc_alloc_class_candidate name (count + d)) := by
  intro d
  induction d with
  | zero =>
    intro fuel count _ _ hfree hf
    obtain ⟨fuel, rfl⟩ : ∃ k, fuel = k + 1 := ⟨fuel - 1, by omega⟩
    unfold rb_objc_alloc_class_rename
    rw [Nat.add_zero] at hfree
    rw [if_neg (by rw [hfree]; simp)]
    rfl
  | succ d ih =>
    intro fuel count hc hall hfree hf
    obtain ⟨fuel, rfl⟩ : ∃ k, fuel = k + 1 := ⟨fuel - 1, by omega⟩
    unfold rb_objc_alloc_class_rename
    rw [if_pos (hall count (le_refl _) (by omega))]
    simp only
    rw [candidate_succ name count hc]
    have := ih fuel (count + 1) (by omega) (fun i h1 h2 => hall i (by omega) (by omega))
      (by rw [show count + 1 + d = count + (d + 1) by omega]; exact hfree) (by omega)
    rw [this, show count + 1 + d = count + (d + 1) by omega]

theorem alloc_name_free (fuel : Nat) (s : State) (name : String)
    (hfree : objc_getClass s name = NULL) (hlen : name.length < 128) :
    rb_objc_alloc_class_name fuel s (some name) = Except.ok (name, s) := by
  unfold rb_objc_alloc_class_name
  simp [hfree, hlen]

theorem alloc_name_taken (fuel : Nat) (s : State) (name : String)
    (htaken : objc_getClass s name ≠ NULL) (oc : String) (sa : State)
    (h : rb_objc_alloc_class_name fuel s (some name) = Except.ok (oc, sa)) :
    rb_objc_alloc_class_rename fuel s name 1 (rb_objc_alloc_class_candidate name 1) =
        Except.ok oc ∧
      sa.warnings = s.warnings ++ [Warning.class_exists name oc] := by
  unfold rb_objc_alloc_class_name at h
  simp only [if_pos htaken, candidate_one] at h
  cases hr : rb_objc_alloc_class_rename fuel s name 1 (rb_objc_alloc_class_candidate name 1) with
  | error e => simp [hr] at h
  | ok oc1 =>
    simp only [hr, Except.ok.injEq, Prod.mk.injEq] at h
    obtain ⟨h1, h2⟩ := h
    subst h1 h2
    exact ⟨rfl, rfl⟩

theorem alloc_name_taken_total (fuel : Nat) (s : State) (name : String)
    (htaken : objc_getClass s name ≠ NULL) (oc : String)
    (h : rb_objc_alloc_class_rename fuel s name 1 (rb_objc_alloc_class_candidate name 1) =
        Except.ok oc) :
    ∃ sa, rb_objc_alloc_class_name fuel s (some name) = Except.ok (oc, sa) := by
  unfold rb_objc_alloc_class_name
  simp only [if_pos htaken, candidate_one, h]
  exact ⟨_, rfl⟩

/-- With a host-level name in hand that is free, and the superclass chain
finite and valid, `rb_objc_alloc_class` returns. -/
theorem alloc_class_total_of_name (fuel n : Nat) (s sa : State) (name : Option String)
    (ocname : String) (super klass : VALUE) (flags : ruby_value_type)
    (hn : rb_objc_alloc_class_name fuel s name = Except.ok (ocname, sa))
    (hfree : objc_getClass s ocname = NULL)
    (hlen : (class_chain s n (if super = NULL then s.rb_cObject else super)).length < n)
    (hvalid : ∀ c ∈ class_chain s n (if super = NULL then s.rb_cObject else super),
      (deref s c).isSome = true)
    (hfuel : n ≤ fuel) :
    ∃ k s1, rb_objc_alloc_class fuel s name super flags klass = Except.ok (k, s1) := by
  obtain ⟨hheap, hobj, _, _⟩ := alloc_name_heap fuel s sa name ocname hn
  have hreg := alloc_name_globals fuel s sa name ocname hn
  have hfree2 : objc_getClass sa ocname = NULL := by
    simpa [objc_getClass, hreg] using hfree
  unfold rb_objc_alloc_class
  simp only [hn, bind, Except.bind]
  rw [hobj]
  obtain ⟨crec, mrec, hpair⟩ := allocateClassPair_free sa
    (if super = NULL then s.rb_cObject else super) ocname hfree2
  rw [hpair]
  simp only
  rw [if_neg (by simp [NULL])]
  have hPb : Pres s { sa with heap := sa.heap ++ [crec, mrec] } :=
    Pres_trans (Pres_of_heap_eq s sa hheap) (Pres_append _ _)
  split
  · generalize rb_objc_alloc_class_version _ _ flags = ver
    have hP : Pres s (class_setVersion { sa with heap := sa.heap ++ [crec, mrec] }
        (VALUE.ref sa.heap.length) ver) := Pres_trans hPb (Pres_setVersion _ _ _)
    have hch := class_chain_Pres s _ hP n _ hvalid
    obtain ⟨b, sd, hsd⟩ := install_total fuel n (class_setVersion
        { sa with heap := sa.heap ++ [crec, mrec] } (VALUE.ref sa.heap.length) ver)
      (VALUE.ref sa.heap.length)
      (if super = NULL then s.rb_cObject else super) (by rw [hch]; exact hlen) hfuel
    rw [hsd]
    exact ⟨_, _, rfl⟩
  · exact ⟨_, _, rfl⟩

theorem rb_class2name_new (s1 : State) (h : List RObject) (c m : RObject)
    (hs : s1.heap = h ++ [c, m]) : rb_class2name s1 (VALUE.ref h.length) = c.name := by
  unfold rb_class2name
  rw [deref_new_fst s1 h c m hs]

/-- Claim C13 (amended): `rb_objc_alloc_class` with a non-null name.  When the name
is free (and fits the buffer) the new class gets exactly that name and no
warning is issued.  When the name is taken, the new class gets the first free
name among `RB` followed by the name, then `RB`, the name and `2`, `3`, ...;
a warning naming the old and the new name is issued and the call returns.  In
every case the name the class gets was free before the call, and the class is
a new record. -/
theorem rb_objc_alloc_class_collision_policy (fuel n : Nat) (s : State) (name : String)
    (super klass : VALUE) (flags : ruby_value_type) :
    (objc_getClass s name = NULL → name.length < 128 → superclass_chain_ready s super n →
      n ≤ fuel →
      ∃ k s1, rb_objc_alloc_class fuel s (some name) super flags klass = Except.ok (k, s1) ∧
        rb_class2name s1 k = name ∧ s1.warnings = s.warnings) ∧
    (objc_getClass s name ≠ NULL → superclass_chain_ready s super n → n ≤ fuel →
      ∀ j, 1 ≤ j → j ≤ fuel →
        (∀ i, 1 ≤ i → i < j →
          objc_getClass s (rb_objc_alloc_class_candidate name i) ≠ NULL) →
        objc_getClass s (rb_objc_alloc_class_candidate name j) = NULL →
        ∃ k s1, rb_objc_alloc_class fuel s (some name) super flags klass = Except.ok (k, s1) ∧
          rb_class2name s1 k = rb_objc_alloc_class_candidate name j ∧
          s1.warnings = s.warnings ++
            [Warning.class_exists name (rb_objc_alloc_class_candidate name j)]) ∧
    (∀ k s1, rb_objc_alloc_class fuel s (some name) super flags klass = Except.ok (k, s1) →
      objc_getClass s (rb_class2name s1 k) = NULL ∧ deref s k = none ∧
      (objc_getClass s name ≠ NULL → ∃ j, 1 ≤ j ∧
        rb_class2name s1 k = rb_objc_alloc_class_candidate name j)) := by
  have key : ∀ k s1, rb_objc_alloc_class fuel s (some name) super flags klass = Except.ok (k, s1) →
      ∃ ocname sa, rb_objc_alloc_class_name fuel s (some name) = Except.ok (ocname, sa) ∧
        objc_getClass s ocname = NULL ∧ rb_class2name s1 k = ocname ∧
        s1.warnings = sa.warnings ∧ deref s k = none := by
    intro k s1 h
    obtain ⟨ocname, sa, c, m, hn, hfree, hk, hheap, hg, hc, _⟩ :=
      alloc_class_exact fuel s s1 (some name) super k klass flags h
    refine ⟨ocname, sa, hn, hfree, ?_, (same_globals_fields hg).2.2.2.2.1, ?_⟩
    · rw [hk, rb_class2name_new s1 s.heap c m hheap, hc]
    · rw [hk]; exact deref_length_none s
  refine ⟨?_, ?_, ?_⟩
  · intro hfree hlen hready hfuel
    have hn := alloc_name_free fuel s name hfree hlen
    obtain ⟨k, s1, h⟩ := alloc_class_total_of_name fuel n s s (some name) name super klass flags
      hn hfree hready.1 hready.2 hfuel
    obtain ⟨oc, sa, hn2, _, hnm, hw, _⟩ := key k s1 h
    rw [hn] at hn2
    simp only [Except.ok.injEq, Prod.mk.injEq] at hn2
    obtain ⟨h1, h2⟩ := hn2
    subst h1 h2
    exact ⟨k, s1, h, hnm, hw⟩
  · intro htaken hready hfuel j hj hjf hall hfree
    have hr := rename_total s name (j - 1) fuel 1 (le_refl _)
      (fun i h1 h2 => hall i h1 (by omega))
      (by rw [show 1 + (j - 1) = j by omega]; exact hfree) (by omega)
    rw [show 1 + (j - 1) = j by omega] at hr
    obtain ⟨sa, hn⟩ := alloc_name_taken_total fuel s name htaken _ hr
    obtain ⟨k, s1, h⟩ := alloc_class_total_of_name fuel n s sa (some name) _ super klass flags
      hn hfree hready.1 hready.2 hfuel
    obtain ⟨oc, sa2, hn2, _, hnm, hw, _⟩ := key k s1 h
    rw [hn] at hn2
    simp only [Except.ok.injEq, Prod.mk.injEq] at hn2
    obtain ⟨h1, h2⟩ := hn2
    subst h1 h2
    exact ⟨k, s1, h, hnm, by rw [hw]; exact (alloc_name_taken fuel s name htaken _ _ hn).2⟩
  · intro k s1 h
    obtain ⟨oc, sa, hn, hfree, hnm, hw, hnew⟩ := key k s1 h
    refine ⟨by rw [hnm]; exact hfree, hnew, fun htaken => ?_⟩
    obtain ⟨hr, _⟩ := alloc_name_taken fuel s name htaken oc sa hn
    obtain ⟨j, hj, hoc, _, _⟩ := rename_sound s name fuel 1 oc (le_refl _) hr
    exact ⟨j, hj, by rw [hnm, hoc]⟩

/-- Claim C13, the claim as first stated fails: in the booted heap the name `Object`
is taken, and a new class asked for under that name gets the host-level name
`RBObject`, which is not `Object` followed by anything. -/
theorem rb_objc_alloc_class_collision_counterexample :
    objc_getClass ex_base "Object" ≠ NULL ∧
    (rb_objc_alloc_class 5 ex_base (some "Object") (VALUE.ref 2) T_CLASS
      (VALUE.ref 6)).toOption.map (fun r => rb_class2name r.2 r.1) = some "RBObject" ∧
    ¬ ("Object".data <+: "RBObject".data) := by
  decide

theorem rb_objc_alloc_class_collision_policy_witness :
    (∃ k s1, rb_objc_alloc_class 5 ex_renamed (some "Point") (VALUE.ref 2) T_CLASS
        (VALUE.ref 6) = Except.ok (k, s1) ∧
      rb_class2name s1 k = "Point" ∧ s1.warnings = ex_renamed.warnings) ∧
    (∃ k s1, rb_objc_alloc_class 5 ex_renamed (some "Object") (VALUE.ref 2) T_CLASS
        (VALUE.ref 6) = Except.ok (k, s1) ∧
      rb_class2name s1 k = "RBObject2" ∧
      s1.warnings = ex_renamed.warnings ++ [Warning.class_exists "Object" "RBObject2"]) :=
  ⟨(rb_objc_alloc_class_collision_policy 5 4 ex_renamed "Point" (VALUE.ref 2) (VALUE.ref 6)
      T_CLASS).1 (by decide) (by decide) (by unfold superclass_chain_ready; decide) (by decide),
    (rb_objc_alloc_class_collision_policy 5 4 ex_renamed "Object" (VALUE.ref 2) (VALUE.ref 6)
      T_CLASS).2.1 (by decide) (by unfold superclass_chain_ready; decide) (by decide) 2
      (by decide) (by decide) (by decide) (by decide)⟩

/-! ### Exact effect of class creation -/

theorem same_roots_refl (s : State) : same_roots s s := ⟨rfl, rfl, rfl, rfl⟩

theorem same_roots_trans {s s1 s2 : State} (h1 : same_roots s s1) (h2 : same_roots s1 s2) :
    same_roots s s2 :=
  ⟨h2.1.trans h1.1, h2.2.1.trans h1.2.1, h2.2.2.1.trans h1.2.2.1, h2.2.2.2.trans h1.2.2.2⟩

theorem same_roots_modify (s : State) (v : VALUE) (f : RObject → RObject) :
    same_roots s (modify s v f) := by
  rw [modify_eq]; exact ⟨rfl, rfl, rfl, rfl⟩

theorem same_roots_define_method (s : State) (k : VALUE) (name func : String) (argc : Int) :
    same_roots s (rb_define_method s k name func argc) :=
  same_roots_modify s k _

theorem same_roots_alloc_func (s : State) (k : VALUE) (func : String) :
    same_roots s (rb_define_alloc_func s k func) :=
  same_roots_modify s k _

theorem same_roots_of_globals {s s1 : State} (h : same_globals s s1) : same_roots s s1 := by
  obtain ⟨h1, _, h3, _, _, h6, h7, _, _⟩ := same_globals_fields h
  exact ⟨h3, h1, h6, h7⟩

theorem same_roots_alloc_name (fuel : Nat) (s s1 : State) (name : Option String)
    (ocname : String) (h : rb_objc_alloc_class_name fuel s name = Except.ok (ocname, s1)) :
    same_roots s s1 := by
  unfold rb_objc_alloc_class_name at h
  cases name with
  | none => simp at h; rw [← h.2]; exact ⟨rfl, rfl, rfl, rfl⟩
  | some nm =>
    simp only at h
    split at h
    · split at h
      · simp at h
      · simp at h; rw [← h.2]; exact ⟨rfl, rfl, rfl, rfl⟩
    · split at h
      · simp at h; rw [← h.2]; exact ⟨rfl, rfl, rfl, rfl⟩
      · simp at h

theorem registerClassPair_heap (s : State) (k : VALUE) :
    (objc_registerClassPair s k).heap = s.heap ∧ same_roots s (objc_registerClassPair s k) := by
  unfold objc_registerClassPair
  split
  · exact ⟨rfl, rfl, rfl, rfl, rfl⟩
  · exact ⟨rfl, rfl, rfl, rfl, rfl⟩

theorem create_class_tbl_heap (s : State) (name : Option String) (k : VALUE) :
    (rb_objc_create_class_tbl s name k).heap = s.heap ∧
      same_roots s (rb_objc_create_class_tbl s name k) := by
  unfold rb_objc_create_class_tbl
  split
  · exact ⟨rfl, rfl, rfl, rfl, rfl⟩
  · exact ⟨rfl, rfl, rfl, rfl, rfl⟩

theorem RCLASS_SUPER_new (s : State) (h : List RObject) (c m : RObject)
    (hs : s.heap = h ++ [c, m]) : RCLASS_SUPER s (VALUE.ref h.length) = c.super := by
  unfold RCLASS_SUPER
  rw [deref_new_fst s h c m hs]

/-- The singleton class of a class that was just allocated is its metaclass,
and asking for it changes nothing. -/
theorem rb_singleton_class_new (g : Nat) (s : State) (h : List RObject) (c m : RObject)
    (hs : s.heap = h ++ [c, m]) (hk : c.klass = VALUE.ref (h.length + 1))
    (hcl : c.is_class = true) (hfr : c.frozen = false)
    (hmv : m.version.singleton = false) :
    rb_singleton_class (g + 1) s (VALUE.ref h.length) =
      Except.ok (VALUE.ref (h.length + 1), s) := by
  have hd := deref_new_fst s h c m hs
  have hm := deref_new_snd s h c m hs
  have hkl : RBASIC_klass s (VALUE.ref h.length) = VALUE.ref (h.length + 1) := by
    unfold RBASIC_klass; rw [hd]; exact hk
  rw [rb_singleton_class_eq, hkl]
  have hns : RCLASS_SINGLETON s (VALUE.ref (h.length + 1)) = false := by
    unfold RCLASS_SINGLETON RCLASS_VERSION
    rw [hm]; simpa [Version.test] using hmv
  have hfs : freeze_step s (VALUE.ref h.length) (VALUE.ref (h.length + 1)) = s := by
    unfold freeze_step OBJ_FROZEN
    rw [hd]; simp [hfr]
  rw [if_neg (by rw [hns]; simp), hfs]
  have hT : TYPE s (VALUE.ref h.length) = T_CLASS ∨ TYPE s (VALUE.ref h.length) = T_MODULE := by
    rw [TYPE_deref]
    simp only [hd, hcl, if_true]
    split
    · exact Or.inr rfl
    · exact Or.inl rfl
  rw [if_pos hT]

theorem create_class_exact (F : Nat) (s s1 : State) (name : Option String) (super k : VALUE)
    (h : rb_objc_create_class F s name super = Except.ok (k, s1)) :
    ∃ c m, k = VALUE.ref s.heap.length ∧ s1.heap = s.heap ++ [c, m] ∧ same_roots s s1 ∧
      c = { klass := VALUE.ref (s.heap.length + 1), is_class := true,
            super := (if super = NULL then s.rb_cObject else super), name := c.name,
            version := c.version, methods := c.methods, allocator := c.allocator } ∧
      objc_getClass s c.name = NULL ∧
      c.version.object_subclass =
        (rb_objc_alloc_class_version s (if super = NULL then s.rb_cObject else super)
          T_CLASS).object_subclass ∧
      c.version.is_module = false ∧ c.version.singleton = false ∧
      c.methods.map (fun x => x.sel) =
        (if (if super = NULL then s.rb_cObject else super) = s.rb_cNSObject
          then ["initialize_copy", "dup"] else []) := by
  cases F with
  | zero => simp [rb_objc_create_class] at h
  | succ F =>
    rw [rb_objc_create_class] at h
    simp only [bind, Except.bind] at h
    cases ha : rb_objc_alloc_class F s name super T_CLASS s.rb_cClass with
    | error e => simp [ha] at h
    | ok r =>
      obtain ⟨k0, sa⟩ := r
      obtain ⟨ocname, sn, c, m, hn, hfree, hk, hheap, hg, hc, hv1, hv2, hv3, hm1, hm2, hm3, hm4⟩ :=
        alloc_class_exact F s sa name super k0 s.rb_cClass T_CLASS ha
      simp only [ha] at h
      generalize hV : c.version = V at hc hv1 hv2 hv3
      generalize hsupd : (if super = NULL then s.rb_cObject else super) = sup at *
      subst hc
      clear hV
      have hr0 : same_roots s sa :=
        same_roots_trans (same_roots_alloc_name F s sn name ocname hn) (same_roots_of_globals hg)
      obtain ⟨hh2, hr2⟩ := registerClassPair_heap sa k0
      have hr : same_roots s (objc_registerClassPair sa k0) := same_roots_trans hr0 hr2
      rw [hheap] at hh2
      generalize objc_registerClassPair sa k0 = s2 at h hh2 hr
      subst hk
      have hsup : RCLASS_SUPER s2 (VALUE.ref s.heap.length) = sup :=
        RCLASS_SUPER_new s2 s.heap _ m hh2
      rw [hsup, hr.1] at h
      by_cases hb : sup = s.rb_cNSObject
      · rw [if_pos hb] at h
        cases F with
        | zero => simp [rb_define_singleton_method] at h
        | succ F =>
          rw [rb_define_singleton_method] at h
          simp only [bind, Except.bind] at h
          cases F with
          | zero => simp [rb_singleton_class] at h
          | succ F =>
            have hs3 : (rb_define_alloc_func s2 (VALUE.ref s.heap.length)
                "rb_class_allocate_instance").heap = _ :=
              modify_new_fst s2 s.heap _ m _ hh2
            rw [rb_singleton_class_new F _ s.heap _ m hs3 rfl rfl rfl (by rw [hm2])] at h
            simp only [pure, Except.pure, Except.ok.injEq, Prod.mk.injEq] at h
            obtain ⟨h1, h2⟩ := h
            subst h1 h2
            have hs4 : (rb_define_method (rb_define_alloc_func s2 (VALUE.ref s.heap.length)
                "rb_class_allocate_instance") (VALUE.ref (s.heap.length + 1)) "new"
                "rb_class_new_instance" (-1)).heap = _ :=
              modify_new_snd _ s.heap _ m _ hs3
            have hs5 : (rb_define_method (rb_define_method (rb_define_alloc_func s2
                (VALUE.ref s.heap.length) "rb_class_allocate_instance")
                (VALUE.ref (s.heap.length + 1)) "new" "rb_class_new_instance" (-1))
                (VALUE.ref s.heap.length) "dup" "rb_obj_dup" 0).heap = _ :=
              modify_new_fst _ s.heap _ _ _ hs4
            have hs6 : (rb_define_method (rb_define_method (rb_define_method
                (rb_define_alloc_func s2
                (VALUE.ref s.heap.length) "rb_class_allocate_instance")
                (VALUE.ref (s.heap.length + 1)) "new" "rb_class_new_instance" (-1))
                (VALUE.ref s.heap.length) "dup" "rb_obj_dup" 0)
                (VALUE.ref s.heap.length) "initialize_copy" "rb_obj_init_copy" 1).heap = _ :=
              modify_new_fst _ s.heap _ _ _ hs5
            obtain ⟨hh7, hr7⟩ := create_class_tbl_heap (rb_define_method (rb_define_method
                (rb_define_method (rb_define_alloc_func s2
                (VALUE.ref s.heap.length) "rb_class_allocate_instance")
                (VALUE.ref (s.heap.length + 1)) "new" "rb_class_new_instance" (-1))
                (VALUE.ref s.heap.length) "dup" "rb_obj_dup" 0)
                (VALUE.ref s.heap.length) "initialize_copy" "rb_obj_init_copy" 1) name
                (VALUE.ref s.heap.length)
            have hroots : same_roots s2 (rb_define_method (rb_define_method
                (rb_define_method (rb_define_alloc_func s2
                (VALUE.ref s.heap.length) "rb_class_allocate_instance")
                (VALUE.ref (s.heap.length + 1)) "new" "rb_class_new_instance" (-1))
                (VALUE.ref s.heap.length) "dup" "rb_obj_dup" 0)
                (VALUE.ref s.heap.length) "initialize_copy" "rb_obj_init_copy" 1) :=
              same_roots_trans (same_roots_alloc_func _ _ _) (same_roots_trans
                (same_roots_define_method _ _ _ _ _) (same_roots_trans
                  (same_roots_define_method _ _ _ _ _) (same_roots_define_method _ _ _ _ _)))
            refine ⟨_, _, rfl, hh7.trans hs6, same_roots_trans hr (same_roots_trans hroots hr7),
              ?_, ?_, ?_, ?_, ?_, ?_⟩
            all_goals simp
            · exact hfree
            · exact hv1
            · rw [hv2]; simp
            · exact hv3
            · rw [if_pos hb]
      · rw [if_neg hb] at h
        simp only [pure, Except.pure, Except.ok.injEq, Prod.mk.injEq] at h
        obtain ⟨h1, h2⟩ := h
        subst h1 h2
        obtain ⟨hh3, hr3⟩ := create_class_tbl_heap s2 name (VALUE.ref s.heap.length)
        refine ⟨_, m, rfl, hh3.trans hh2, same_roots_trans hr hr3, ?_, ?_, ?_, ?_, ?_, ?_⟩
        · rfl
        · exact hfree
        · exact hv1
        · rw [hv2]; simp
        · exact hv3
        · rw [if_neg hb]; rfl

/-! ### Kind flags at creation (C19) -/

theorem class_chain_succ (s : State) (n : Nat) (c : VALUE) :
    class_chain s (n + 1) c =
      if c = NULL then [] else c :: class_chain s n (class_getSuperclass s c) := rfl

theorem class_chain_stable (s : State) :
    ∀ (n : Nat) (c : VALUE), (class_chain s n c).length < n →
      class_chain s (n + 1) c = class_chain s n c := by
  intro n
  induction n with
  | zero => intro c h; simp at h
  | succ n ih =>
    intro c h
    by_cases hc : c = NULL
    · rw [hc, class_chain_null, class_chain_null]
    · rw [class_chain_succ, if_neg hc] at h
      conv_rhs => rw [class_chain_succ, if_neg hc]
      conv_lhs => rw [class_chain_succ, if_neg hc]
      simp only [List.length_cons] at h
      rw [ih _ (by omega)]

theorem alloc_class_version_object_subclass (s : State) (sup : VALUE) (flags : ruby_value_type) :
    (rb_objc_alloc_class_version s sup flags).object_subclass = true ↔
      (sup = s.rb_cObject ∨ (RCLASS_VERSION s sup).test RCLASS_IS_OBJECT_SUBCLASS = true) := by
  unfold rb_objc_alloc_class_version
  by_cases h1 : sup = s.rb_cObject
  · simp only [if_pos h1]
    by_cases hf : flags = T_MODULE <;> simp [hf, Version.or, h1]
  · simp only [if_neg h1]
    by_cases h2 : (RCLASS_VERSION s sup).test RCLASS_IS_OBJECT_SUBCLASS = true
    · simp only [if_pos h2]
      by_cases hf : flags = T_MODULE <;> simp [hf, Version.or, h2]
    · simp only [if_neg h2]
      by_cases hf : flags = T_MODULE <;> simp [hf, Version.or, h1, h2]

theorem RCLASS_VERSION_new (s : State) (h : List RObject) (c m : RObject)
    (hs : s.heap = h ++ [c, m]) : RCLASS_VERSION s (VALUE.ref h.length) = c.version := by
  unfold RCLASS_VERSION
  rw [deref_new_fst s h c m hs]

theorem RCLASS_MODULE_new (s : State) (h : List RObject) (c m : RObject)
    (hs : s.heap = h ++ [c, m]) : RCLASS_MODULE s (VALUE.ref h.length) = c.version.is_module := by
  unfold RCLASS_MODULE
  rw [RCLASS_VERSION_new s h c m hs]
  rfl

/-- The kind flags of a class that `rb_objc_alloc_class` has just made. -/
theorem alloc_class_flags (fuel : Nat) (s s1 : State) (name : Option String)
    (super k klass : VALUE) (flags : ruby_value_type)
    (h : rb_objc_alloc_class fuel s name super flags klass = Except.ok (k, s1)) :
    (RCLASS_MODULE s1 k = true ↔ flags = T_MODULE) ∧
    ((RCLASS_VERSION s1 k).test RCLASS_IS_OBJECT_SUBCLASS = true ↔
      ((if super = NULL then s.rb_cObject else super) = s.rb_cObject ∨
        (RCLASS_VERSION s (if super = NULL then s.rb_cObject else super)).test
          RCLASS_IS_OBJECT_SUBCLASS = true)) ∧
    RCLASS_SUPER s1 k = (if super = NULL then s.rb_cObject else super) ∧
    s1.rb_cObject = s.rb_cObject := by
  obtain ⟨ocname, sa, c, m, hn, hfree, hk, hheap, hg, hc, hv1, hv2, hv3, _⟩ :=
    alloc_class_exact fuel s s1 name super k klass flags h
  subst hk
  refine ⟨?_, ?_, ?_, ?_⟩
  · rw [RCLASS_MODULE_new s1 s.heap c m hheap, hv2]
    simp
  · rw [RCLASS_VERSION_new s1 s.heap c m hheap, ← alloc_class_version_object_subclass, ← hv1]
    rfl
  · rw [RCLASS_SUPER_new s1 s.heap c m hheap, hc]
  · exact (same_roots_trans (same_roots_alloc_name fuel s sa name ocname hn)
      (same_roots_of_globals hg)).2.1

/-- Claim C19: in a state where every class record carries the
derives-from-root-object flag exactly when the root object class is one of
its proper ancestors, a class made by `rb_objc_alloc_class` below a class
`super` (the root object class when `super` is absent) carries that flag
exactly when the root object class is on its superclass chain; it carries
is-module exactly when the type tag passed is `T_MODULE`, which is what the
module path (`rb_module_new`, `rb_define_module_id`) passes and what the class
path (`rb_objc_create_class`, `rb_class_boot`, `rb_define_class_id`) never
passes. -/
theorem rb_objc_alloc_class_kind_flags (fuel n : Nat) (s : State) :
    (∀ (name : Option String) (super klass : VALUE) (flags : ruby_value_type),
      object_subclass_cached s n → superclass_chain_ready s super n → s.rb_cObject ≠ NULL →
      is_class_record s (if super = NULL then s.rb_cObject else super) = true →
      ∀ k s1, rb_objc_alloc_class fuel s name super flags klass = Except.ok (k, s1) →
        ((RCLASS_VERSION s1 k).test RCLASS_IS_OBJECT_SUBCLASS = true ↔
          s1.rb_cObject ∈ class_chain s1 (n + 1) (RCLASS_SUPER s1 k)) ∧
        (RCLASS_MODULE s1 k = true ↔ flags = T_MODULE)) ∧
    (∀ m s1, rb_module_new fuel s = Except.ok (m, s1) → RCLASS_MODULE s1 m = true) ∧
    (∀ id m s1, rb_define_module_id fuel s id = Except.ok (m, s1) →
      RCLASS_MODULE s1 m = true) ∧
    (∀ name super k s1, rb_objc_create_class fuel s name super = Except.ok (k, s1) →
      RCLASS_MODULE s1 k = false) ∧
    (∀ super k s1, rb_class_boot fuel s super = Except.ok (k, s1) →
      RCLASS_MODULE s1 k = false) ∧
    (∀ id super k s1, rb_define_class_id fuel s id super = Except.ok (k, s1) →
      RCLASS_MODULE s1 k = false) := by
  have hcreate : ∀ F s name super k s1,
      rb_objc_create_class F s name super = Except.ok (k, s1) → RCLASS_MODULE s1 k = false := by
    intro F s name super k s1 h
    obtain ⟨c, m, hk, hheap, _, _, _, _, hv, _⟩ := create_class_exact F s s1 name super k h
    rw [hk, RCLASS_MODULE_new s1 s.heap c m hheap, hv]
  have hmod : ∀ (name : Option String) m s1,
      (do
        let (mdl, s) ← rb_objc_alloc_class fuel s name NULL T_MODULE s.rb_cModule
        let s := objc_registerClassPair s mdl
        pure (mdl, s) : Except Err (VALUE × State)) = Except.ok (m, s1) →
      RCLASS_MODULE s1 m = true := by
    intro name m s1 h
    simp only [bind, Except.bind] at h
    cases ha : rb_objc_alloc_class fuel s name NULL T_MODULE s.rb_cModule with
    | error e => simp [ha] at h
    | ok r =>
      obtain ⟨k0, sa⟩ := r
      simp only [ha, pure, Except.pure, Except.ok.injEq, Prod.mk.injEq] at h
      obtain ⟨h1, h2⟩ := h
      subst h1 h2
      obtain ⟨ocname, sn, c, m, hn, hfree, hk, hheap, hg, hc, hv1, hv2, hv3, _⟩ :=
        alloc_class_exact fuel s sa name NULL k0 s.rb_cModule T_MODULE ha
      subst hk
      rw [RCLASS_MODULE_new _ s.heap c m ((registerClassPair_heap sa _).1.trans hheap), hv2]
      simp
  refine ⟨?_, fun m s1 h => hmod none m s1 h, fun id m s1 h => hmod (some id) m s1 h,
    hcreate fuel s, ?_, ?_⟩
  · intro name super klass flags hinv hready hobj hcls k s1 h
    obtain ⟨hm, hf, hsup, hroot⟩ := alloc_class_flags fuel s s1 name super k klass flags h
    refine ⟨?_, hm⟩
    obtain ⟨hP, _, _⟩ := alloc_class_ok fuel s s1 name super k klass flags h
    generalize hsupd : (if super = NULL then s.rb_cObject else super) = sup at *
    unfold superclass_chain_ready at hready
    rw [hsupd] at hready
    obtain ⟨hlen, hvalid⟩ := hready
    rw [hf, hsup, hroot, class_chain_stable s1 n sup (by
      rw [class_chain_Pres s s1 hP n sup hvalid]; exact hlen),
      class_chain_Pres s s1 hP n sup hvalid]
    cases hd : deref s sup with
    | none => simp [is_class_record, hd] at hcls
    | some o =>
      obtain ⟨a, ha, hlt⟩ := deref_ref_lt s sup o hd
      have hi := hinv a hlt (by rw [← ha]; exact hcls)
      rw [← ha] at hi
      rw [hi]
      have hne : sup ≠ NULL := by rw [ha]; simp [NULL]
      obtain ⟨n, rfl⟩ : ∃ k, n = k + 1 := ⟨n - 1, by
        cases n with
        | zero => simp at hlen
        | succ n => rfl⟩
      rw [class_chain_succ, if_neg hne] at hlen
      simp only [List.length_cons, class_getSuperclass] at hlen
      rw [class_chain_stable s n _ (by omega)]
      conv_rhs => rw [class_chain_succ, if_neg hne]
      simp only [List.mem_cons, class_getSuperclass]
      constructor
      · rintro (h1 | h1)
        · exact Or.inl h1.symm
        · exact Or.inr h1
      · rintro (h1 | h1)
        · exact Or.inl h1.symm
        · exact Or.inr h1
  · intro super k s1 h
    cases fuel with
    | zero => simp [rb_class_boot] at h
    | succ fuel =>
      rw [rb_class_boot] at h
      exact hcreate fuel s none super k s1 h
  · intro id super k s1 h
    exact hcreate fuel s (some id) _ k s1 h

theorem rb_objc_alloc_class_kind_flags_witness :
    ((RCLASS_VERSION (state_of (rb_objc_alloc_class 5 ex_base (some "C") NULL T_CLASS
          (VALUE.ref 6)) ex_base) (VALUE.ref 8)).test RCLASS_IS_OBJECT_SUBCLASS = true ↔
        (state_of (rb_objc_alloc_class 5 ex_base (some "C") NULL T_CLASS
          (VALUE.ref 6)) ex_base).rb_cObject ∈
          class_chain (state_of (rb_objc_alloc_class 5 ex_base (some "C") NULL T_CLASS
            (VALUE.ref 6)) ex_base) (4 + 1)
            (RCLASS_SUPER (state_of (rb_objc_alloc_class 5 ex_base (some "C") NULL T_CLASS
              (VALUE.ref 6)) ex_base) (VALUE.ref 8))) ∧
      (RCLASS_MODULE (state_of (rb_objc_alloc_class 5 ex_base (some "C") NULL T_CLASS
        (VALUE.ref 6)) ex_base) (VALUE.ref 8) = true ↔ T_CLASS = T_MODULE) :=
  (rb_objc_alloc_class_kind_flags 5 4 ex_base).1 (some "C") NULL (VALUE.ref 6) T_CLASS
    (by unfold object_subclass_cached; decide) (by unfold superclass_chain_ready; decide)
    (by decide) (by decide) (VALUE.ref 8) _ (by decide)

/-! ### Class definition under a namespace (C11, C12) -/

theorem rb_class_real_total (s : State) :
    ∀ (n fuel : Nat) (c : VALUE), (class_chain s n c).length < n → n ≤ fuel →
      ∃ r, rb_class_real fuel s c = Except.ok r := by
  intro n
  induction n with
  | zero => intro fuel c h; simp at h
  | succ n ih =>
    intro fuel c hlen hfuel
    obtain ⟨fuel, rfl⟩ : ∃ k, fuel = k + 1 := ⟨fuel - 1, by omega⟩
    unfold rb_class_real
    by_cases hc : c = NULL
    · rw [if_pos hc]; exact ⟨_, rfl⟩
    · rw [if_neg hc]
      split
      · rw [class_chain_succ, if_neg hc] at hlen
        simp only [List.length_cons, class_getSuperclass] at hlen
        exact ih fuel _ (by omega) (by omega)
      · exact ⟨_, rfl⟩

theorem rb_const_get_at_defined (s : State) (outer : VALUE) (id : String) (v : VALUE)
    (h : rb_const_get_at s outer id = Except.ok v) : rb_const_defined_at s outer id = true := by
  unfold rb_const_get_at at h
  unfold rb_const_defined_at
  cases hl : s.constants.lookup (outer, id) with
  | none => simp [hl] at h
  | some w => rfl

/-- Claim C12 (amended): `rb_define_class_under` with the name already bound in the
outer scope, the superclass chain of the bound value ending within the fuel.
If the bound value is not a class the call raises a type error; if it is a
class whose real superclass differs from `super` the call raises a name
error; in both cases the state is left as it was, so no class is created and
no binding changes.  Otherwise the call returns the bound class and leaves the
state as it was. -/
theorem rb_define_class_under_bound_name (fuel n : Nat) (s : State) (outer : VALUE)
    (name : String) (super v : VALUE) (hb : rb_const_get_at s outer name = Except.ok v)
    (hlen : (class_chain s n (RCLASS_SUPER s v)).length < n) (hfuel : n ≤ fuel) :
    (TYPE s v ≠ T_CLASS →
      rb_define_class_under fuel s outer name super = Except.error (Exn.TypeError, s)) ∧
    (TYPE s v = T_CLASS →
      ∃ real, rb_class_real fuel s (RCLASS_SUPER s v) = Except.ok real ∧
        (real ≠ super →
          rb_define_class_under fuel s outer name super = Except.error (Exn.NameError, s)) ∧
        (real = super → rb_define_class_under fuel s outer name super = Except.ok (v, s))) := by
  have hdef := rb_const_get_at_defined s outer name v hb
  unfold rb_define_class_under
  rw [if_pos hdef]
  unfold rb_define_class_under_bound
  simp only [hb]
  constructor
  · intro ht
    rw [if_pos ht]
  · intro ht
    obtain ⟨real, hr⟩ := rb_class_real_total s n fuel _ hlen hfuel
    refine ⟨real, hr, ?_, ?_⟩
    · intro hne
      rw [if_neg (by simp [ht]), hr]
      simp only
      rw [if_pos hne]
    · intro he
      rw [if_neg (by simp [ht]), hr]
      simp only
      rw [if_neg (by simp [he])]

/-- Claim C12, the claim as first stated fails: with the name `Math` bound to a
module, `rb_define_class_under` raises a type error, which is not the name
error raised for a superclass mismatch. -/
theorem rb_define_class_under_bound_counterexample :
    rb_const_get_at ex_bound_module (VALUE.ref 2) "Math" = Except.ok (VALUE.ref 8) ∧
    TYPE ex_bound_module (VALUE.ref 8) = T_MODULE ∧
    rb_define_class_under 5 ex_bound_module (VALUE.ref 2) "Math" (VALUE.ref 2) =
      Except.error (Exn.TypeError, ex_bound_module) ∧
    rb_define_class_under 5 ex_bound_module (VALUE.ref 2) "Math" (VALUE.ref 2) ≠
      Except.error (Exn.NameError, ex_bound_module) := by
  decide

theorem rb_define_class_under_bound_name_witness :
    rb_define_class_under 5 ex_bound_module (VALUE.ref 2) "Math" (VALUE.ref 2) =
        Except.error (Exn.TypeError, ex_bound_module) ∧
      ∃ real, rb_class_real 5 ex_defined_K_module (RCLASS_SUPER ex_defined_K_module (VALUE.ref 8))
          = Except.ok real ∧
        (real ≠ VALUE.ref 2 →
          rb_define_class_under 5 ex_defined_K_module (VALUE.ref 2) "K" (VALUE.ref 2) =
            Except.error (Exn.NameError, ex_defined_K_module)) ∧
        (real = VALUE.ref 2 →
          rb_define_class_under 5 ex_defined_K_module (VALUE.ref 2) "K" (VALUE.ref 2) =
            Except.ok (VALUE.ref 8, ex_defined_K_module)) :=
  ⟨(rb_define_class_under_bound_name 5 4 ex_bound_module (VALUE.ref 2) "Math" (VALUE.ref 2)
      (VALUE.ref 8) (by decide) (by decide) (by decide)).1 (by decide),
    (rb_define_class_under_bound_name 5 5 ex_defined_K_module (VALUE.ref 2) "K" (VALUE.ref 2)
      (VALUE.ref 8) (by decide) (by decide) (by decide)).2 (by decide)⟩

theorem rb_class_inherited_fields (s : State) (super klass : VALUE) :
    (rb_class_inherited s super klass).heap = s.heap ∧
    (rb_class_inherited s super klass).constants = s.constants :=
  ⟨rfl, rfl⟩

/-- Declaring a class again right after `rb_define_class_under` created it
below a given class that is not a singleton class answers the same class and
changes nothing. -/
theorem rb_define_class_under_again (fuel : Nat) (s s1 : State) (outer : VALUE)
    (name : String) (super k : VALUE) (hsup : super ≠ NULL)
    (hvalid : (deref s super).isSome = true) (hns : RCLASS_SINGLETON s super = false)
    (hnew : rb_const_defined_at s outer name = false)
    (h : rb_define_class_under fuel s outer name super = Except.ok (k, s1)) :
    rb_define_class_under fuel s1 outer name super = Except.ok (k, s1) := by
  unfold rb_define_class_under at h
  rw [if_neg (by rw [hnew]; simp)] at h
  unfold rb_define_class_under_new at h
  simp only [if_neg hsup, bind, Except.bind] at h
  cases hc : rb_define_class_id fuel s name super with
  | error e => simp [hc] at h
  | ok r =>
    obtain ⟨k0, sC⟩ := r
    simp only [hc, pure, Except.pure, Except.ok.injEq, Prod.mk.injEq] at h
    obtain ⟨h1, h2⟩ := h
    subst h1
    unfold rb_define_class_id at hc
    simp only [if_neg hsup] at hc
    obtain ⟨fuel, rfl⟩ : ∃ f, fuel = f + 1 := by
      cases fuel with
      | zero => simp [rb_objc_create_class] at hc
      | succ f => exact ⟨f, rfl⟩
    obtain ⟨c, m, hk, hheap, hroots, hcrec, _, _, hmod, hsing, _⟩ :=
      create_class_exact _ s sC (some name) super k0 hc
    rw [if_neg hsup] at hcrec
    subst hk
    obtain ⟨c1, hpath, hc1, hc2, hc3⟩ : ∃ c1,
        (rb_set_class_path sC (VALUE.ref s.heap.length) outer name).heap = s.heap ++ [c1, m] ∧
        c1.is_class = true ∧ c1.super = super ∧ c1.version.is_module = false :=
      ⟨_, modify_new_fst sC s.heap c m _ hheap, by rw [hcrec], by rw [hcrec], hmod⟩
    have hheap1 : s1.heap = s.heap ++ [c1, m] := by rw [← h2]; exact hpath
    have hconst : s1.constants = ((outer, name), VALUE.ref s.heap.length) ::
        (rb_set_class_path sC (VALUE.ref s.heap.length) outer name).constants.filter
          (fun p => p.1 ≠ (outer, name)) := by rw [← h2]; rfl
    have hdef : rb_const_defined_at s1 outer name = true := by
      unfold rb_const_defined_at
      rw [hconst]
      simp [List.lookup]
    have hget : rb_const_get_at s1 outer name = Except.ok (VALUE.ref s.heap.length) := by
      unfold rb_const_get_at
      rw [hconst]
      simp [List.lookup]
    have hd := deref_new_fst s1 s.heap _ m hheap1
    have hT : TYPE s1 (VALUE.ref s.heap.length) = T_CLASS := by
      rw [TYPE_deref]
      simp only [hd]
      simp [Version.test, hc1, hc3]
    have hS : RCLASS_SUPER s1 (VALUE.ref s.heap.length) = super := by
      rw [RCLASS_SUPER_new s1 s.heap _ m hheap1, hc2]
    have hreal : rb_class_real (fuel + 1) s1 super = Except.ok super := by
      unfold rb_class_real
      rw [if_neg hsup]
      obtain ⟨o, ho⟩ := Option.isSome_iff_exists.1 hvalid
      have ho1 := deref_old s s1 _ hheap1 super o ho
      have : RCLASS_SINGLETON s1 super = false := by
        unfold RCLASS_SINGLETON RCLASS_VERSION at hns ⊢
        rw [ho1]; rw [ho] at hns; exact hns
      rw [this]
      simp
    unfold rb_define_class_under
    rw [if_pos hdef]
    unfold rb_define_class_under_bound
    simp only [hget, hT, hS, hreal]
    simp

/-- Claim C11: the second of two identical calls of `rb_define_class_under` with an
absent superclass fails.  The first call creates the class `K` below the root
object class, which it assumes; the second call compares the real superclass
of `K` (the root object class) with the absent superclass it was given and
raises a name error.  With a superclass that is given (a valid class that is
not a singleton class), the second call answers the class the first call
created and leaves the state as it was. -/
theorem rb_define_class_under_absent_super_not_idempotent :
    (∀ (fuel : Nat) (s s1 : State) (outer : VALUE) (name : String) (super k : VALUE),
      super ≠ NULL → (deref s super).isSome = true → RCLASS_SINGLETON s super = false →
      rb_const_defined_at s outer name = false →
      rb_define_class_under fuel s outer name super = Except.ok (k, s1) →
      rb_define_class_under fuel s1 outer name super = Except.ok (k, s1)) ∧
    rb_const_defined_at ex_base (VALUE.ref 2) "K" = false ∧
    rb_define_class_under 6 ex_base (VALUE.ref 2) "K" NULL =
      Except.ok (VALUE.ref 8, ex_defined_K) ∧
    RCLASS_SUPER ex_defined_K (VALUE.ref 8) = ex_defined_K.rb_cObject ∧
    rb_define_class_under 6 ex_defined_K (VALUE.ref 2) "K" NULL =
      Except.error (Exn.NameError, ex_defined_K) :=
  ⟨fun fuel s s1 outer name super k h1 h2 h3 h4 h5 =>
      rb_define_class_under_again fuel s s1 outer name super k h1 h2 h3 h4 h5,
    by decide, by decide, by decide, by decide⟩

theorem rb_define_class_under_absent_super_not_idempotent_witness :
    rb_define_class_under 6 ex_defined_K_module (VALUE.ref 2) "K" (VALUE.ref 4) =
      Except.ok (VALUE.ref 8, ex_defined_K_module) :=
  rb_define_class_under_absent_super_not_idempotent.1 6 ex_base ex_defined_K_module
    (VALUE.ref 2) "K" (VALUE.ref 4) (VALUE.ref 8) (by decide) (by decide) (by decide)
    (by decide) (by decide)

/-! ### Method enumeration (C17) -/

theorem rb_scan_args_01 (arg : VALUE) :
    rb_scan_args VALUE.Qnil [arg] "01" = Except.ok (1, [ScanOut.val arg]) := by
  rfl

theorem push_new_append (xs : List String) :
    ∀ (ary ys : List String), push_new ary (xs ++ ys) = push_new (push_new ary xs) ys := by
  induction xs with
  | nil => intro ary ys; rfl
  | cons x xs ih =>
    intro ary ys
    simp only [List.cons_append, push_new]
    split
    · exact ih _ _
    · exact ih _ _

theorem push_new_prefix (xs : List String) : ∀ ary : List String, ary <+: push_new ary xs := by
  induction xs with
  | nil => intro ary; exact List.prefix_refl _
  | cons x xs ih =>
    intro ary
    simp only [push_new]
    split
    · exact List.IsPrefix.trans (List.prefix_append ary [x]) (ih _)
    · exact ih _

theorem push_new_nodup (xs : List String) :
    ∀ ary : List String, ary.Nodup → (push_new ary xs).Nodup := by
  induction xs with
  | nil => intro ary h; exact h
  | cons x xs ih =>
    intro ary h
    simp only [push_new]
    split
    · rename_i hx
      apply ih
      rw [List.nodup_append]
      refine ⟨h, List.nodup_singleton x, ?_⟩
      intro a ha hb
      simp only [List.mem_singleton] at hb
      subst hb
      simp at hx
      exact hx ha
    · exact ih _ h

theorem push_new_mem (xs : List String) :
    ∀ (ary : List String) (x : String), x ∈ push_new ary xs ↔ x ∈ ary ∨ x ∈ xs := by
  induction xs with
  | nil => intro ary x; simp [push_new]
  | cons y xs ih =>
    intro ary x
    simp only [push_new]
    split
    · rw [ih]
      simp only [List.mem_append, List.mem_singleton, List.mem_cons]
      tauto
    · rename_i hy
      rw [ih]
      simp only [List.mem_cons]
      have hy2 : y ∈ ary := by simpa using hy
      constructor
      · rintro (h | h)
        · exact Or.inl h
        · exact Or.inr (Or.inr h)
      · rintro (h | h | h)
        · exact Or.inl h
        · exact Or.inl (h ▸ hy2)
        · exact Or.inr h

/-- The loop of `rb_objc_push_methods` pushes the listed names, each only if
it is not in the array yet. -/
theorem rb_objc_push_methods_loop_eq (s : State) (ms : List Method) :
    ∀ ary : List String, rb_objc_push_methods_loop s ary ms =
      match listed_names s ms with
      | Except.error e => Except.error e
      | Except.ok l => Except.ok (push_new ary l) := by
  induction ms with
  | nil => intro ary; rfl
  | cons m ms ih =>
    intro ary
    unfold rb_objc_push_methods_loop listed_names
    simp only
    split
    · exact ih ary
    · split
      · exact ih ary
      · cases hn : rb_objc_push_methods_name m.sel with
        | error e => rfl
        | ok sym =>
          simp only
          split
          · rw [ih]
            cases hl : listed_names s ms with
            | error e => rfl
            | ok l =>
              simp only [push_new]
              rename_i hc
              rw [if_pos hc]
          · rw [ih]
            cases hl : listed_names s ms with
            | error e => rfl
            | ok l =>
              simp only [push_new]
              rename_i hc
              rw [if_neg hc]

theorem rb_objc_push_methods_eq (s : State) (ary : List String) (mod : VALUE) :
    rb_objc_push_methods s ary mod =
      match listed_names s (class_copyMethodList s mod) with
      | Except.error e => Except.error e
      | Except.ok l => Except.ok (push_new ary l) :=
  rb_objc_push_methods_loop_eq s _ ary

theorem listed_names_mem (s : State) (ms : List Method) :
    ∀ (l : List String), listed_names s ms = Except.ok l →
      ∀ x ∈ l, ∃ m ∈ ms, rb_objc_push_methods_name m.sel = Except.ok x := by
  induction ms with
  | nil =>
    intro l h x hx
    simp only [listed_names, Except.ok.injEq] at h
    subst h
    simp at hx
  | cons m ms ih =>
    intro l h x hx
    unfold listed_names at h
    split at h
    · obtain ⟨m1, hm1, hn⟩ := ih l h x hx
      exact ⟨m1, List.mem_cons_of_mem _ hm1, hn⟩
    · split at h
      · obtain ⟨m1, hm1, hn⟩ := ih l h x hx
        exact ⟨m1, List.mem_cons_of_mem _ hm1, hn⟩
      · cases hn : rb_objc_push_methods_name m.sel with
        | error e => simp [hn] at h
        | ok sym =>
          cases hl : listed_names s ms with
          | error e => simp [hn, hl] at h
          | ok l1 =>
            simp only [hn, hl, Except.ok.injEq] at h
            subst h
            rcases List.mem_cons.1 hx with h1 | h1
            · exact ⟨m, List.mem_cons_self _ _, by rw [hn, h1]⟩
            · obtain ⟨m1, hm1, hn1⟩ := ih l1 hl x h1
              exact ⟨m1, List.mem_cons_of_mem _ hm1, hn1⟩

/-- The recursive walk of `class_instance_method_list` pushes the listed
names of every class on the chain, in chain order. -/
theorem class_instance_method_list_loop_eq (s : State) :
    ∀ (n fuel : Nat) (mod : VALUE) (ary : List String),
      (class_chain s n mod).length < n → n ≤ fuel →
      class_instance_method_list_loop s true fuel mod ary =
        match listed_names_of_classes s (class_chain s n mod) with
        | Except.error e => Except.error e
        | Except.ok l => Except.ok (push_new ary l) := by
  intro n
  induction n with
  | zero => intro fuel mod ary h; simp at h
  | succ n ih =>
    intro fuel mod ary hlen hfuel
    obtain ⟨fuel, rfl⟩ : ∃ k, fuel = k + 1 := ⟨fuel - 1, by omega⟩
    unfold class_instance_method_list_loop
    by_cases hc : mod = NULL
    · rw [if_pos hc, hc, class_chain_null]
      rfl
    · rw [if_neg hc, class_chain_succ, if_neg hc]
      rw [class_chain_succ, if_neg hc] at hlen
      simp only [List.length_cons] at hlen
      rw [rb_objc_push_methods_eq]
      unfold listed_names_of_classes
      cases hl : listed_names s (class_copyMethodList s mod) with
      | error e => rfl
      | ok l =>
        simp only [Bool.true_eq_false, if_false]
        rw [ih fuel _ _ (by omega) (by omega)]
        cases hls : listed_names_of_classes s (class_chain s n (class_getSuperclass s mod)) with
        | error e => rfl
        | ok ls =>
          simp only
          rw [push_new_append]

theorem class_instance_method_list_loop_once (s : State) (fuel : Nat) (mod : VALUE)
    (ary : List String) :
    class_instance_method_list_loop s false (fuel + 1) mod ary =
      match listed_names s (class_copyMethodList s mod) with
      | Except.error e => Except.error e
      | Except.ok l => Except.ok (push_new ary l) := by
  unfold class_instance_method_list_loop
  by_cases hc : mod = NULL
  · rw [if_pos hc, hc]
    rfl
  · rw [if_neg hc, rb_objc_push_methods_eq]
    cases hl : listed_names s (class_copyMethodList s mod) with
    | error e => rfl
    | ok l => rfl

theorem rb_objc_push_methods_loop_nodup (s : State) (ary l : List String) (ms : List Method)
    (h : rb_objc_push_methods_loop s ary ms = Except.ok l) (hn : ary.Nodup) : l.Nodup := by
  rw [rb_objc_push_methods_loop_eq] at h
  cases hl : listed_names s ms with
  | error e => simp [hl] at h
  | ok l1 =>
    simp only [hl, Except.ok.injEq] at h
    subst h
    exact push_new_nodup l1 ary hn

theorem class_instance_method_list_loop_nodup (s : State) (recur : Bool) :
    ∀ (fuel : Nat) (mod : VALUE) (ary l : List String),
      class_instance_method_list_loop s recur fuel mod ary = Except.ok l → ary.Nodup →
      l.Nodup := by
  intro fuel
  induction fuel with
  | zero => intro mod ary l h; simp [class_instance_method_list_loop] at h
  | succ fuel ih =>
    intro mod ary l h hn
    unfold class_instance_method_list_loop at h
    split at h
    · simp only [Except.ok.injEq] at h
      subst h
      exact hn
    · cases hp : rb_objc_push_methods s ary mod with
      | error e => simp [hp] at h
      | ok ary1 =>
        have hn1 := rb_objc_push_methods_loop_nodup s ary ary1 _ hp hn
        simp only [hp] at h
        split at h
        · simp only [Except.ok.injEq] at h
          subst h
          exact hn1
        · exact ih _ _ _ h hn1

theorem class_instance_method_list_args (fuel : Nat) (s : State) (mod : VALUE)
    (func : String → Int → List String → Int × List String) :
    class_instance_method_list fuel s [] mod func =
        class_instance_method_list_loop s true fuel mod [] ∧
    ∀ arg, class_instance_method_list fuel s [arg] mod func =
        class_instance_method_list_loop s (RTEST arg) fuel mod [] := by
  constructor
  · rfl
  · intro arg
    unfold class_instance_method_list
    rw [rb_scan_args_01]
    rfl

/-- Claim C17: method enumeration through `class_instance_method_list`, whatever the
visibility callback, for a class whose superclass chain ends within the fuel.
No result holds a name twice.  With a false (or nil) argument the result is
what the own method list of the class offers, first occurrence winning, so
every name in it comes from a method of that list.  With no argument or a
true argument the result is what the classes of the superclass chain offer,
taken in chain order, first occurrence winning.  The non-recursive result is a
prefix of the recursive one.  On the class with the single method `method2`
the non-recursive enumeration answers exactly that name. -/
theorem class_instance_method_list_enumerates (fuel n : Nat) (s : State) (mod : VALUE)
    (func : String → Int → List String → Int × List String)
    (hlen : (class_chain s n mod).length < n) (hfuel : n ≤ fuel) :
    (∀ argv l, class_instance_method_list fuel s argv mod func = Except.ok l → l.Nodup) ∧
    (∀ arg, RTEST arg = false →
      class_instance_method_list fuel s [arg] mod func =
        match listed_names s (class_copyMethodList s mod) with
        | Except.error e => Except.error e
        | Except.ok l => Except.ok (push_new [] l)) ∧
    (∀ arg l, RTEST arg = false →
      class_instance_method_list fuel s [arg] mod func = Except.ok l →
      ∀ x ∈ l, ∃ m ∈ class_copyMethodList s mod, rb_objc_push_methods_name m.sel = Except.ok x) ∧
    (class_instance_method_list fuel s [] mod func =
      match listed_names_of_classes s (class_chain s n mod) with
      | Except.error e => Except.error e
      | Except.ok l => Except.ok (push_new [] l)) ∧
    (∀ arg, RTEST arg = true →
      class_instance_method_list fuel s [arg] mod func =
        class_instance_method_list fuel s [] mod func) ∧
    (∀ arg l0 l1, RTEST arg = false →
      class_instance_method_list fuel s [arg] mod func = Except.ok l0 →
      class_instance_method_list fuel s [] mod func = Except.ok l1 → l0 <+: l1) ∧
    rb_class_instance_methods 5 ex_method2 [VALUE.Qfalse] (VALUE.ref 8) =
      Except.ok ["method2"] := by
  obtain ⟨hno, hone⟩ := class_instance_method_list_args fuel s mod func
  obtain ⟨f, rfl⟩ : ∃ k, fuel = k + 1 := ⟨fuel - 1, by
    cases n with
    | zero => simp at hlen
    | succ n => omega⟩
  have hrec := class_instance_method_list_loop_eq s n (f + 1) mod [] hlen hfuel
  have hnonrec : ∀ arg, RTEST arg = false →
      class_instance_method_list (f + 1) s [arg] mod func =
        match listed_names s (class_copyMethodList s mod) with
        | Except.error e => Except.error e
        | Except.ok l => Except.ok (push_new [] l) := by
    intro arg ha
    rw [hone, ha, class_instance_method_list_loop_once]
  refine ⟨?_, hnonrec, ?_, hno.trans hrec, ?_, ?_, by decide⟩
  · intro argv l h
    unfold class_instance_method_list at h
    split at h
    · simp at h
    · rename_i recur _
      exact class_instance_method_list_loop_nodup s recur _ _ _ _ h List.nodup_nil
  · intro arg l ha h x hx
    rw [hnonrec arg ha] at h
    cases hl : listed_names s (class_copyMethodList s mod) with
    | error e => simp [hl] at h
    | ok l1 =>
      simp only [hl, Except.ok.injEq] at h
      subst h
      rw [push_new_mem] at hx
      rcases hx with hx | hx
      · simp at hx
      · exact listed_names_mem s _ l1 hl x hx
  · intro arg ha
    rw [hone, ha, hno]
  · intro arg l0 l1 ha h0 h1
    rw [hnonrec arg ha] at h0
    rw [hno, hrec] at h1
    by_cases hc : mod = NULL
    · have : class_copyMethodList s mod = [] := by rw [hc]; rfl
      rw [this] at h0
      simp only [listed_names, push_new, Except.ok.injEq] at h0
      rw [← h0]
      exact List.nil_prefix
    · obtain ⟨n, rfl⟩ : ∃ k, n = k + 1 := ⟨n - 1, by
        cases n with
        | zero => simp at hlen
        | succ n => rfl⟩
      rw [class_chain_succ, if_neg hc] at h1
      unfold listed_names_of_classes at h1
      cases hl : listed_names s (class_copyMethodList s mod) with
      | error e => simp [hl] at h0
      | ok l =>
        simp only [hl, Except.ok.injEq] at h0 h1
        cases hls : listed_names_of_classes s (class_chain s n (class_getSuperclass s mod)) with
        | error e => simp [hls] at h1
        | ok ls =>
          simp only [hls, Except.ok.injEq] at h1
          rw [← h0, ← h1, push_new_append]
          exact push_new_prefix ls _

theorem class_instance_method_list_enumerates_witness :
    rb_class_instance_methods 5 ex_method2 [] (VALUE.ref 8) =
      match listed_names_of_classes ex_method2 (class_chain ex_method2 5 (VALUE.ref 8)) with
      | Except.error e => Except.error e
      | Except.ok l => Except.ok (push_new [] l) :=
  (class_instance_method_list_enumerates 5 5 ex_method2 (VALUE.ref 8) ins_methods_i
    (by decide) (by decide)).2.2.2.1

/-! ### Singleton method enumeration (C18) -/

theorem rb_obj_singleton_methods_args (fuel : Nat) (s : State) (obj : VALUE) :
    rb_obj_singleton_methods fuel s [] obj =
        rb_obj_singleton_methods_loop s VALUE.Qtrue fuel (CLASS_OF s obj) [] ∧
    ∀ arg, rb_obj_singleton_methods fuel s [arg] obj =
        rb_obj_singleton_methods_loop s arg fuel (CLASS_OF s obj) [] := by
  constructor
  · rfl
  · intro arg
    unfold rb_obj_singleton_methods
    rw [rb_scan_args_01]
    rfl

/-- The recursive walk of `rb_obj_singleton_methods` pushes the listed names
of the singleton classes on the chain, in chain order. -/
theorem rb_obj_singleton_methods_loop_eq (s : State) :
    ∀ (n fuel : Nat) (klass : VALUE) (ary : List String),
      (class_chain s n klass).length < n → n ≤ fuel →
      rb_obj_singleton_methods_loop s VALUE.Qtrue fuel klass ary =
        match listed_names_of_classes s
          ((class_chain s n klass).filter (fun c => RCLASS_SINGLETON s c)) with
        | Except.error e => Except.error e
        | Except.ok l => Except.ok (push_new ary l) := by
  intro n
  induction n with
  | zero => intro fuel klass ary h; simp at h
  | succ n ih =>
    intro fuel klass ary hlen hfuel
    obtain ⟨fuel, rfl⟩ : ∃ k, fuel = k + 1 := ⟨fuel - 1, by omega⟩
    unfold rb_obj_singleton_methods_loop
    by_cases hc : klass = NULL
    · subst hc
      have h1 : RCLASS_SINGLETON s NULL = false := rfl
      have h2 : RCLASS_SUPER s NULL = NULL := rfl
      rw [class_chain_null]
      simp [h1, h2, listed_names_of_classes, push_new]
    · rw [class_chain_succ, if_neg hc] at hlen ⊢
      simp only [List.length_cons, class_getSuperclass] at hlen
      simp only [class_getSuperclass]
      have hnext : ∀ ary1 : List String,
          (if True ∧ RCLASS_SUPER s klass ≠ NULL then
            rb_obj_singleton_methods_loop s VALUE.Qtrue fuel (RCLASS_SUPER s klass) ary1
          else Except.ok ary1) =
          match listed_names_of_classes s
            ((class_chain s n (RCLASS_SUPER s klass)).filter (fun c => RCLASS_SINGLETON s c)) with
          | Except.error e => Except.error e
          | Except.ok l => Except.ok (push_new ary1 l) := by
        intro ary1
        by_cases hs : RCLASS_SUPER s klass = NULL
        · rw [if_neg (by simp [hs]), hs, class_chain_null]
          rfl
        · rw [if_pos ⟨trivial, hs⟩]
          exact ih fuel _ _ (by omega) (by omega)
      by_cases hsing : RCLASS_SINGLETON s klass = true
      · rw [if_pos hsing, rb_objc_push_methods_eq, List.filter_cons_of_pos (by simpa using hsing)]
        unfold listed_names_of_classes
        cases hl : listed_names s (class_copyMethodList s klass) with
        | error e => rfl
        | ok l =>
          simp only
          rw [hnext]
          cases hls : listed_names_of_classes s
            ((class_chain s n (RCLASS_SUPER s klass)).filter (fun c => RCLASS_SINGLETON s c)) with
          | error e => rfl
          | ok ls =>
            simp only
            rw [push_new_append]
      · rw [if_neg hsing, List.filter_cons_of_neg (by simpa using hsing)]
        simp only
        rw [hnext]

theorem rb_obj_singleton_methods_loop_once (s : State) (fuel : Nat) (recur klass : VALUE)
    (ary : List String) (hr : recur ≠ VALUE.Qtrue) :
    rb_obj_singleton_methods_loop s recur (fuel + 1) klass ary =
      if RCLASS_SINGLETON s klass = true then
        match listed_names s (class_copyMethodList s klass) with
        | Except.error e => Except.error e
        | Except.ok l => Except.ok (push_new ary l)
      else Except.ok ary := by
  unfold rb_obj_singleton_methods_loop
  by_cases hsing : RCLASS_SINGLETON s klass = true
  · rw [if_pos hsing, if_pos hsing, rb_objc_push_methods_eq]
    cases hl : listed_names s (class_copyMethodList s klass) with
    | error e => rfl
    | ok l =>
      simp only
      rw [if_neg (by simp [hr])]
  · rw [if_neg hsing, if_neg hsing]
    simp only
    rw [if_neg (by simp [hr])]

/-- Claim C18: `rb_obj_singleton_methods` for an object whose class chain ends
within the fuel.  With no argument or the argument true, the result is what
the classes tagged is-singleton on the chain from the effective class of the
object offer, taken in chain order (first occurrence winning); classes on the
chain that are not singleton classes contribute nothing.  With any other
argument only the effective class is examined: the result is what its own
method list offers when it is a singleton class, and the empty list when it
is not. -/
theorem rb_obj_singleton_methods_levels (fuel n : Nat) (s : State) (obj : VALUE)
    (hlen : (class_chain s n (CLASS_OF s obj)).length < n) (hfuel : n ≤ fuel) :
    (rb_obj_singleton_methods fuel s [] obj =
      match listed_names_of_classes s
        ((class_chain s n (CLASS_OF s obj)).filter (fun c => RCLASS_SINGLETON s c)) with
      | Except.error e => Except.error e
      | Except.ok l => Except.ok (push_new [] l)) ∧
    rb_obj_singleton_methods fuel s [VALUE.Qtrue] obj = rb_obj_singleton_methods fuel s [] obj ∧
    (∀ arg, arg ≠ VALUE.Qtrue → RCLASS_SINGLETON s (CLASS_OF s obj) = true →
      rb_obj_singleton_methods fuel s [arg] obj =
        match listed_names s (class_copyMethodList s (CLASS_OF s obj)) with
        | Except.error e => Except.error e
        | Except.ok l => Except.ok (push_new [] l)) ∧
    (∀ arg, arg ≠ VALUE.Qtrue → RCLASS_SINGLETON s (CLASS_OF s obj) = false →
      rb_obj_singleton_methods fuel s [arg] obj = Except.ok []) := by
  obtain ⟨hno, hone⟩ := rb_obj_singleton_methods_args fuel s obj
  obtain ⟨f, rfl⟩ : ∃ k, fuel = k + 1 := ⟨fuel - 1, by
    cases n with
    | zero => simp at hlen
    | succ n => omega⟩
  refine ⟨?_, ?_, ?_, ?_⟩
  · rw [hno]
    exact rb_obj_singleton_methods_loop_eq s n (f + 1) _ [] hlen hfuel
  · rw [hno, hone]
  · intro arg ha hs
    rw [hone, rb_obj_singleton_methods_loop_once s f arg _ [] ha, if_pos hs]
  · intro arg ha hs
    rw [hone, rb_obj_singleton_methods_loop_once s f arg _ [] ha, if_neg (by simp [hs])]

theorem rb_obj_singleton_methods_levels_witness :
    (rb_obj_singleton_methods 5 ex_singleton_methods [] (VALUE.ref 10) =
      match listed_names_of_classes ex_singleton_methods
        ((class_chain ex_singleton_methods 5 (CLASS_OF ex_singleton_methods (VALUE.ref 10))).filter
          (fun c => RCLASS_SINGLETON ex_singleton_methods c)) with
      | Except.error e => Except.error e
      | Except.ok l => Except.ok (push_new [] l)) ∧
    rb_obj_singleton_methods 5 ex_singleton_methods [] (VALUE.ref 10) = Except.ok ["one"] ∧
    listed_names_of_classes ex_singleton_methods
      (class_chain ex_singleton_methods 5 (CLASS_OF ex_singleton_methods (VALUE.ref 10))) =
      Except.ok ["one", "two"] :=
  ⟨(rb_obj_singleton_methods_levels 5 5 ex_singleton_methods (VALUE.ref 10) (by decide)
    (by decide)).1, by decide, by decide⟩

/-! ### Singleton class clone: the copy loop -/

theorem class_getInstanceMethod_mono (s : State) (S : String) :
    ∀ (fuel : Nat) (c : VALUE) (r : Option MethodRef),
      class_getInstanceMethod fuel s c S = Except.ok r →
      class_getInstanceMethod (fuel + 1) s c S = Except.ok r := by
  intro fuel
  induction fuel with
  | zero => intro c r h; simp [class_getInstanceMethod] at h
  | succ fuel ih =>
    intro c r h
    rw [class_getInstanceMethod] at h ⊢
    cases hd : deref s c with
    | none => simpa [hd] using h
    | some o =>
      simp only [hd] at h ⊢
      split
      · rename_i ha; simpa [ha] using h
      · rename_i ha
        rw [if_neg ha] at h
        exact ih _ _ h

theorem class_getInstanceMethod_total (s : State) (S : String) :
    ∀ (n fuel : Nat) (c : VALUE), (class_chain s n c).length < n → n ≤ fuel →
      ∃ r, class_getInstanceMethod fuel s c S = Except.ok r := by
  intro n
  induction n with
  | zero => intro fuel c h; simp at h
  | succ n ih =>
    intro fuel c hlen hfuel
    obtain ⟨fuel, rfl⟩ : ∃ k, fuel = k + 1 := ⟨fuel - 1, by omega⟩
    rw [class_getInstanceMethod]
    cases hd : deref s c with
    | none => exact ⟨_, rfl⟩
    | some o =>
      simp only
      split
      · exact ⟨_, rfl⟩
      · have hc : c ≠ NULL := by
          intro h0; rw [h0] at hd; simp [deref, NULL] at hd
        rw [class_chain_succ, if_neg hc] at hlen
        simp only [List.length_cons, class_getSuperclass, RCLASS_SUPER, hd] at hlen
        exact ih fuel o.super (by omega) (by omega)

theorem class_getInstanceMethod_owner (s : State) (S : String) :
    ∀ (fuel : Nat) (c : VALUE) (r : MethodRef),
      class_getInstanceMethod fuel s c S = Except.ok (some r) →
      ∀ n, (class_chain s n c).length < n → r.owner ∈ class_chain s n c := by
  intro fuel
  induction fuel with
  | zero => intro c r h; simp [class_getInstanceMethod] at h
  | succ fuel ih =>
    intro c r h n hlen
    rw [class_getInstanceMethod] at h
    cases hd : deref s c with
    | none => simp [hd] at h
    | some o =>
      have hc : c ≠ NULL := by
        intro h0; rw [h0] at hd; simp [deref, NULL] at hd
      obtain ⟨n, rfl⟩ : ∃ k, n = k + 1 := ⟨n - 1, by
        cases n with
        | zero => simp at hlen
        | succ n => rfl⟩
      rw [class_chain_succ, if_neg hc] at hlen ⊢
      simp only [List.length_cons, class_getSuperclass, RCLASS_SUPER, hd] at hlen ⊢
      simp only [hd] at h
      split at h
      · simp only [Except.ok.injEq, Option.some.injEq] at h
        rw [← h]
        exact List.mem_cons_self _ _
      · exact List.mem_cons_of_mem _ (ih _ _ h n (by omega))

theorem own_imp_none_iff (s : State) (c : VALUE) (S : String) (o : RObject)
    (hd : deref s c = some o) :
    own_imp s c S = none ↔ o.methods.any (fun m => decide (m.sel = S)) = false := by
  rw [any_sel_eq_false_iff]
  unfold own_imp class_copyMethodList
  rw [hd]
  cases hf : o.methods.find? (fun m => m.sel = S) with
  | none => simp
  | some m => simp

theorem class_getInstanceMethod_not_own (fuel : Nat) (s : State) (c : VALUE) (S : String)
    (o : RObject) (hd : deref s c = some o) (hn : own_imp s c S = none) :
    class_getInstanceMethod (fuel + 1) s c S = class_getInstanceMethod fuel s o.super S := by
  rw [class_getInstanceMethod]
  simp only [hd]
  rw [if_neg (by rw [(own_imp_none_iff s c S o hd).1 hn]; simp)]

theorem class_addMethod_new (s : State) (c : VALUE) (sel : String) (imp : IMP) (types : String)
    (o : RObject) (hd : deref s c = some o) (hn : own_imp s c sel = none) :
    ∃ s1, class_addMethod s c sel imp types = (true, s1) ∧ own_imp s1 c sel = some imp ∧
      ∀ S, S ≠ sel → own_imp s1 c S = own_imp s c S := by
  unfold class_addMethod
  simp only [hd]
  rw [if_neg (by rw [(own_imp_none_iff s c sel o hd).1 hn]; simp)]
  refine ⟨_, rfl, ?_, ?_⟩
  · unfold own_imp class_copyMethodList
    rw [deref_modify]
    simp [hd]
  · intro S hS
    unfold own_imp class_copyMethodList
    rw [deref_modify]
    simp [hd, List.find?_cons, Ne.symm hS]

theorem class_addMethod_true (s s1 : State) (c : VALUE) (sel : String) (imp : IMP)
    (types : String) (h : class_addMethod s c sel imp types = (true, s1)) :
    own_imp s1 c sel = some imp ∧ ∀ S, S ≠ sel → own_imp s1 c S = own_imp s c S := by
  cases hd : deref s c with
  | none => simp [class_addMethod, hd] at h
  | some o =>
    by_cases hn : own_imp s c sel = none
    · obtain ⟨s2, h2, h3, h4⟩ := class_addMethod_new s c sel imp types o hd hn
      rw [h2] at h
      simp only [Prod.mk.injEq, true_and] at h
      subst h
      exact ⟨h3, h4⟩
    · exfalso
      unfold class_addMethod at h
      simp only [hd] at h
      have hany : o.methods.any (fun m => decide (m.sel = sel)) = true := by
        cases hb : o.methods.any (fun m => decide (m.sel = sel)) with
        | true => rfl
        | false => exact absurd ((own_imp_none_iff s c sel o hd).2 hb) hn
      rw [if_pos hany] at h
      simp at h

/-- The copy loop of `rb_singleton_class_clone` changes method lists only. -/
theorem rb_singleton_class_clone_methods_frame (fuel : Nat) (C : VALUE) :
    ∀ (ms : List Method) (s s1 : State),
      rb_singleton_class_clone_methods fuel s C ms = Except.ok ((), s1) →
      same_but_methods s s1 := by
  intro ms
  induction ms with
  | nil =>
    intro s s1 h
    simp [rb_singleton_class_clone_methods] at h
    subst h; exact same_but_methods_refl s
  | cons method rest ih =>
    intro s s1 h
    unfold rb_singleton_class_clone_methods at h
    cases h1 : class_getInstanceMethod fuel s C method.sel with
    | error e => simp [h1] at h
    | ok method2 =>
      simp only [h1] at h
      cases h2 : class_getInstanceMethod fuel s (RCLASS_SUPER s C) method.sel with
      | error e => simp [h2] at h
      | ok inherited =>
        simp only [h2] at h
        split at h
        · cases method2 with
          | none => exact ih _ _ h
          | some m2 =>
            simp only at h
            have hm : same_but_methods s (method_setImplementation s m2 method.imp) :=
              same_but_methods_modify s m2.owner _ (fun o => rfl)
            exact same_but_methods_trans hm (ih _ _ h)
        · cases ha : class_addMethod s C method.sel method.imp method.types with
          | mk b s2 =>
            simp only [ha] at h
            cases b with
            | false => simp at h
            | true =>
              exact same_but_methods_trans
                (same_but_methods_addMethod s s2 C _ _ _ true ha) (ih _ _ h)

theorem same_but_methods_deref {s s1 : State} (h : same_but_methods s s1) (w : VALUE)
    (o : RObject) (hd : deref s w = some o) :
    ∃ o1, deref s1 w = some o1 ∧ o1.super = o.super ∧ o1.version = o.version ∧
      o1.klass = o.klass ∧ o1.is_class = o.is_class := by
  have hw := h.1 w
  rw [hd] at hw
  cases h1 : deref s1 w with
  | none => simp [h1] at hw
  | some o1 =>
    simp only [h1, Option.map_some', Option.some.injEq] at hw
    have e1 := congrArg RObject.super hw
    have e2 := congrArg RObject.version hw
    have e3 := congrArg RObject.klass hw
    have e4 := congrArg RObject.is_class hw
    exact ⟨o1, rfl, e1, e2, e3, e4⟩

theorem same_but_methods_super {s s1 : State} (h : same_but_methods s s1) (w : VALUE) :
    RCLASS_SUPER s1 w = RCLASS_SUPER s w ∧ RCLASS_VERSION s1 w = RCLASS_VERSION s w ∧
    RBASIC_klass s1 w = RBASIC_klass s w := by
  have hw := h.1 w
  unfold RCLASS_SUPER RCLASS_VERSION RBASIC_klass
  cases h0 : deref s w with
  | none =>
    rw [h0] at hw
    cases h1 : deref s1 w with
    | none => exact ⟨rfl, rfl, rfl⟩
    | some o1 => simp [h1] at hw
  | some o =>
    obtain ⟨o1, ho1, h2, h3, h4, _⟩ := same_but_methods_deref h w o h0
    rw [ho1]
    exact ⟨h2, h3, h4⟩

theorem same_but_methods_chain {s s1 : State} (h : same_but_methods s s1) :
    ∀ (n : Nat) (c : VALUE), class_chain s1 n c = class_chain s n c := by
  intro n
  induction n with
  | zero => intro c; rfl
  | succ n ih =>
    intro c
    rw [class_chain_succ, class_chain_succ]
    simp only [class_getSuperclass]
    rw [(same_but_methods_super h c).1, ih]

theorem last_imp_opt_cons (S : String) (init : Option IMP) (m : Method) (ms : List Method) :
    last_imp_opt S init (m :: ms) =
      last_imp_opt S (if m.sel = S then some m.imp else init) ms := rfl

/-- What the copy loop of `rb_singleton_class_clone` leaves in the own method
list of the clone, selector by selector. -/
theorem rb_singleton_class_clone_methods_own (fuel : Nat) (C : VALUE) (S : String) :
    ∀ (ms : List Method) (s s1 : State), (deref s C).isSome = true →
      rb_singleton_class_clone_methods fuel s C ms = Except.ok ((), s1) →
      own_imp s1 C S = last_imp_opt S (own_imp s C S) ms := by
  intro ms
  induction ms with
  | nil =>
    intro s s1 _ h
    simp [rb_singleton_class_clone_methods] at h
    subst h; rfl
  | cons method rest ih =>
    intro s s1 hv h
    obtain ⟨o, hd⟩ := Option.isSome_iff_exists.1 hv
    rw [last_imp_opt_cons]
    unfold rb_singleton_class_clone_methods at h
    cases h1 : class_getInstanceMethod fuel s C method.sel with
    | error e => simp [h1] at h
    | ok method2 =>
      simp only [h1] at h
      cases h2 : class_getInstanceMethod fuel s (RCLASS_SUPER s C) method.sel with
      | error e => simp [h2] at h
      | ok inherited =>
        simp only [h2] at h
        have hsup : RCLASS_SUPER s C = o.super := by unfold RCLASS_SUPER; rw [hd]
        -- the lookup from the class differs from the inherited one only when the class owns
        have hown : method2 ≠ inherited →
            method2 = some { owner := C, sel := method.sel } ∧
              ∃ i, own_imp s C method.sel = some i := by
          intro hne
          cases ho : own_imp s C method.sel with
          | some i => exact ⟨class_getInstanceMethod_own fuel s C _ i _ ho h1, i, rfl⟩
          | none =>
            exfalso
            cases fuel with
            | zero => simp [class_getInstanceMethod] at h1
            | succ f =>
              rw [class_getInstanceMethod_not_own f s C _ o hd ho] at h1
              have := class_getInstanceMethod_mono s _ f _ _ h1
              rw [hsup, this] at h2
              simp only [Except.ok.injEq] at h2
              exact hne h2
        split at h
        · rename_i hne
          obtain ⟨hm2, i, hi⟩ := hown hne
          subst hm2
          simp only at h
          have hv2 : (deref (method_setImplementation s { owner := C, sel := method.sel }
              method.imp) C).isSome = true := by
            unfold method_setImplementation
            rw [deref_modify]
            simp [hd]
          rw [ih _ _ hv2 h]
          by_cases hS : method.sel = S
          · subst hS
            rw [if_pos rfl, own_imp_setImplementation_eq s C _ method.imp i hi]
          · rw [if_neg hS, own_imp_setImplementation_ne s C S _ method.imp hS]
        · cases ha : class_addMethod s C method.sel method.imp method.types with
          | mk b s2 =>
            simp only [ha] at h
            cases b with
            | false => simp at h
            | true =>
              simp only at h
              obtain ⟨hnew, hother⟩ := class_addMethod_true s s2 C _ _ _ ha
              have hfr := same_but_methods_addMethod s s2 C _ _ _ true ha
              obtain ⟨o2, ho2, _⟩ := same_but_methods_deref hfr C o hd
              rw [ih _ _ (by rw [ho2]; rfl) h]
              by_cases hS : method.sel = S
              · subst hS
                rw [if_pos rfl, hnew]
              · rw [if_neg hS, hother S (Ne.symm hS)]

/-- The copy loop of `rb_singleton_class_clone` returns when the clone is a
valid record whose superclass chain ends within the fuel and does not come
back to the clone. -/
theorem rb_singleton_class_clone_methods_total (fuel n : Nat) (C : VALUE) :
    ∀ (ms : List Method) (s : State), (deref s C).isSome = true →
      (class_chain s n (RCLASS_SUPER s C)).length < n → n + 1 ≤ fuel →
      C ∉ class_chain s n (RCLASS_SUPER s C) →
      ∃ s1, rb_singleton_class_clone_methods fuel s C ms = Except.ok ((), s1) := by
  intro ms
  induction ms with
  | nil => intro s _ _ _ _; exact ⟨s, rfl⟩
  | cons method rest ih =>
    intro s hv hlen hfuel hnot
    obtain ⟨o, hd⟩ := Option.isSome_iff_exists.1 hv
    have hC : C ≠ NULL := by
      intro h0; rw [h0] at hd; simp [deref, NULL] at hd
    have hlenC : (class_chain s (n + 1) C).length < n + 1 := by
      rw [class_chain_succ, if_neg hC]
      simp only [List.length_cons, class_getSuperclass]
      omega
    obtain ⟨method2, h1⟩ := class_getInstanceMethod_total s method.sel (n + 1) fuel C hlenC hfuel
    obtain ⟨inherited, h2⟩ := class_getInstanceMethod_total s method.sel n fuel
      (RCLASS_SUPER s C) hlen (by omega)
    have hnext : ∀ s2, same_but_methods s s2 →
        ∃ s1, rb_singleton_class_clone_methods fuel s2 C rest = Except.ok ((), s1) := by
      intro s2 hfr
      obtain ⟨o2, ho2, _⟩ := same_but_methods_deref hfr C o hd
      apply ih s2 (by rw [ho2]; rfl)
      · rw [(same_but_methods_super hfr C).1, same_but_methods_chain hfr]; exact hlen
      · exact hfuel
      · rw [(same_but_methods_super hfr C).1, same_but_methods_chain hfr]; exact hnot
    unfold rb_singleton_class_clone_methods
    simp only [h1, h2]
    split
    · cases method2 with
      | none => exact hnext s (same_but_methods_refl s)
      | some m2 =>
        have hm : same_but_methods s (method_setImplementation s m2 method.imp) :=
          same_but_methods_modify s m2.owner _ (fun o => rfl)
        exact hnext _ hm
    · rename_i heq
      have heq2 : method2 = inherited := by
        by_contra hne; exact heq hne
      have hno : own_imp s C method.sel = none := by
        cases ho : own_imp s C method.sel with
        | none => rfl
        | some i =>
          exfalso
          have hm := class_getInstanceMethod_own fuel s C _ i _ ho h1
          rw [heq2] at hm
          rw [hm] at h2
          have := class_getInstanceMethod_owner s _ fuel _ _ h2 n hlen
          exact hnot this
      obtain ⟨s2, ha, _, _⟩ := class_addMethod_new s C method.sel method.imp method.types o hd hno
      rw [ha]
      exact hnext s2 (same_but_methods_addMethod s s2 C _ _ _ true ha)

/-! ### Singleton class clone (C14) -/

theorem last_imp_opt_of_not_mem (S : String) :
    ∀ (ms : List Method) (init : Option IMP), (∀ m ∈ ms, m.sel ≠ S) →
      last_imp_opt S init ms = init := by
  intro ms
  induction ms with
  | nil => intro init _; rfl
  | cons m ms ih =>
    intro init h
    rw [last_imp_opt_cons, if_neg (h m (List.mem_cons_self _ _))]
    exact ih init (fun x hx => h x (List.mem_cons_of_mem _ hx))

theorem last_imp_opt_spec (S : String) :
    ∀ (ms : List Method) (init : Option IMP), (ms.map Method.sel).Nodup →
      last_imp_opt S init ms =
        match ms.find? (fun m => m.sel = S) with
        | some m => some m.imp
        | none => init := by
  intro ms
  induction ms with
  | nil => intro init _; rfl
  | cons m ms ih =>
    intro init hnd
    simp only [List.map_cons, List.nodup_cons, List.mem_map, not_exists, not_and] at hnd
    rw [last_imp_opt_cons]
    by_cases hm : m.sel = S
    · rw [if_pos hm, List.find?_cons_of_pos _ (by simpa using hm)]
      exact last_imp_opt_of_not_mem S ms _ (fun x hx hxs => hnd.1 x hx (hxs.trans hm.symm))
    · rw [if_neg hm, List.find?_cons_of_neg _ (by simpa using hm)]
      exact ih init hnd.2

theorem own_imp_eq_find (s : State) (c : VALUE) (S : String) (o : RObject)
    (hd : deref s c = some o) :
    own_imp s c S =
      match o.methods.find? (fun m => m.sel = S) with
      | some m => some m.imp
      | none => none := by
  cases hf : o.methods.find? (fun m => m.sel = S) with
  | none => simp [own_imp, class_copyMethodList, hd, hf]
  | some m => simp [own_imp, class_copyMethodList, hd, hf]

/-- An update that keeps method lists and superclasses is not seen by method
lookup. -/
theorem modify_obs (s : State) (v : VALUE) (f : RObject → RObject)
    (hf : ∀ o, (f o).methods = o.methods ∧ (f o).super = o.super) :
    (∀ c, RCLASS_SUPER (modify s v f) c = RCLASS_SUPER s c) ∧
    (∀ c S, own_imp (modify s v f) c S = own_imp s c S) ∧
    (∀ w, (deref (modify s v f) w).isSome = (deref s w).isSome) := by
  refine ⟨fun c => ?_, fun c S => ?_, fun w => ?_⟩
  · unfold RCLASS_SUPER
    rw [deref_modify]
    by_cases hc : c = v
    · subst hc
      cases hd : deref s c with
      | none => simp
      | some o => simp [(hf o).2]
    · simp [hc]
  · unfold own_imp class_copyMethodList
    rw [deref_modify]
    by_cases hc : c = v
    · subst hc
      cases hd : deref s c with
      | none => simp
      | some o => simp [(hf o).1]
    · simp [hc]
  · rw [deref_modify]
    by_cases hc : w = v
    · subst hc
      cases hd : deref s w with
      | none => simp
      | some o => simp
    · simp [hc]

/-- The end of `rb_singleton_class_clone` tags the clone is-singleton and
touches neither superclasses nor method lists. -/
theorem rb_singleton_class_clone_finish_obs (s : State) (clone : VALUE) (o : RObject)
    (hd : deref s clone = some o) :
    RCLASS_SINGLETON (rb_singleton_class_clone_finish s clone) clone = true ∧
    (∀ c, RCLASS_SUPER (rb_singleton_class_clone_finish s clone) c = RCLASS_SUPER s c) ∧
    (∀ c S, own_imp (rb_singleton_class_clone_finish s clone) c S = own_imp s c S) ∧
    (deref (rb_singleton_class_clone_finish s clone) clone).isSome = true := by
  have hsome : (deref s clone).isSome = true := by rw [hd]; rfl
  have hA : (∀ c, RCLASS_SUPER (rb_singleton_class_attached s (RBASIC_klass s clone) clone) c
        = RCLASS_SUPER s c) ∧
      (∀ c S, own_imp (rb_singleton_class_attached s (RBASIC_klass s clone) clone) c S
        = own_imp s c S) ∧
      (∀ w, (deref (rb_singleton_class_attached s (RBASIC_klass s clone) clone) w).isSome
        = (deref s w).isSome) := by
    unfold rb_singleton_class_attached
    split
    · unfold rb_ivar_set
      exact modify_obs _ _ _ (fun _ => ⟨rfl, rfl⟩)
    · exact ⟨fun _ => rfl, fun _ _ => rfl, fun _ => rfl⟩
  unfold rb_singleton_class_clone_finish
  simp only
  generalize rb_singleton_class_attached s (RBASIC_klass s clone) clone = sA at hA ⊢
  have hB : (∀ c, RCLASS_SUPER (if RCLASS_SUPER sA clone = sA.rb_cNSObject then
        class_setVersion sA clone ((RCLASS_VERSION sA clone).xor RCLASS_IS_OBJECT_SUBCLASS)
      else sA) c = RCLASS_SUPER s c) ∧
      (∀ c S, own_imp (if RCLASS_SUPER sA clone = sA.rb_cNSObject then
        class_setVersion sA clone ((RCLASS_VERSION sA clone).xor RCLASS_IS_OBJECT_SUBCLASS)
      else sA) c S = own_imp s c S) ∧
      (∀ w, (deref (if RCLASS_SUPER sA clone = sA.rb_cNSObject then
        class_setVersion sA clone ((RCLASS_VERSION sA clone).xor RCLASS_IS_OBJECT_SUBCLASS)
      else sA) w).isSome = (deref s w).isSome) := by
    split
    · unfold class_setVersion
      obtain ⟨h1, h2, h3⟩ := modify_obs sA clone
        (fun o => { o with version := (RCLASS_VERSION sA clone).xor RCLASS_IS_OBJECT_SUBCLASS })
        (fun _ => ⟨rfl, rfl⟩)
      exact ⟨fun c => (h1 c).trans (hA.1 c), fun c S => (h2 c S).trans (hA.2.1 c S),
        fun w => (h3 w).trans (hA.2.2 w)⟩
    · exact hA
  generalize (if RCLASS_SUPER sA clone = sA.rb_cNSObject then
        class_setVersion sA clone ((RCLASS_VERSION sA clone).xor RCLASS_IS_OBJECT_SUBCLASS)
      else sA) = sB at hB ⊢
  obtain ⟨ob, hob⟩ := Option.isSome_iff_exists.1 ((hB.2.2 clone).trans hsome)
  unfold RCLASS_SET_VERSION_FLAG class_setVersion
  obtain ⟨h1, h2, h3⟩ := modify_obs sB clone
    (fun o => { o with version := (RCLASS_VERSION sB clone).or RCLASS_IS_SINGLETON })
    (fun _ => ⟨rfl, rfl⟩)
  refine ⟨?_, fun c => (h1 c).trans (hB.1 c), fun c S => (h2 c S).trans (hB.2.1 c S),
    (h3 clone).trans ((hB.2.2 clone).trans hsome)⟩
  unfold RCLASS_SINGLETON
  simp only [RCLASS_VERSION]
  rw [deref_modify, if_pos rfl, hob]
  simp [Version.or, Version.test]

theorem Pres_of_append (s s1 : State) (l : List RObject) (hs : s1.heap = s.heap ++ l) :
    Pres s s1 :=
  ⟨by rw [hs]; simp, fun v o hv => ⟨o, deref_old s s1 l hs v o hv, rfl, rfl⟩⟩

theorem rb_class_ivar_copy_dict_new (s : State) (h : List RObject) (c m : RObject)
    (klass : VALUE) (hs : s.heap = h ++ [c, m]) :
    ∃ c1, (rb_class_ivar_copy_dict s (VALUE.ref h.length) klass).heap = h ++ [c1, m] ∧
      c1.methods = c.methods ∧ c1.super = c.super ∧
      same_roots s (rb_class_ivar_copy_dict s (VALUE.ref h.length) klass) := by
  unfold rb_class_ivar_copy_dict
  split
  · split
    · exact ⟨c, hs, rfl, rfl, same_roots_refl s⟩
    · exact ⟨_, modify_new_fst s h c m _ hs, rfl, rfl, same_roots_modify _ _ _⟩
  · exact ⟨c, hs, rfl, rfl, same_roots_refl s⟩

/-- Claim C14: `rb_singleton_class_clone` on an object whose class `K` is a
singleton class with a superclass, the conditions for creating an anonymous
class below that superclass being met (free name, finite valid chain, enough
fuel).  The selectors of the own method list of `K` are distinct, and a `K`
directly below the host root class owns `dup` and `initialize_copy` (which
every class created directly below the host root class is given).  Then the
call returns a class that did not exist before, distinct from `K`, tagged
is-singleton, with the superclass of `K`, and for every selector the clone
owns it exactly when `K` owns it, with the same implementation: what `K` owns
is copied, what `K` merely inherits is not added. -/
theorem rb_singleton_class_clone_copies (F n : Nat) (s : State) (obj : VALUE)
    (hsing : RCLASS_SINGLETON s (RBASIC_klass s obj) = true)
    (hsup : RCLASS_SUPER s (RBASIC_klass s obj) ≠ NULL)
    (hnodup : ((class_copyMethodList s (RBASIC_klass s obj)).map Method.sel).Nodup)
    (hns : RCLASS_SUPER s (RBASIC_klass s obj) = s.rb_cNSObject →
      (own_imp s (RBASIC_klass s obj) "dup").isSome = true ∧
      (own_imp s (RBASIC_klass s obj) "initialize_copy").isSome = true)
    (hc : can_create s (RCLASS_SUPER s (RBASIC_klass s obj)) n) (hF : n ≤ F) (hF2 : 2 ≤ F) :
    ∃ clone s1, rb_singleton_class_clone (F + 1) s obj = Except.ok (clone, s1) ∧
      deref s clone = none ∧ (deref s1 clone).isSome = true ∧ clone ≠ RBASIC_klass s obj ∧
      RCLASS_SINGLETON s1 clone = true ∧
      RCLASS_SUPER s1 clone = RCLASS_SUPER s (RBASIC_klass s obj) ∧
      ∀ S, own_imp s1 clone S = own_imp s (RBASIC_klass s obj) S := by
  unfold rb_singleton_class_clone
  simp only
  generalize hK : RBASIC_klass s obj = K at *
  rw [if_neg (by rw [hsing]; simp)]
  -- the record of K
  obtain ⟨ko, hko⟩ : ∃ ko, deref s K = some ko := by
    cases hd : deref s K with
    | some ko => exact ⟨ko, rfl⟩
    | none => simp [RCLASS_SINGLETON, RCLASS_VERSION, hd, Version.test] at hsing
  generalize hsupd : RCLASS_SUPER s K = sup at *
  have hksup : ko.super = sup := by rw [← hsupd]; unfold RCLASS_SUPER; rw [hko]
  -- the creation of the clone
  obtain ⟨clone, sC, hcr⟩ := rb_objc_create_class_total F n s sup hc hF hF2
  obtain ⟨c, m, hcl, hheap, hroots, hcrec, _, _, _, _, hsels⟩ :=
    create_class_exact (F + 1) s sC none sup clone hcr
  rw [if_neg hsup] at hcrec hsels
  subst hcl
  have hcsup : c.super = sup := by rw [hcrec]
  simp only [bind, Except.bind, hcr]
  -- the copy of the instance variables
  obtain ⟨c1, hheapI, hc1m, hc1s, hrootsI⟩ :=
    rb_class_ivar_copy_dict_new sC s.heap c m K hheap
  generalize rb_class_ivar_copy_dict sC (VALUE.ref s.heap.length) K = sI at hheapI hrootsI ⊢
  have hdI : deref sI (VALUE.ref s.heap.length) = some c1 := deref_new_fst sI s.heap c1 m hheapI
  have hkI : deref sI K = some ko := deref_old s sI _ hheapI K ko hko
  have hlist : class_copyMethodList sI K = ko.methods := by
    unfold class_copyMethodList; rw [hkI]
  have hsupI : RCLASS_SUPER sI (VALUE.ref s.heap.length) = sup := by
    rw [RCLASS_SUPER_new sI s.heap c1 m hheapI, hc1s, hcsup]
  have hPI : Pres s sI := Pres_of_append s sI _ hheapI
  obtain ⟨_, hlen, hvalid⟩ := hc
  rw [if_neg hsup] at hlen hvalid
  have hchainI : class_chain sI n sup = class_chain s n sup := class_chain_Pres s sI hPI n sup hvalid
  have hnotin : VALUE.ref s.heap.length ∉ class_chain sI n sup := by
    rw [hchainI]
    intro hmem
    have := hvalid _ hmem
    rw [deref_length_none] at this
    simp at this
  -- the copy loop
  obtain ⟨sM, hloop⟩ := rb_singleton_class_clone_methods_total (F + 1) n (VALUE.ref s.heap.length)
    (class_copyMethodList sI K) sI (by rw [hdI]; rfl) (by rw [hsupI, hchainI]; exact hlen)
    (by omega) (by rw [hsupI]; exact hnotin)
  rw [hloop]
  have hfr := rb_singleton_class_clone_methods_frame _ _ _ _ _ hloop
  obtain ⟨cM, hcM, hcMs, _⟩ := same_but_methods_deref hfr _ c1 hdI
  obtain ⟨hfin1, hfin2, hfin3, hfin4⟩ :=
    rb_singleton_class_clone_finish_obs sM (VALUE.ref s.heap.length) cM hcM
  refine ⟨_, _, rfl, deref_length_none s, hfin4, ?_, hfin1, ?_, ?_⟩
  · intro he
    rw [← he, deref_length_none] at hko
    simp at hko
  · rw [hfin2, (same_but_methods_super hfr _).1, hsupI]
  · intro S
    have hnd : (ko.methods.map Method.sel).Nodup := by
      have : class_copyMethodList s K = ko.methods := by
        unfold class_copyMethodList; rw [hko]
      rw [← this]; exact hnodup
    rw [hfin3, rb_singleton_class_clone_methods_own (F + 1) _ S _ sI sM (by rw [hdI]; rfl) hloop,
      hlist, last_imp_opt_spec S ko.methods _ hnd, own_imp_eq_find s K S ko hko]
    cases hf : ko.methods.find? (fun m => m.sel = S) with
    | some mm => rfl
    | none =>
      simp only
      rw [own_imp_eq_find sI _ S c1 hdI, hc1m]
      have hnone : c.methods.find? (fun m => m.sel = S) = none := by
        rw [List.find?_eq_none]
        intro x hx
        have hxs : x.sel ∈ c.methods.map (fun x => x.sel) := List.mem_map_of_mem _ hx
        rw [hsels] at hxs
        by_cases hN : sup = s.rb_cNSObject
        · rw [if_pos hN] at hxs
          obtain ⟨hdup, hini⟩ := hns hN
          rw [own_imp_eq_find s K _ ko hko] at hdup hini
          simp only [List.mem_cons, List.mem_singleton, List.not_mem_nil, or_false] at hxs
          intro hxS
          simp only [decide_eq_true_eq] at hxS
          rcases hxs with h1 | h1
          · rw [← hxS, h1] at hf
            rw [hf] at hini
            simp at hini
          · rw [← hxS, h1] at hf
            rw [hf] at hdup
            simp at hdup
        · rw [if_neg hN] at hxs
          simp at hxs
      rw [hnone]

theorem rb_singleton_class_clone_copies_witness :
    ∃ clone s1, rb_singleton_class_clone (4 + 1) ex_singleton_one (VALUE.ref 10) =
        Except.ok (clone, s1) ∧
      deref ex_singleton_one clone = none ∧ (deref s1 clone).isSome = true ∧
      clone ≠ RBASIC_klass ex_singleton_one (VALUE.ref 10) ∧
      RCLASS_SINGLETON s1 clone = true ∧
      RCLASS_SUPER s1 clone =
        RCLASS_SUPER ex_singleton_one (RBASIC_klass ex_singleton_one (VALUE.ref 10)) ∧
      ∀ S, own_imp s1 clone S =
        own_imp ex_singleton_one (RBASIC_klass ex_singleton_one (VALUE.ref 10)) S :=
  rb_singleton_class_clone_copies 4 4 ex_singleton_one (VALUE.ref 10) (by decide) (by decide)
    (by decide) (by decide) (by unfold can_create; decide) (by decide) (by decide)

/-! ### Cycles in the inclusion relation (C21) -/

theorem nosuper_loop_error_timeout (included : VALUE → Except Exn (List VALUE))
    (hinc : ∀ m e, included m = Except.error e → e = Exn.timeout) :
    ∀ (l ary : List VALUE) (e : Exn),
      rb_mod_included_modules_nosuper_loop included l ary = Except.error e → e = Exn.timeout := by
  intro l
  induction l with
  | nil => intro ary e h; simp [rb_mod_included_modules_nosuper_loop] at h
  | cons m rest ih =>
    intro ary e h
    unfold rb_mod_included_modules_nosuper_loop at h
    cases hm : included m with
    | error e1 =>
      simp only [hm, Except.error.injEq] at h
      rw [← h]; exact hinc m e1 hm
    | ok sub =>
      simp only [hm] at h
      exact ih _ _ h

theorem nosuper_error_timeout (included : VALUE → Except Exn (List VALUE))
    (hinc : ∀ m e, included m = Except.error e → e = Exn.timeout) (s : State) (p : VALUE)
    (ary : List VALUE) (e : Exn)
    (h : rb_mod_included_modules_nosuper included s p ary = Except.error e) :
    e = Exn.timeout := by
  unfold rb_mod_included_modules_nosuper at h
  split at h
  · simp at h
  · exact nosuper_loop_error_timeout included hinc _ _ _ h

theorem included_for_error_timeout (included : VALUE → Except Exn (List VALUE))
    (hinc : ∀ m e, included m = Except.error e → e = Exn.timeout) (s : State) :
    ∀ (fuel : Nat) (p : VALUE) (ary : List VALUE) (e : Exn),
      rb_mod_included_modules_for included s fuel p ary = Except.error e → e = Exn.timeout := by
  intro fuel
  induction fuel with
  | zero =>
    intro p ary e h
    simp only [rb_mod_included_modules_for, Except.error.injEq] at h
    exact h.symm
  | succ fuel ih =>
    intro p ary e h
    unfold rb_mod_included_modules_for at h
    split at h
    · simp at h
    · cases hn : rb_mod_included_modules_nosuper included s p ary with
      | error e1 =>
        simp only [hn, Except.error.injEq] at h
        rw [← h]; exact nosuper_error_timeout included hinc s p ary e1 hn
      | ok ary1 =>
        simp only [hn] at h
        split at h
        · simp at h
        · exact ih _ _ _ h

/-- The only way `rb_mod_included_modules` fails is by not terminating. -/
theorem included_modules_error_timeout (s : State) :
    ∀ (fuel : Nat) (m : VALUE) (e : Exn),
      rb_mod_included_modules fuel s m = Except.error e → e = Exn.timeout := by
  intro fuel
  induction fuel with
  | zero =>
    intro m e h
    simp only [rb_mod_included_modules, Except.error.injEq] at h
    exact h.symm
  | succ fuel ih =>
    intro m e h
    rw [rb_mod_included_modules] at h
    exact included_for_error_timeout _ ih s _ _ _ _ h

theorem nosuper_loop_timeout_of_mem (included : VALUE → Except Exn (List VALUE))
    (hinc : ∀ m e, included m = Except.error e → e = Exn.timeout) (x : VALUE)
    (hx : included x = Except.error Exn.timeout) :
    ∀ (l ary : List VALUE), x ∈ l →
      rb_mod_included_modules_nosuper_loop included l ary = Except.error Exn.timeout := by
  intro l
  induction l with
  | nil => intro ary h; simp at h
  | cons m rest ih =>
    intro ary hmem
    unfold rb_mod_included_modules_nosuper_loop
    cases hm : included m with
    | error e1 => rw [hinc m e1 hm]
    | ok sub =>
      simp only
      rcases List.mem_cons.1 hmem with h1 | h1
      · rw [h1, hm] at hx
        exact Except.noConfusion hx
      · exact ih _ h1

/-- A set of non-null descriptors in which each one has a member of the set in
its included-modules list: neither `rb_mod_included_modules` nor
`rb_mod_ancestors` terminates on a member, whatever the fuel. -/
theorem included_modules_cycle_timeout (s : State) (cyc : List VALUE)
    (hcyc : ∀ m ∈ cyc, m ≠ NULL ∧ ∃ x ∈ cyc, x ∈ (included_modules_ivar s m).getD []) :
    ∀ (fuel : Nat), ∀ m ∈ cyc,
      rb_mod_included_modules fuel s m = Except.error Exn.timeout ∧
      rb_mod_ancestors fuel s m = Except.error Exn.timeout := by
  intro fuel
  induction fuel with
  | zero => intro m _; exact ⟨rfl, rfl⟩
  | succ fuel ih =>
    intro m hm
    obtain ⟨hne, x, hxc, hxm⟩ := hcyc m hm
    have hnos : ∀ ary, rb_mod_included_modules_nosuper (rb_mod_included_modules fuel s) s m ary =
        Except.error Exn.timeout := by
      intro ary
      unfold rb_mod_included_modules_nosuper
      cases hl : included_modules_ivar s m with
      | none => simp [hl] at hxm
      | some l =>
        simp only [hl, Option.getD_some] at hxm ⊢
        exact nosuper_loop_timeout_of_mem _ (included_modules_error_timeout s fuel) x
          (ih x hxc).1 l ary hxm
    constructor
    · rw [rb_mod_included_modules, rb_mod_included_modules_for, if_neg hne, hnos]
    · rw [rb_mod_ancestors, rb_mod_ancestors_for, if_neg hne, hnos]

/-- Claim C21: `rb_include_module` lets a cycle into the included-modules
relation.  From the state with the two modules `A` and `B` and no inclusion,
`rb_include_module(A, A)` returns and leaves `A` in its own list; so do
`rb_include_module(A, B)` followed by `rb_include_module(B, A)`, which leave
`B` in the list of `A` and `A` in the list of `B`.  In both states
`rb_mod_included_modules` and `rb_mod_ancestors` on `A` do not terminate:
they run out of fuel whatever fuel they are given. -/
theorem rb_include_module_admits_cycles (fuel : Nat) :
    included_modules_ivar ex_two_modules (VALUE.ref 8) = none ∧
    included_modules_ivar ex_two_modules (VALUE.ref 10) = none ∧
    rb_include_module 4 ex_two_modules (VALUE.ref 8) (VALUE.ref 8) =
      Except.ok ((), ex_self_included) ∧
    included_modules_ivar ex_self_included (VALUE.ref 8) = some [VALUE.ref 8] ∧
    rb_mod_included_modules fuel ex_self_included (VALUE.ref 8) = Except.error Exn.timeout ∧
    rb_mod_ancestors fuel ex_self_included (VALUE.ref 8) = Except.error Exn.timeout ∧
    (∃ s1, rb_include_module 4 ex_two_modules (VALUE.ref 8) (VALUE.ref 10) = Except.ok ((), s1) ∧
      rb_include_module 4 s1 (VALUE.ref 10) (VALUE.ref 8) =
        Except.ok ((), ex_mutually_included)) ∧
    included_modules_ivar ex_mutually_included (VALUE.ref 8) = some [VALUE.ref 10] ∧
    included_modules_ivar ex_mutually_included (VALUE.ref 10) = some [VALUE.ref 8] ∧
    rb_mod_included_modules fuel ex_mutually_included (VALUE.ref 8) =
      Except.error Exn.timeout ∧
    rb_mod_ancestors fuel ex_mutually_included (VALUE.ref 8) = Except.error Exn.timeout := by
  have h1 := included_modules_cycle_timeout ex_self_included [VALUE.ref 8] (by decide) fuel
    (VALUE.ref 8) (by simp)
  have h2 := included_modules_cycle_timeout ex_mutually_included [VALUE.ref 8, VALUE.ref 10]
    (by decide) fuel (VALUE.ref 8) (by simp)
  exact ⟨by decide, by decide, by decide, by decide, h1.1, h1.2,
    ⟨state_of (rb_include_module 4 ex_two_modules (VALUE.ref 8) (VALUE.ref 10)) ex_two_modules,
      by decide, by decide⟩, by decide, by decide, h2.1, h2.2⟩

/-! ### Module kind under copy (C22) -/

theorem RCLASS_MODULE_setVersion (s : State) (k : VALUE) (v : Version)
    (hv : v.is_module = false) : RCLASS_MODULE (class_setVersion s k v) k = false := by
  unfold RCLASS_MODULE RCLASS_VERSION class_setVersion
  rw [deref_modify, if_pos rfl]
  cases hd : deref s k with
  | none => rfl
  | some o => simpa [Version.test] using hv

/-- Claim C22: `rb_mod_init_copy` does not preserve the module kind.  Whatever
the clone and the original, a call that returns leaves the clone without the
is-module flag, because the version word is recomputed from the ruby-class and
derives-from-root-object flags only.  On a module freshly made by
`rb_module_new` and the module `Mod` as original, the clone is a module before
the call and a class after it, and `rb_mod_ancestors`, which stopped at the
clone before, walks on to the root object class and the host root class
afterwards. -/
theorem rb_mod_init_copy_drops_module_kind :
    (∀ (s : State) (clone orig c : VALUE) (s1 : State),
      rb_mod_init_copy s clone orig = Except.ok (c, s1) → RCLASS_MODULE s1 clone = false) ∧
    RCLASS_MODULE ex_module_clone (VALUE.ref 12) = true ∧
    RCLASS_MODULE ex_module_clone (VALUE.ref 14) = true ∧
    rb_mod_ancestors 6 ex_module_clone (VALUE.ref 14) = Except.ok [VALUE.ref 14] ∧
    rb_mod_init_copy ex_module_clone (VALUE.ref 14) (VALUE.ref 12) =
      Except.ok (VALUE.ref 14, ex_module_cloned) ∧
    RCLASS_MODULE ex_module_cloned (VALUE.ref 14) = false ∧
    TYPE ex_module_cloned (VALUE.ref 14) = T_CLASS ∧
    rb_mod_ancestors 6 ex_module_cloned (VALUE.ref 14) =
      Except.ok [VALUE.ref 14, VALUE.ref 2, VALUE.ref 0] := by
  refine ⟨?_, by decide, by decide, by decide, by decide, by decide, by decide, by decide⟩
  intro s clone orig c s1 h
  unfold rb_mod_init_copy at h
  simp only [bind, Except.bind] at h
  cases ho : rb_obj_init_copy s clone orig with
  | error e => simp [ho] at h
  | ok r =>
    simp only [ho, pure, Except.pure, Except.ok.injEq, Prod.mk.injEq] at h
    rw [← h.2]
    apply RCLASS_MODULE_setVersion
    split_ifs <;> rfl

theorem rb_mod_init_copy_drops_module_kind_witness :
    RCLASS_MODULE ex_module_cloned (VALUE.ref 14) = false :=
  rb_mod_init_copy_drops_module_kind.1 ex_module_clone (VALUE.ref 14) (VALUE.ref 12)
    (VALUE.ref 14) ex_module_cloned (by decide)

/-! ### Selector to method name (C23) -/

theorem isupper_ne_colon (U : Char) (h : isupper U = true) : U ≠ ':' := by
  intro hc
  subst hc
  revert h
  decide

theorem count_colon_append (body : List Char) (h : ':' ∉ body) :
    (body ++ [':']).count ':' = 1 := by
  rw [List.count_append, List.count_eq_zero_of_not_mem h]
  rfl

/-- The setter rule of `rb_objc_push_methods`. -/
theorem push_methods_name_setter (U : Char) (rest : List Char) (hU : isupper U = true)
    (hrest : ':' ∉ rest) (hlen : rest.length + 5 < 100) :
    rb_objc_push_methods_name (String.mk ('s' :: 'e' :: 't' :: U :: rest ++ [':'])) =
      Except.ok (String.mk (tolower U :: rest ++ ['='])) := by
  have hcount : ('s' :: 'e' :: 't' :: U :: rest ++ [':']).count ':' = 1 := by
    have h4 : ('s' :: 'e' :: 't' :: U :: rest ++ [':']) = ('s' :: 'e' :: 't' :: U :: rest) ++ [':'] := rfl
    rw [h4]
    apply count_colon_append
    intro hm
    simp only [List.mem_cons] at hm
    rcases hm with h | h | h | h | h
    · revert h; decide
    · revert h; decide
    · revert h; decide
    · exact isupper_ne_colon U hU h.symm
    · exact hrest h
  have hl : ('s' :: 'e' :: 't' :: U :: rest ++ [':']).length = rest.length + 5 := by simp
  have hset : (U :: rest ++ [':']).set (rest.length + 5 - 4) '=' = U :: rest ++ ['='] := by
    have : rest.length + 5 - 4 = rest.length + 1 := by omega
    rw [this]
    show U :: (rest ++ [':']).set rest.length '=' = U :: rest ++ ['=']
    rw [List.set_append_right _ _ (le_refl _)]
    simp
  unfold rb_objc_push_methods_name
  simp only [hcount, if_true, hl]
  rw [if_neg (by omega), if_pos ⟨by omega, rfl, rfl, rfl, hU⟩]
  show Except.ok (String.mk (((U :: rest ++ [':']).set (rest.length + 5 - 4) '=').set 0
    (tolower (((U :: rest ++ [':']).set (rest.length + 5 - 4) '=').getD 0 (Char.ofNat 0))))) = _
  rw [hset]
  rfl

/-- The rule of `rb_objc_push_methods` for the other selectors that end in
their only colon. -/
theorem push_methods_name_colon (body : List Char) (hbody : ':' ∉ body)
    (hlen : body.length + 1 < 100)
    (hform : ¬ ∃ U rest, isupper U = true ∧ body = 's' :: 'e' :: 't' :: U :: rest) :
    rb_objc_push_methods_name (String.mk (body ++ [':'])) = Except.ok (String.mk body) := by
  have hcount := count_colon_append body hbody
  have hl : (body ++ [':']).length = body.length + 1 := by simp
  have hcond : ¬ ((body ++ [':']).length > 4 ∧ (body ++ [':']).getD 0 (Char.ofNat 0) = 's' ∧
      (body ++ [':']).getD 1 (Char.ofNat 0) = 'e' ∧ (body ++ [':']).getD 2 (Char.ofNat 0) = 't' ∧
      isupper ((body ++ [':']).getD 3 (Char.ofNat 0)) = true) := by
    rintro ⟨h0, h1, h2, h3, h4⟩
    match body, hform with
    | [], _ => simp at h0
    | [_], _ => simp at h0
    | [_, _], _ => simp at h0
    | [_, _, _], _ => simp at h0
    | a :: b :: c :: d :: rest, hform =>
      simp only [List.cons_append, List.getD_cons_zero, List.getD_cons_succ] at h1 h2 h3 h4
      exact hform ⟨d, rest, h4, by rw [h1, h2, h3]⟩
  unfold rb_objc_push_methods_name
  simp only [hcount, if_true]
  rw [if_neg (by rw [hl]; omega), if_neg hcond, hl]
  simp

/-- A selector with no colon, or with two colons or more, is listed as it is. -/
theorem push_methods_name_verbatim (sel : String) (h : sel.data.count ':' ≠ 1) :
    rb_objc_push_methods_name sel = Except.ok sel := by
  unfold rb_objc_push_methods_name
  simp only [if_neg h]

/-- A selector with exactly one colon and 100 characters or more fails the
assert on the buffer. -/
theorem push_methods_name_long (sel : String) (h : sel.data.count ':' = 1)
    (hlen : 100 ≤ sel.data.length) :
    rb_objc_push_methods_name sel = Except.error Exn.assertion := by
  unfold rb_objc_push_methods_name
  simp only [h, if_true]
  rw [if_pos (by omega)]

/-- Claim C23 (amended): the selector-to-name mapping of
`rb_objc_push_methods`.  A selector shorter than 100 characters that ends in
its only colon and has the form `set<U>rest:` with `U` an upper-case letter is
listed as `<u>rest=`; any other selector shorter than 100 characters that ends
in its only colon is listed without that colon; a selector with no colon or
with two colons or more is listed as it is; a selector with exactly one colon
and 100 characters or more fails the assert.  The ignored selector, and a
selector that starts with an underscore and whose implementation has no
method node, are not listed; every other method is listed under the name so
computed, unless the array holds that name already. -/
theorem rb_objc_push_methods_name_rules (s : State) :
    (∀ (U : Char) (rest : List Char), isupper U = true → ':' ∉ rest → rest.length + 5 < 100 →
      rb_objc_push_methods_name (String.mk ('s' :: 'e' :: 't' :: U :: rest ++ [':'])) =
        Except.ok (String.mk (tolower U :: rest ++ ['=']))) ∧
    (∀ (body : List Char), ':' ∉ body → body.length + 1 < 100 →
      (¬ ∃ U rest, isupper U = true ∧ body = 's' :: 'e' :: 't' :: U :: rest) →
      rb_objc_push_methods_name (String.mk (body ++ [':'])) = Except.ok (String.mk body)) ∧
    (∀ (sel : String), sel.data.count ':' ≠ 1 → rb_objc_push_methods_name sel = Except.ok sel) ∧
    (∀ (sel : String), sel.data.count ':' = 1 → 100 ≤ sel.data.length →
      rb_objc_push_methods_name sel = Except.error Exn.assertion) ∧
    (∀ (ary : List String) (method : Method) (rest : List Method),
      method.sel = s.sel_ignored →
      rb_objc_push_methods_loop s ary (method :: rest) = rb_objc_push_methods_loop s ary rest) ∧
    (∀ (ary : List String) (method : Method) (rest : List Method),
      rb_objc_method_node3 method.imp = none → cstr_head method.sel.data = '_' →
      rb_objc_push_methods_loop s ary (method :: rest) = rb_objc_push_methods_loop s ary rest) ∧
    (∀ (ary : List String) (method : Method) (rest : List Method) (sym : String),
      method.sel ≠ s.sel_ignored →
      ¬ (rb_objc_method_node3 method.imp = none ∧ cstr_head method.sel.data = '_') →
      rb_objc_push_methods_name method.sel = Except.ok sym →
      rb_objc_push_methods_loop s ary (method :: rest) =
        rb_objc_push_methods_loop s (if ary.contains sym = false then ary ++ [sym] else ary)
          rest) ∧
    rb_objc_push_methods_name "setFoo:" = Except.ok "foo=" ∧
    rb_objc_push_methods_name "foo:" = Except.ok "foo" ∧
    rb_objc_push_methods_name "foo" = Except.ok "foo" ∧
    rb_objc_push_methods_name "foo:bar:" = Except.ok "foo:bar:" := by
  refine ⟨push_methods_name_setter, push_methods_name_colon, push_methods_name_verbatim,
    push_methods_name_long, ?_, ?_, ?_, by decide, by decide, by decide, by decide⟩
  · intro ary method rest h
    rw [rb_objc_push_methods_loop]
    simp only [h, if_true]
  · intro ary method rest h1 h2
    rw [rb_objc_push_methods_loop]
    by_cases hi : method.sel = s.sel_ignored
    · simp only [hi, if_true]
    · simp only [hi, if_false, h1, h2, and_self, if_true]
  · intro ary method rest sym h1 h2 h3
    rw [rb_objc_push_methods_loop]
    simp only [if_neg h1, if_neg h2, h3]
    split <;> rfl

/-- Claim C23, the claim as first stated fails: the selector made of 99
letters and a final colon has exactly one colon and is not listed at all (the
assert on the 100-character buffer fails); and the selector `setA:b`, which has
exactly one colon but does not end in it, is listed as `a:=` and not with its
final character removed. -/
theorem rb_objc_push_methods_name_counterexample :
    (String.mk (List.replicate 99 'a' ++ [':'])).data.count ':' = 1 ∧
    rb_objc_push_methods_name (String.mk (List.replicate 99 'a' ++ [':'])) =
      Except.error Exn.assertion ∧
    ("setA:b" : String).data.count ':' = 1 ∧
    rb_objc_push_methods_name "setA:b" = Except.ok "a:=" ∧
    rb_objc_push_methods_name "setA:b" ≠ Except.ok "setA:" := by
  decide

theorem rb_objc_push_methods_name_rules_witness :
    rb_objc_push_methods_name (String.mk ('s' :: 'e' :: 't' :: 'B' :: ['a', 'r'] ++ [':'])) =
        Except.ok (String.mk (tolower 'B' :: ['a', 'r'] ++ ['='])) ∧
      rb_objc_push_methods_name (String.mk (['s', 'e', 't'] ++ [':'])) =
        Except.ok (String.mk ['s', 'e', 't']) :=
  ⟨(rb_objc_push_methods_name_rules ex_base).1 'B' ['a', 'r'] (by decide) (by decide)
      (by decide),
    (rb_objc_push_methods_name_rules ex_base).2.1 ['s', 'e', 't'] (by decide) (by decide)
      (by simp)⟩

/-! ### Argument scanning (C24) -/

theorem ISDIGIT_ne_star (c : Char) (h : ISDIGIT c = true) : c ≠ '*' ∧ c ≠ '&' := by
  constructor
  · intro hc; subst hc; revert h; decide
  · intro hc; subst hc; revert h; decide

theorem scan_outs_mandatory (argv : List VALUE) :
    ∀ n, n ≤ argv.length →
      (argv.take n).map ScanOut.val =
        (List.range n).map (fun i => ScanOut.val (argv.getD i VALUE.Qnil)) := by
  intro n hn
  apply List.ext_getElem
  · simp [hn]
  · intro i h1 h2
    simp only [List.length_map, List.length_take, List.length_range] at h1 h2
    simp only [List.getElem_map, List.getElem_take, List.getElem_range]
    rw [List.getD_eq_getElem _ _ (by omega)]

theorem scan_outs_optional (argv : List VALUE) (n m : Nat) :
    (List.range m).map (fun k => if argv.length > n + k
        then ScanOut.val (argv.getD (n + k) VALUE.Qnil) else ScanOut.val VALUE.Qnil) =
      (List.range m).map (fun k => ScanOut.val (argv.getD (n + k) VALUE.Qnil)) := by
  apply List.map_congr_left
  intro k _
  split
  · rfl
  · rw [List.getD_eq_default _ _ (by omega)]

theorem scan_outs_all (argv : List VALUE) (n m : Nat) (hn : n ≤ argv.length) :
    (argv.take n).map ScanOut.val ++ (List.range m).map (fun k => if argv.length > n + k
        then ScanOut.val (argv.getD (n + k) VALUE.Qnil) else ScanOut.val VALUE.Qnil) =
      (List.range (n + m)).map (fun i => ScanOut.val (argv.getD i VALUE.Qnil)) := by
  rw [scan_outs_mandatory argv n hn, scan_outs_optional, List.range_add, List.map_append,
    List.map_map]
  rfl

theorem scan_args_block_end (block : VALUE) (argv : List VALUE) (i : Nat)
    (outs : List ScanOut) :
    rb_scan_args_block block argv i [] outs =
      if argv.length > i then Except.error Exn.ArgError else Except.ok (argv.length, outs) := by
  unfold rb_scan_args_block
  have h1 : cstr_head ([] : List Char) ≠ '&' := by decide
  have h2 : ¬ (cstr_head ([] : List Char) ≠ Char.ofNat 0) := by decide
  simp only [if_neg h1, if_neg h2]

theorem scan_args_digit (block : VALUE) (argv : List VALUE) (dn : Char)
    (hd : ISDIGIT dn = true) :
    rb_scan_args block argv (String.mk [dn]) =
      if argv.length = dn.toNat - '0'.toNat then
        Except.ok (argv.length,
          (List.range (dn.toNat - '0'.toNat)).map (fun i => ScanOut.val (argv.getD i VALUE.Qnil)))
      else Except.error Exn.ArgError := by
  obtain ⟨hs, _⟩ := ISDIGIT_ne_star dn hd
  unfold rb_scan_args
  have e1 : cstr_head (String.mk [dn]).data = dn := rfl
  have e2 : (String.mk [dn]).data.tail = [] := rfl
  simp only [e1, e2, if_neg hs, hd, if_true]
  have h3 : ISDIGIT (cstr_head ([] : List Char)) = false := by decide
  have h4 : cstr_head ([] : List Char) ≠ '*' := by decide
  generalize dn.toNat - '0'.toNat = n
  by_cases hgt : n > argv.length
  · rw [if_pos hgt, if_neg (by omega)]
  · rw [if_neg hgt]
    simp only [h3, Bool.false_eq_true, if_false, if_neg h4, scan_args_block_end]
    by_cases he : argv.length = n
    · rw [if_neg (by omega), if_pos he, scan_outs_mandatory argv n (by omega)]
    · rw [if_pos (by omega), if_neg he]

theorem scan_args_two_digits (block : VALUE) (argv : List VALUE) (dn dm : Char)
    (hd : ISDIGIT dn = true) (hm : ISDIGIT dm = true) :
    rb_scan_args block argv (String.mk [dn, dm]) =
      if dn.toNat - '0'.toNat ≤ argv.length ∧
          argv.length ≤ dn.toNat - '0'.toNat + (dm.toNat - '0'.toNat) then
        Except.ok (argv.length,
          (List.range (dn.toNat - '0'.toNat + (dm.toNat - '0'.toNat))).map
            (fun i => ScanOut.val (argv.getD i VALUE.Qnil)))
      else Except.error Exn.ArgError := by
  obtain ⟨hs, _⟩ := ISDIGIT_ne_star dn hd
  unfold rb_scan_args
  have e1 : cstr_head (String.mk [dn, dm]).data = dn := rfl
  have e2 : (String.mk [dn, dm]).data.tail = [dm] := rfl
  have e3 : cstr_head [dm] = dm := rfl
  have e4 : [dm].tail = ([] : List Char) := rfl
  simp only [e1, e2, if_neg hs, hd, if_true, e3, hm, e4]
  have h4 : cstr_head ([] : List Char) ≠ '*' := by decide
  generalize dn.toNat - '0'.toNat = n
  generalize dm.toNat - '0'.toNat = m
  by_cases hgt : n > argv.length
  · rw [if_pos hgt, if_neg (by omega)]
  · rw [if_neg hgt]
    simp only [if_neg h4, scan_args_block_end, Nat.add_sub_cancel_left]
    by_cases he : argv.length ≤ n + m
    · rw [if_neg (by omega), if_pos ⟨by omega, he⟩, scan_outs_all argv n m (by omega)]
    · rw [if_pos (by omega), if_neg (by omega)]

theorem scan_args_bad_start (block : VALUE) (argv : List VALUE) (fmt : String)
    (h1 : cstr_head fmt.data ≠ '*') (h2 : ISDIGIT (cstr_head fmt.data) = false) :
    rb_scan_args block argv fmt = Except.error Exn.fatal := by
  unfold rb_scan_args
  simp only [if_neg h1, h2, Bool.false_eq_true, if_false]

theorem scan_args_block_leftover (block : VALUE) (argv : List VALUE) (i : Nat) (p : List Char)
    (outs : List ScanOut)
    (h : cstr_head (if cstr_head p = '&' then p.tail else p) ≠ Char.ofNat 0) :
    rb_scan_args_block block argv i p outs = Except.error Exn.fatal := by
  unfold rb_scan_args_block
  by_cases ha : cstr_head p = '&'
  · rw [if_pos ha] at h
    simp only [if_pos ha, if_pos h]
  · rw [if_neg ha] at h
    simp only [if_neg ha, if_pos h]

theorem scan_args_rest_leftover (block : VALUE) (argv : List VALUE) (i : Nat) (p : List Char)
    (outs : List ScanOut)
    (h : cstr_head (if cstr_head p.tail = '&' then p.tail.tail else p.tail) ≠ Char.ofNat 0) :
    rb_scan_args_rest block argv i p outs = Except.error Exn.fatal := by
  unfold rb_scan_args_rest
  split
  · exact scan_args_block_leftover _ _ _ _ _ h
  · exact scan_args_block_leftover _ _ _ _ _ h

/-- A format with characters left after the directives `rb_scan_args`
recognises is a fatal error, unless it starts with a digit that asks for more
arguments than were given: then the argument error comes first. -/
theorem scan_args_leftover (block : VALUE) (argv : List VALUE) (fmt : String)
    (hstart : cstr_head fmt.data = '*' ∨ ISDIGIT (cstr_head fmt.data) = true)
    (hleft : cstr_head (scan_format_leftover fmt.data) ≠ Char.ofNat 0) :
    rb_scan_args block argv fmt =
      if ISDIGIT (cstr_head fmt.data) = true ∧
          (cstr_head fmt.data).toNat - '0'.toNat > argv.length then
        Except.error Exn.ArgError
      else Except.error Exn.fatal := by
  unfold scan_format_leftover at hleft
  unfold rb_scan_args
  simp only at hleft ⊢
  by_cases hs : cstr_head fmt.data = '*'
  · have hnd : ISDIGIT (cstr_head fmt.data) = false := by rw [hs]; decide
    rw [if_pos hs] at hleft
    rw [if_pos hs, if_neg (by rw [hnd]; simp)]
    exact scan_args_rest_leftover _ _ _ _ _ hleft
  · have hd : ISDIGIT (cstr_head fmt.data) = true := by
      rcases hstart with h | h
      · exact absurd h hs
      · exact h
    rw [if_neg hs] at hleft
    rw [if_neg hs, if_pos hd]
    by_cases hgt : (cstr_head fmt.data).toNat - '0'.toNat > argv.length
    · rw [if_pos hgt, if_pos ⟨hd, hgt⟩]
    · have hrhs : ¬ (ISDIGIT (cstr_head fmt.data) = true ∧
          (cstr_head fmt.data).toNat - '0'.toNat > argv.length) := fun h => hgt h.2
      rw [if_neg hgt, if_neg hrhs]
      by_cases h2 : ISDIGIT (cstr_head fmt.data.tail) = true
      · simp only [h2, if_true] at hleft ⊢
        by_cases h3 : cstr_head fmt.data.tail.tail = '*'
        · simp only [h3, if_true] at hleft ⊢
          exact scan_args_rest_leftover _ _ _ _ _ hleft
        · simp only [h3, if_false] at hleft ⊢
          exact scan_args_block_leftover _ _ _ _ _ hleft
      · have h2f : ISDIGIT (cstr_head fmt.data.tail) = false := by simpa using h2
        simp only [h2f, Bool.false_eq_true, if_false] at hleft ⊢
        by_cases h3 : cstr_head fmt.data.tail = '*'
        · simp only [h3, if_true] at hleft ⊢
          exact scan_args_rest_leftover _ _ _ _ _ hleft
        · simp only [h3, if_false] at hleft ⊢
          exact scan_args_block_leftover _ _ _ _ _ hleft

/-- Claim C24 (amended): `rb_scan_args` on a format made of a digit `n`
optionally followed by a digit `m`.  It returns the number of arguments
exactly when that number is at least `n` and at most `n + m` (exactly `n`
without a second digit) and raises an argument error otherwise; on success
output `i` receives argument `i` when there is one and nil when there is
none.  With the format `01`: no argument gives nil, one argument gives that
argument, two arguments raise.  A format that starts neither with a digit nor
with `*` is a fatal error.  A format with characters left after the
recognised directives is a fatal error as well, unless it starts with a digit
that asks for more arguments than were given: then the argument error is
raised first. -/
theorem rb_scan_args_digit_formats (block : VALUE) (argv : List VALUE) :
    (∀ dn : Char, ISDIGIT dn = true →
      rb_scan_args block argv (String.mk [dn]) =
        if argv.length = dn.toNat - '0'.toNat then
          Except.ok (argv.length,
            (List.range (dn.toNat - '0'.toNat)).map
              (fun i => ScanOut.val (argv.getD i VALUE.Qnil)))
        else Except.error Exn.ArgError) ∧
    (∀ dn dm : Char, ISDIGIT dn = true → ISDIGIT dm = true →
      rb_scan_args block argv (String.mk [dn, dm]) =
        if dn.toNat - '0'.toNat ≤ argv.length ∧
            argv.length ≤ dn.toNat - '0'.toNat + (dm.toNat - '0'.toNat) then
          Except.ok (argv.length,
            (List.range (dn.toNat - '0'.toNat + (dm.toNat - '0'.toNat))).map
              (fun i => ScanOut.val (argv.getD i VALUE.Qnil)))
        else Except.error Exn.ArgError) ∧
    rb_scan_args block [] "01" = Except.ok (0, [ScanOut.val VALUE.Qnil]) ∧
    (∀ a, rb_scan_args block [a] "01" = Except.ok (1, [ScanOut.val a])) ∧
    (∀ a b, rb_scan_args block [a, b] "01" = Except.error Exn.ArgError) ∧
    (∀ fmt : String, cstr_head fmt.data ≠ '*' → ISDIGIT (cstr_head fmt.data) = false →
      rb_scan_args block argv fmt = Except.error Exn.fatal) ∧
    (∀ fmt : String, cstr_head fmt.data = '*' ∨ ISDIGIT (cstr_head fmt.data) = true →
      cstr_head (scan_format_leftover fmt.data) ≠ Char.ofNat 0 →
      rb_scan_args block argv fmt =
        if ISDIGIT (cstr_head fmt.data) = true ∧
            (cstr_head fmt.data).toNat - '0'.toNat > argv.length then
          Except.error Exn.ArgError
        else Except.error Exn.fatal) :=
  ⟨fun dn h => scan_args_digit block argv dn h,
    fun dn dm h1 h2 => scan_args_two_digits block argv dn dm h1 h2,
    rfl, fun _ => rfl, fun _ _ => rfl,
    fun fmt h1 h2 => scan_args_bad_start block argv fmt h1 h2,
    fun fmt h1 h2 => scan_args_leftover block argv fmt h1 h2⟩

/-- Claim C24, the claim as first stated fails: the format `1x` has the
character `x` left after its directive, and with no argument `rb_scan_args`
raises the argument error, not the fatal error. -/
theorem rb_scan_args_leftover_counterexample :
    cstr_head (scan_format_leftover ("1x" : String).data) = 'x' ∧
    rb_scan_args VALUE.Qnil [] "1x" = Except.error Exn.ArgError ∧
    rb_scan_args VALUE.Qnil [] "1x" ≠ Except.error Exn.fatal ∧
    rb_scan_args VALUE.Qnil [VALUE.Qtrue] "1x" = Except.error Exn.fatal := by
  decide

theorem rb_scan_args_digit_formats_witness :
    rb_scan_args VALUE.Qnil [VALUE.fixnum 7] (String.mk ['1', '2']) =
        (if '1'.toNat - '0'.toNat ≤ [VALUE.fixnum 7].length ∧
            [VALUE.fixnum 7].length ≤ '1'.toNat - '0'.toNat + ('2'.toNat - '0'.toNat) then
          Except.ok ([VALUE.fixnum 7].length,
            (List.range ('1'.toNat - '0'.toNat + ('2'.toNat - '0'.toNat))).map
              (fun i => ScanOut.val ([VALUE.fixnum 7].getD i VALUE.Qnil)))
        else Except.error Exn.ArgError) ∧
      rb_scan_args VALUE.Qnil [VALUE.fixnum 7] "x1" = Except.error Exn.fatal :=
  ⟨(rb_scan_args_digit_formats VALUE.Qnil [VALUE.fixnum 7]).2.1 '1' '2' (by decide) (by decide),
    (rb_scan_args_digit_formats VALUE.Qnil [VALUE.fixnum 7]).2.2.2.2.2.1 "x1" (by decide)
      (by decide)⟩

end MacRuby
